import Mathlib

/-!
# Connect 4: board model, win detection and fixed-depth search

A shallow embedding of `connect4.c`.  C `int` values are `Int`; the arrays
`Scene[MaxY+1][MaxX+1]`, `NextMove[MaxX+1][2]` and `VictoryProbability[MaxX+1]`
are lists (of lists) read and written through `readAt`/`writeAt`.  C leaves an
access outside the declared bounds undefined; here such a read yields `0` and
such a write changes nothing; on the well-formed states the theorems are about, every
access stays inside the bounds.  The local `BestMoveX` of `EvaluateBestMove` has no
initialiser in C, so it is an `Option Int` that starts as `none`.  The global
`VictoryProbability` is threaded through the search as an argument and a result.  All
values stay far below the range of a 32-bit `int`, so no arithmetic wraps.
-/

set_option autoImplicit false

namespace Connect4

/-! ## Constants -/

/-- Largest column index (`#define MaxX 6`). -/
def MaxX : Int := 6

/-- Largest row index (`#define MaxY 5`). -/
def MaxY : Int := 5

/-- Rating of a position won by the computer. -/
def WinPosition : Int := 1000

/-- Rating of a position won by the user. -/
def LosePosition : Int := 0

/-- Rating of an undecided position at the depth limit. -/
def NeutralPosition : Int := -1000

/-- Depth limit of the search. -/
def MaxDepth : Int := 8

/-! ## Arrays -/

/-- The indices `0, 1, ..., n` in ascending order, as in `for(i=0;i<=n;i++)`. -/
def upTo (n : Int) : List Int := (List.range (n.toNat + 1)).map Int.ofNat

/-- The indices `n, n-1, ..., 0` in descending order, as in `for(y=n;y>=0;y--)`. -/
def downFrom (n : Int) : List Int := (upTo n).reverse

/-- Read `a[i]`. -/
def readAt (a : List Int) (i : Int) : Int :=
  if i < 0 then 0 else a.getD i.toNat 0

/-- Write `a[i] = v`. -/
def writeAt (a : List Int) (i : Int) (v : Int) : List Int :=
  if i < 0 then a else a.set i.toNat v

/-- Read `g[r][c]`. -/
def readAt2 (g : List (List Int)) (r c : Int) : Int :=
  if r < 0 then 0 else readAt (g.getD r.toNat []) c

/-- Write `g[r][c] = v`. -/
def writeAt2 (g : List (List Int)) (r c : Int) (v : Int) : List (List Int) :=
  if r < 0 then g else g.set r.toNat (writeAt (g.getD r.toNat []) c v)

/-! ## Data model -/

/-- Player flag: `PLAYER_A = 1` is the user, `PLAYER_B = 2` the computer. -/
inductive PLAYER where
  | PLAYER_A
  | PLAYER_B
deriving DecidableEq, Repr

/-- The integer value of the enumeration constant. -/
def PLAYER.toInt : PLAYER → Int
  | .PLAYER_A => 1
  | .PLAYER_B => 2

/-- The game state `RoundState`. `Scene` is indexed `[y][x]`, `NextMove` is indexed
`[column][0 or 1]`. -/
structure RoundState where
  Scene : List (List Int)
  NextMove : List (List Int)
  CurrentPlayer : PLAYER
  Moves : Int
deriving DecidableEq, Repr

/-- The direction matrix used by `FindWinner`. -/
def Direction : List (List Int) :=
  [[0, -1], [1, -1], [1, 0], [1, 1], [0, 1], [-1, 1], [-1, 0], [-1, -1]]

/-! ## Board operations -/

/-- The function `GameInit`: the fresh state for `player` together with the cleared
`VictoryProbability` table. -/
def GameInit (player : PLAYER) : RoundState × List Int :=
  let scene0 := (upTo MaxY).map (fun _ => (upTo MaxX).map (fun _ => (-1 : Int)))
  let scene1 := (upTo MaxX).foldl (fun sc j => writeAt2 sc MaxY j 0) scene0
  let next := (upTo MaxX).map (fun i => [i, MaxY])
  let tally := (upTo MaxX).map (fun _ => (0 : Int))
  ({ Scene := scene1, NextMove := next, CurrentPlayer := player, Moves := 0 }, tally)

/-- The function `Opponent`: the other player. -/
def Opponent (CurrentPlayer : PLAYER) : PLAYER :=
  match CurrentPlayer with
  | .PLAYER_A => .PLAYER_B
  | .PLAYER_B => .PLAYER_A

/-- The function `CalculateCoordinateY`: the second component of the first `NextMove` entry whose
first component is `x`, else `-1`. -/
def CalculateCoordinateY (state : RoundState) (x : Int) : Int :=
  match (upTo MaxX).find? (fun i => readAt2 state.NextMove i 0 == x) with
  | some i => readAt2 state.NextMove i 1
  | none => -1

/-- The function `CheckNextStep`: whether `(x, y)` is one of the enabled `NextMove` entries. -/
def CheckNextStep (state : RoundState) (x y : Int) : Bool :=
  if y = -1 then false
  else (upTo MaxX).any (fun i =>
    if readAt2 state.NextMove i 0 = -1 then false
    else decide (readAt2 state.NextMove i 0 = x ∧ readAt2 state.NextMove i 1 = y))

/-- The function `MakeMove`: put the current player's piece at `(x, y)`, open the cell above or
disable the column, switch the player and count the move. The counter is an unbounded
integer here: this is the source's `Moves++` as long as `Moves + 1` is a value of `int`. -/
def MakeMove (state : RoundState) (x y : Int) : RoundState :=
  let scene1 := writeAt2 state.Scene y x state.CurrentPlayer.toInt
  let scene2 := if y > 0 then writeAt2 scene1 (y - 1) x 0 else scene1
  let next2 :=
    if y > 0 then writeAt2 (writeAt2 state.NextMove x 0 x) x 1 (y - 1)
    else if y = 0 then writeAt2 (writeAt2 state.NextMove x 0 (-1)) x 1 (-1)
    else state.NextMove
  { Scene := scene2
    NextMove := next2
    CurrentPlayer := Opponent state.CurrentPlayer
    Moves := state.Moves + 1 }

/-- The function `RetractMove`: clear `(x, y)`, forbid the cell above, make `(x, y)` the drop
target again, switch the player and roll the counter back. The counter is an unbounded
integer here: this is the source's `Moves--` as long as `Moves - 1` is a value of `int`. -/
def RetractMove (state : RoundState) (x y : Int) : RoundState :=
  let scene1 := writeAt2 state.Scene y x 0
  let scene2 := if y > 0 then writeAt2 scene1 (y - 1) x (-1) else scene1
  { Scene := scene2
    NextMove := writeAt2 (writeAt2 state.NextMove x 0 x) x 1 y
    CurrentPlayer := Opponent state.CurrentPlayer
    Moves := state.Moves - 1 }

/-! ## Win detection -/

/-- The innermost loop of `FindWinner`: walk `n` further steps from `(NextX, NextY)`
along `(dx, dy)`; the result is the final value of `pass`. -/
def strandPass (scene : List (List Int)) (id dx dy : Int) : Nat → Int → Int → Bool
  | 0, _, _ => true
  | n + 1, NextX, NextY =>
    let NextX1 := NextX + dx
    let NextY1 := NextY + dy
    if (NextX1 < 0 ∨ NextX1 > MaxX) ∨ (NextY1 < 0 ∨ NextY1 > MaxY) then false
    else if readAt2 scene NextY1 NextX1 ≠ id then false
    else strandPass scene id dx dy n NextX1 NextY1

/-- The direction loop of `FindWinner` at origin `(x, y)` holding `id`: whether some
direction `m` passes. -/
def anyStrand (scene : List (List Int)) (x y id : Int) : Bool :=
  (upTo 7).any (fun m =>
    strandPass scene id (readAt2 Direction m 0) (readAt2 Direction m 1) 3 x y)

/-- The row loop of `FindWinner` in column `x`: `some id` when the function returns
`id`, `none` when the loop ends (by `break` or by running out of rows). -/
def scanColumn (scene : List (List Int)) (x : Int) : List Int → Option Int
  | [] => none
  | y :: ys =>
    let id := readAt2 scene y x
    if id = 0 ∨ id = -1 then none
    else if anyStrand scene x y id then some id
    else scanColumn scene x ys

/-- The column loop of `FindWinner`. -/
def scanColumns (scene : List (List Int)) : List Int → Int
  | [] => -1
  | x :: xs =>
    match scanColumn scene x (downFrom MaxY) with
    | some id => id
    | none => scanColumns scene xs

/-- The function `FindWinner`: `-1`, or the value of a cell that starts four equal cells in a line. -/
def FindWinner (state : RoundState) : Int :=
  if state.Moves < 7 then -1 else scanColumns state.Scene (upTo MaxX)

/-! ## Search -/

/-- The locals of `EvaluateBestMove` that live across loop iterations, with the global
`VictoryProbability`. -/
structure SearchLoop where
  state : RoundState
  VictoryProbability : List Int
  BestMoveX : Option Int
  MaxRating : Int
deriving DecidableEq, Repr

/-- What `EvaluateBestMove` leaves behind: its return value, `*MoveRating` and the
global `VictoryProbability`. -/
structure BestMove where
  BestMoveX : Option Int
  MoveRating : Int
  VictoryProbability : List Int
deriving DecidableEq, Repr

/-- One iteration of the column loop of `EvaluateBestMove`; `evalNext` is
`EvaluatePosition` at `depth + 1`. -/
def EvaluateBestMoveStep (evalNext : RoundState → List Int → Int × List Int)
    (acc : SearchLoop) (i : Int) : SearchLoop :=
  if readAt2 acc.state.NextMove i 0 = -1 then acc
  else
    let Move0 := readAt2 acc.state.NextMove i 0
    let Move1 := readAt2 acc.state.NextMove i 1
    let state1 := MakeMove acc.state Move0 Move1
    let res := evalNext state1 acc.VictoryProbability
    let Rating := res.1
    let vp1 := if Rating = WinPosition then writeAt res.2 i (readAt res.2 i + 1) else res.2
    let best := if Rating > acc.MaxRating then some Move0 else acc.BestMoveX
    let maxr := if Rating > acc.MaxRating then Rating else acc.MaxRating
    { state := RetractMove state1 Move0 Move1
      VictoryProbability := vp1
      BestMoveX := best
      MaxRating := maxr }

/-- The column loop of `EvaluateBestMove`. -/
def EvaluateBestMoveLoop (evalNext : RoundState → List Int → Int × List Int)
    (state : RoundState) (vp : List Int) : SearchLoop :=
  (upTo MaxX).foldl (EvaluateBestMoveStep evalNext)
    { state := state, VictoryProbability := vp, BestMoveX := none,
      MaxRating := NeutralPosition - 1 }

/-- The body of `EvaluateBestMove` with the recursive call abstracted. -/
def EvaluateBestMoveWith (evalNext : RoundState → List Int → Int × List Int)
    (state : RoundState) (vp : List Int) : BestMove :=
  let r := EvaluateBestMoveLoop evalNext state vp
  { BestMoveX := r.BestMoveX
    MoveRating := if r.state.CurrentPlayer = PLAYER.PLAYER_B then r.MaxRating else -r.MaxRating
    VictoryProbability := r.VictoryProbability }

/-- The rating `EvaluatePosition` gives when it does not search further. -/
def terminalRating (code : Int) : Int :=
  if code = PLAYER.PLAYER_B.toInt then WinPosition
  else if code = PLAYER.PLAYER_A.toInt then LosePosition
  else NeutralPosition

/-- The function `EvaluatePosition` with the recursion indexed by the number `MaxDepth - depth` of
plies that may still be searched: with none left it rates the position at once,
otherwise it does so only when `FindWinner` reports a winner. -/
def EvaluatePositionBudget : Nat → RoundState → List Int → Int × List Int
  | 0, state, vp => (terminalRating (FindWinner state), vp)
  | budget + 1, state, vp =>
    let code := FindWinner state
    if code ≠ -1 then (terminalRating code, vp)
    else
      let r := EvaluateBestMoveWith (EvaluatePositionBudget budget) state vp
      (r.MoveRating, r.VictoryProbability)

/-- The function `EvaluatePosition`: the rating of `state` at `depth`, and `VictoryProbability`
afterwards. -/
def EvaluatePosition (state : RoundState) (vp : List Int) (depth : Int) : Int × List Int :=
  EvaluatePositionBudget (MaxDepth - depth).toNat state vp

/-- The function `EvaluateBestMove`: try every enabled column, rating each by `EvaluatePosition`
at `depth + 1`. The depth is an unbounded integer here: this is the source's `depth + 1` as
long as `depth` is below the largest `int`; `EvaluateBestMoveFuel` wraps there. -/
def EvaluateBestMove (state : RoundState) (vp : List Int) (depth : Int) : BestMove :=
  EvaluateBestMoveWith (fun st v => EvaluatePosition st v (depth + 1)) state vp

/-- One iteration of the fallback loop of `DetermineBestMove`; the pair is
`(BestX, max)`. -/
def tallyStep (vp : List Int) (acc : Option Int × Int) (i : Int) : Option Int × Int :=
  if readAt vp i > acc.2 then (some i, readAt vp i) else acc

/-- The function `DetermineBestMove`: the chosen column, `*MoveRating`, and `VictoryProbability`
after the clean-up. -/
def DetermineBestMove (state : RoundState) (vp : List Int) : Option Int × Int × List Int :=
  let r := EvaluateBestMove state vp 0
  let BestX :=
    if r.MoveRating = NeutralPosition then
      ((upTo MaxX).foldl (tallyStep r.VictoryProbability) (r.BestMoveX, -1)).1
    else r.BestMoveX
  (BestX, r.MoveRating, (upTo MaxX).foldl (fun v i => writeAt v i 0) r.VictoryProbability)

/-! ## Specification vocabulary -/

/-- A two-dimensional array with `rows` rows of `cols` entries each. -/
def Shaped (g : List (List Int)) (rows cols : Nat) : Prop :=
  g.length = rows ∧ ∀ r ∈ g, r.length = cols

instance (g : List (List Int)) (rows cols : Nat) : Decidable (Shaped g rows cols) := by
  unfold Shaped; infer_instance

/-- Column `x` is not full: its `NextMove` entry is enabled (the test the search uses). -/
def NonFull (state : RoundState) (x : Int) : Prop :=
  readAt2 state.NextMove x 0 ≠ -1

instance (state : RoundState) (x : Int) : Decidable (NonFull state x) := by
  unfold NonFull; infer_instance

/-- Column `c` holds `-1` above row `y`, `0` at row `y`, pieces below, and `NextMove[c]`
is `(c, y)`. -/
def OpenColumn (state : RoundState) (c y : Int) : Prop :=
  readAt2 state.Scene y c = 0 ∧
  (∀ r ∈ upTo MaxY, r < y → readAt2 state.Scene r c = -1) ∧
  (∀ r ∈ upTo MaxY, y < r → readAt2 state.Scene r c = 1 ∨ readAt2 state.Scene r c = 2) ∧
  readAt2 state.NextMove c 0 = c ∧ readAt2 state.NextMove c 1 = y

/-- Column `c` holds `-1` above row `k` and pieces from row `k` down, so it has no `0`
cell, and `NextMove[c]` is `(-1, -1)`. -/
def ClosedColumn (state : RoundState) (c k : Int) : Prop :=
  (∀ r ∈ upTo MaxY, r < k → readAt2 state.Scene r c = -1) ∧
  (∀ r ∈ upTo MaxY, k ≤ r → readAt2 state.Scene r c = 1 ∨ readAt2 state.Scene r c = 2) ∧
  readAt2 state.NextMove c 0 = -1 ∧ readAt2 state.NextMove c 1 = -1

instance (state : RoundState) (c y : Int) : Decidable (OpenColumn state c y) := by
  unfold OpenColumn; infer_instance

instance (state : RoundState) (c k : Int) : Decidable (ClosedColumn state c k) := by
  unfold ClosedColumn; infer_instance

/-- Well-formed state: the arrays have their declared sizes, and every column read
top-to-bottom is a run of `-1`, then at most one `0`, then only `1` or `2`, with
`NextMove[c]` pointing at the `0` cell, or `(-1, -1)` when there is none. -/
def WellFormed (state : RoundState) : Prop :=
  Shaped state.Scene (MaxY.toNat + 1) (MaxX.toNat + 1) ∧
  Shaped state.NextMove (MaxX.toNat + 1) 2 ∧
  ∀ c ∈ upTo MaxX,
    (∃ y ∈ upTo MaxY, OpenColumn state c y) ∨ (∃ k ∈ upTo (MaxY + 1), ClosedColumn state c k)

instance (state : RoundState) : Decidable (WellFormed state) := by
  unfold WellFormed; infer_instance

/-- The four cells `(x + k*dx, y + k*dy)`, `k = 0..3`, lie on the board and hold `p`. -/
def FourAt (scene : List (List Int)) (p x y dx dy : Int) : Prop :=
  ∀ k ∈ upTo 3,
    (0 ≤ x + k * dx ∧ x + k * dx ≤ MaxX ∧ 0 ≤ y + k * dy ∧ y + k * dy ≤ MaxY) ∧
    readAt2 scene (y + k * dy) (x + k * dx) = p

instance (scene : List (List Int)) (p x y dx dy : Int) : Decidable (FourAt scene p x y dx dy) := by
  unfold FourAt; infer_instance

/-- The line directions: along a row, along a column, and along the two diagonals. -/
def lineDirections : List (Int × Int) := [(1, 0), (0, 1), (1, 1), (1, -1)]

/-- Player value `p` fills four consecutive cells of a row, a column or a diagonal. -/
def HasLine (scene : List (List Int)) (p : Int) : Prop :=
  ∃ x ∈ upTo MaxX, ∃ y ∈ upTo MaxY, ∃ d ∈ lineDirections, FourAt scene p x y d.1 d.2

instance (scene : List (List Int)) (p : Int) : Decidable (HasLine scene p) := by
  unfold HasLine; infer_instance

/-- Drop a piece into column `x` at its current drop target. -/
def dropAt (state : RoundState) (x : Int) : RoundState :=
  MakeMove state x (readAt2 state.NextMove x 1)

/-- Play the columns `cols` in order, each at its current drop target. -/
def play (state : RoundState) (cols : List Int) : RoundState :=
  cols.foldl dropAt state

/-- States reached from `GameInit` by drops into non-full columns. -/
inductive Reachable : RoundState → Prop where
  | init (player : PLAYER) : Reachable (GameInit player).1
  | move (state : RoundState) (x : Int) :
      Reachable state → x ∈ upTo MaxX → NonFull state x → Reachable (dropAt state x)

/-- The rating the column loop of `EvaluateBestMove` obtains for column `i`:
`EvaluatePosition` of the state after the simulated drop, at `depth + 1`, run with the
tally table `vp`. -/
def rawRating (state : RoundState) (depth : Int) (vp : List Int) (i : Int) : Int :=
  (EvaluatePosition (dropAt state i) vp (depth + 1)).1

/-- Every rating produced by `evalNext` lies in `[-1001, 1001]`. -/
def RatingBounded (evalNext : RoundState → List Int → Int × List Int) : Prop :=
  ∀ st v, NeutralPosition - 1 ≤ (evalNext st v).1 ∧ (evalNext st v).1 ≤ WinPosition + 1

/-- The rating produced by `evalNext` does not depend on the tally table it is given. -/
def TallyFree (evalNext : RoundState → List Int → Int × List Int) : Prop :=
  ∀ st v v', (evalNext st v).1 = (evalNext st v').1

/-- No entry of the tally table is smaller after `evalNext` than before. -/
def TallyGrows (evalNext : RoundState → List Int → Int × List Int) : Prop :=
  ∀ st v j, readAt v j ≤ readAt (evalNext st v).2 j

/-- Whether every column of `cols`, played in order, is on the board and not full when
its turn comes. -/
def legalPlay : RoundState → List Int → Bool
  | _, [] => true
  | state, x :: xs =>
    decide (x ∈ upTo MaxX) && decide (NonFull state x) && legalPlay (dropAt state x) xs

/-- The cleared tally table, as `GameInit` leaves it. -/
def zeroTally : List Int := (GameInit PLAYER.PLAYER_A).2

/-- A position after 36 moves of a game the computer began: the computer, to move, completes
four in row 4 by dropping into column 5, and column 3 has one free cell. -/
def lateWinState : RoundState :=
  { Scene := [[2, 1, 1, 0, 1, -1, 2],
              [1, 2, 2, 1, 1, -1, 1],
              [1, 2, 1, 2, 2, -1, 2],
              [1, 2, 1, 2, 1, -1, 1],
              [2, 1, 2, 2, 2, 0, 2],
              [2, 1, 1, 1, 2, 2, 1]]
    NextMove := [[-1, -1], [-1, -1], [-1, -1], [3, 0], [-1, -1], [5, 4], [-1, -1]]
    CurrentPlayer := PLAYER.PLAYER_B
    Moves := 36 }

/-- The columns played, in order, to reach `lateWinState`. -/
def lateWinMoves : List Int :=
  [4, 2, 4, 3, 0, 1, 3, 4, 0, 6, 2, 2, 6, 1, 4, 6, 1, 4, 1, 2, 1, 0, 6, 1, 5, 6, 6, 0, 3, 0,
   2, 4, 3, 2, 0, 3]

/-- A position after 36 moves of a game the computer began: the user has three in row 3 and
completes four by dropping into column 3; the computer is to move. -/
def unblockedState : RoundState :=
  { Scene := [[1, 1, 2, -1, 2, 1, -1],
              [2, 1, 1, -1, 1, 2, 0],
              [2, 2, 2, -1, 1, 2, 2],
              [1, 1, 1, 0, 2, 1, 1],
              [2, 2, 2, 1, 1, 2, 2],
              [1, 1, 1, 2, 1, 2, 2]]
    NextMove := [[-1, -1], [-1, -1], [-1, -1], [3, 3], [-1, -1], [-1, -1], [6, 1]]
    CurrentPlayer := PLAYER.PLAYER_B
    Moves := 36 }

/-- The columns played, in order, to reach `unblockedState`. -/
def unblockedMoves : List Int :=
  [5, 0, 3, 4, 5, 4, 0, 5, 5, 0, 5, 2, 4, 4, 6, 1, 2, 2, 6, 5, 1, 6, 0, 4, 2, 1, 4, 2, 1, 3,
   2, 1, 0, 1, 6, 0]

/-- A position after 38 moves of a game the computer began: only column 2 has free cells,
four of them, and filling them gives nobody four in a line; the computer is to move. -/
def drawnEndState : RoundState :=
  { Scene := [[2, 1, -1, 1, 2, 2, 2],
              [1, 2, -1, 2, 1, 1, 1],
              [2, 1, -1, 1, 2, 2, 2],
              [1, 2, 0, 2, 1, 1, 1],
              [2, 1, 1, 1, 2, 2, 1],
              [1, 2, 1, 2, 1, 2, 2]]
    NextMove := [[-1, -1], [-1, -1], [2, 3], [-1, -1], [-1, -1], [-1, -1], [-1, -1]]
    CurrentPlayer := PLAYER.PLAYER_B
    Moves := 38 }

/-- The columns played, in order, to reach `drawnEndState`. -/
def drawnEndMoves : List Int :=
  [3, 0, 0, 0, 5, 4, 1, 1, 0, 3, 1, 1, 5, 0, 0, 5, 6, 6, 4, 4, 4, 4, 4, 2, 1, 6, 5, 1, 6, 6,
   6, 5, 5, 2, 3, 3, 3, 3]

/-- An early position: the user began, three pieces are on the board. -/
def openingState : RoundState := play (GameInit PLAYER.PLAYER_A).1 [3, 3, 4]

/-- For every column `c`: `NextMove[c]` is `(c, y)` for each row `y` whose cell is `0`,
and it is `(-1, -1)` exactly when the column has no `0` cell. -/
def DropTargetsExact (state : RoundState) : Prop :=
  ∀ c ∈ upTo MaxX,
    (∀ y ∈ upTo MaxY, readAt2 state.Scene y c = 0 →
      readAt2 state.NextMove c 0 = c ∧ readAt2 state.NextMove c 1 = y) ∧
    ((∀ y ∈ upTo MaxY, readAt2 state.Scene y c ≠ 0) ↔
      (readAt2 state.NextMove c 0 = -1 ∧ readAt2 state.NextMove c 1 = -1))

instance (state : RoundState) : Decidable (DropTargetsExact state) := by
  unfold DropTargetsExact; infer_instance

/-- The state `state` with `player` to move. -/
def withPlayer (state : RoundState) (player : PLAYER) : RoundState :=
  { state with CurrentPlayer := player }

/-- The cells `(row, column)` of the board. -/
def boardCells : Finset (Int × Int) :=
  Finset.Icc 0 MaxY ×ˢ Finset.Icc 0 MaxX

/-- The number of cells of the board that hold `p`. -/
def pieceCount (scene : List (List Int)) (p : Int) : Nat :=
  (boardCells.filter (fun cell => readAt2 scene cell.1 cell.2 = p)).card

/-- The player to move has at most half of the counted moves on the board, the other
player at most one more than that. -/
def TurnCount (state : RoundState) : Prop :=
  2 * (pieceCount state.Scene state.CurrentPlayer.toInt : Int) ≤ state.Moves ∧
  2 * (pieceCount state.Scene (Opponent state.CurrentPlayer).toInt : Int) ≤ state.Moves + 1

/-- A position after 36 moves of a game the computer began: the user completes four by
dropping into column 3, the computer has no completing drop and is to move. -/
def blockedState : RoundState :=
  { Scene := [[2, 2, 1, -1, 2, 1, 0],
              [1, 1, 1, -1, 2, 1, 1],
              [2, 1, 2, -1, 2, 1, 2],
              [2, 2, 1, -1, 1, 2, 1],
              [2, 2, 1, 0, 1, 2, 1],
              [1, 2, 2, 2, 1, 2, 1]]
    NextMove := [[-1, -1], [-1, -1], [-1, -1], [3, 4], [-1, -1], [-1, -1], [6, 0]]
    CurrentPlayer := PLAYER.PLAYER_B
    Moves := 36 }

/-- The columns played, in order, to reach `blockedState`. -/
def blockedMoves : List Int :=
  [2, 4, 1, 6, 1, 2, 5, 2, 1, 0, 5, 4, 5, 6, 0, 1, 2, 4, 3, 6, 0, 2, 4, 1, 1, 2, 4, 5, 6, 5,
   0, 5, 4, 0, 0, 6]

/-! ## Vocabulary for the later claims -/

/-- The state `state` with the columns of `Scene` in reverse order: the cell `(y, x)` of
the result is the cell `(y, MaxX - x)` of `state`; everything else is kept. -/
def mirror (state : RoundState) : RoundState :=
  { state with
    Scene := (upTo MaxY).map (fun y =>
      (upTo MaxX).map (fun x => readAt2 state.Scene y (MaxX - x))) }

/-- Board `b` is board `a` with the columns in reverse order. -/
def Mirrored (a b : List (List Int)) : Prop :=
  ∀ y ∈ upTo MaxY, ∀ x ∈ upTo MaxX, readAt2 b y x = readAt2 a y (MaxX - x)

/-- A position of a game the user began in which both players have four in a column:
the user in column 0, the computer in column 6. -/
def twoLinesState : RoundState := play (GameInit PLAYER.PLAYER_A).1 [0, 6, 0, 6, 0, 6, 0, 6]

/-- Over the non-full columns `i` of `state`: one for a drop into `c` whose position
`rate` rates `WinPosition`, plus what `below` counts under the drop. -/
def winRatedLoop (rate : RoundState → Int) (below : RoundState → Int)
    (state : RoundState) (c : Int) : Int :=
  (((upTo MaxX).filter (fun i => decide (NonFull state i))).map (fun i =>
    (if i = c ∧ rate (dropAt state i) = WinPosition then 1 else 0)
      + below (dropAt state i))).sum

/-- The number of simulated drops into column `c`, at any ply of the search that
`EvaluatePosition` runs from `state` with `budget` plies left, whose resulting position
is rated `WinPosition`. -/
def winRatedBelow : Nat → RoundState → Int → Int
  | 0, _, _ => 0
  | budget + 1, state, c =>
    if FindWinner state ≠ -1 then 0
    else winRatedLoop (fun st => (EvaluatePositionBudget budget st []).1)
      (fun st => winRatedBelow budget st c) state c

/-- The number of simulated drops into column `c`, at any ply of the search that
`EvaluateBestMove` runs from `state` at `depth`, whose resulting position is rated
`WinPosition`. -/
def winRatedDrops (state : RoundState) (depth : Int) (c : Int) : Int :=
  winRatedLoop (fun st => (EvaluatePosition st [] (depth + 1)).1)
    (fun st => winRatedBelow (MaxDepth - (depth + 1)).toNat st c) state c

/-- The number of simulated lines of play from `state`, searched with `budget` plies left,
that end in a position where `FindWinner` reports the computer. -/
def winBranches : Nat → RoundState → Int
  | 0, state => if FindWinner state = PLAYER.PLAYER_B.toInt then 1 else 0
  | budget + 1, state =>
    if FindWinner state = PLAYER.PLAYER_B.toInt then 1
    else if FindWinner state ≠ -1 then 0
    else (((upTo MaxX).filter (fun i => decide (NonFull state i))).map (fun i =>
      winBranches budget (dropAt state i))).sum

/-- The number of simulated lines of play under the top-level drop into column `c` that
end in a computer win, in a search from `state` at depth 0. -/
def winBranchesUnder (state : RoundState) (c : Int) : Int :=
  if NonFull state c then winBranches (MaxDepth - 1).toNat (dropAt state c) else 0

/-- One iteration of the column loop of `EvaluateBestMove`, keeping only the state and the
list of states on which `EvaluateBestMove` has been invoked so far; `callsNext` lists the
invocations made by `EvaluatePosition` at `depth + 1`. -/
def callsStep (callsNext : RoundState → List RoundState)
    (acc : RoundState × List RoundState) (i : Int) : RoundState × List RoundState :=
  if readAt2 acc.1.NextMove i 0 = -1 then acc
  else
    let Move0 := readAt2 acc.1.NextMove i 0
    let Move1 := readAt2 acc.1.NextMove i 1
    let state1 := MakeMove acc.1 Move0 Move1
    (RetractMove state1 Move0 Move1, acc.2 ++ callsNext state1)

/-- The states on which `EvaluateBestMove` is invoked when `EvaluatePosition` runs on
`state` with `budget` plies left: none when it rates the position at once, otherwise
`state` itself followed by the invocations under each simulated drop. -/
def EvaluatePositionCalls : Nat → RoundState → List RoundState
  | 0, _ => []
  | budget + 1, state =>
    if FindWinner state ≠ -1 then []
    else state :: ((upTo MaxX).foldl (callsStep (EvaluatePositionCalls budget)) (state, [])).2

/-- The states on which `EvaluateBestMove` is invoked through `EvaluatePosition` during the
search that `DetermineBestMove` starts on `state`. -/
def searchCalls (state : RoundState) : List RoundState :=
  ((upTo MaxX).foldl (callsStep (EvaluatePositionCalls (MaxDepth - (0 + 1)).toNat))
    (state, [])).2

/-- The full board reached from `drawnEndState` by filling column 2. -/
def drawnFullState : RoundState :=
  { Scene := [[2, 1, 1, 1, 2, 2, 2],
              [1, 2, 2, 2, 1, 1, 1],
              [2, 1, 1, 1, 2, 2, 2],
              [1, 2, 2, 2, 1, 1, 1],
              [2, 1, 1, 1, 2, 2, 1],
              [1, 2, 1, 2, 1, 2, 2]]
    NextMove := [[-1, -1], [-1, -1], [-1, -1], [-1, -1], [-1, -1], [-1, -1], [-1, -1]]
    CurrentPlayer := PLAYER.PLAYER_B
    Moves := 42 }

/-- A position after 37 moves of a game the user began: nobody has a line and the computer,
to move, has no completing drop, but the user completes four in column 2 two plies on. -/
def veiledState : RoundState :=
  { Scene := [[2, 1, -1, 2, 2, 0, 1],
              [1, 2, -1, 2, 1, 2, 1],
              [2, 1, -1, 1, 1, 1, 2],
              [1, 1, 0, 2, 2, 1, 1],
              [2, 2, 1, 2, 1, 2, 1],
              [2, 1, 2, 1, 1, 2, 2]]
    NextMove := [[-1, -1], [-1, -1], [2, 3], [-1, -1], [-1, -1], [5, 0], [-1, -1]]
    CurrentPlayer := PLAYER.PLAYER_B
    Moves := 37 }

/-- The columns played, in order, to reach `veiledState`. -/
def veiledMoves : List Int :=
  [4, 6, 1, 5, 6, 1, 6, 6, 3, 3, 4, 0, 1, 0, 1, 2, 0, 5, 5, 4, 6, 0, 5, 5, 0, 3, 6, 1, 4, 0,
   3, 3, 4, 4, 2, 3, 1]

/-- At most one value other than `0` and `-1` fills four consecutive cells of a line. -/
def SingleWinner (scene : List (List Int)) : Prop :=
  ∀ a b : Int, a ≠ 0 → a ≠ -1 → b ≠ 0 → b ≠ -1 →
    HasLine scene a → HasLine scene b → a = b

/-! ## Vocabulary for the game loop, the unguarded scan and termination -/

/-- The integer `z` is a value of the 32-bit type `int`. -/
def IsInt (z : Int) : Prop :=
  -2147483648 ≤ z ∧ z ≤ 2147483647

instance (z : Int) : Decidable (IsInt z) := by
  unfold IsInt; infer_instance

/-- The value a 32-bit `int` holds after an operation whose exact result is `z`:
`z` itself when it is a value of `int`, otherwise wrapped around modulo `2^32`. -/
def wrapInt (z : Int) : Int :=
  (z + 2147483648) % 4294967296 - 2147483648

/-- The scan of `FindWinner` performed without the `Moves < 7` test. -/
def FindWinnerScan (state : RoundState) : Int :=
  scanColumns state.Scene (upTo MaxX)

/-- The number of occupied cells of the board. -/
def occupiedCells (scene : List (List Int)) : Nat :=
  pieceCount scene PLAYER.PLAYER_A.toInt + pieceCount scene PLAYER.PLAYER_B.toInt

/-- One iteration of the column loop of `EvaluateBestMove` when the nested call may run out
of fuel (`none`); with a result `res` of the nested call it is `EvaluateBestMoveStep`. -/
def EvaluateBestMoveStepFuel (evalNext : RoundState → List Int → Option (Int × List Int))
    (acc : Option SearchLoop) (i : Int) : Option SearchLoop :=
  match acc with
  | none => none
  | some a =>
    if readAt2 a.state.NextMove i 0 = -1 then some a
    else
      match evalNext (MakeMove a.state (readAt2 a.state.NextMove i 0)
          (readAt2 a.state.NextMove i 1)) a.VictoryProbability with
      | none => none
      | some res => some (EvaluateBestMoveStep (fun _ _ => res) a i)

/-- The body of `EvaluateBestMove` when the nested call may run out of fuel. -/
def EvaluateBestMoveFuelWith (evalNext : RoundState → List Int → Option (Int × List Int))
    (state : RoundState) (vp : List Int) : Option BestMove :=
  match (upTo MaxX).foldl (EvaluateBestMoveStepFuel evalNext)
      (some { state := state, VictoryProbability := vp, BestMoveX := none,
              MaxRating := NeutralPosition - 1 }) with
  | none => none
  | some r =>
    some { BestMoveX := r.BestMoveX
           MoveRating :=
             if r.state.CurrentPlayer = PLAYER.PLAYER_B then r.MaxRating else -r.MaxRating
           VictoryProbability := r.VictoryProbability }

/-- The function `EvaluatePosition` read as the source writes it, with the depth test
`depth >= MaxDepth` and the nested call at `depth + 1` computed in 32-bit `int`; `fuel`
bounds the nesting of calls and `none` means it ran out. -/
def EvaluatePositionFuel : Nat → RoundState → List Int → Int → Option (Int × List Int)
  | 0, _, _, _ => none
  | fuel + 1, state, vp, depth =>
    if FindWinner state ≠ -1 ∨ depth ≥ MaxDepth then
      some (terminalRating (FindWinner state), vp)
    else
      match EvaluateBestMoveFuelWith
          (fun st v => EvaluatePositionFuel fuel st v (wrapInt (depth + 1))) state vp with
      | none => none
      | some r => some (r.MoveRating, r.VictoryProbability)

/-- The function `EvaluateBestMove` read as the source writes it, with `fuel` for the
nested calls of `EvaluatePosition` and `depth + 1` computed in 32-bit `int`. -/
def EvaluateBestMoveFuel (fuel : Nat) (state : RoundState) (vp : List Int) (depth : Int) :
    Option BestMove :=
  EvaluateBestMoveFuelWith (fun st v => EvaluatePositionFuel fuel st v (wrapInt (depth + 1)))
    state vp

/-- The positions on which `EvaluatePosition` is invoked when it runs on `state` with
`budget` plies left: `state` itself, and when it searches further the positions under each
simulated drop. -/
def EvaluatePositionVisits : Nat → RoundState → List RoundState
  | 0, state => [state]
  | budget + 1, state =>
    if FindWinner state ≠ -1 then [state]
    else state :: ((upTo MaxX).foldl (callsStep (EvaluatePositionVisits budget)) (state, [])).2

/-- The positions on which `EvaluatePosition` is invoked during `EvaluateBestMove` on
`state` at `depth`. -/
def searchVisits (state : RoundState) (depth : Int) : List RoundState :=
  ((upTo MaxX).foldl (callsStep (EvaluatePositionVisits (MaxDepth - (depth + 1)).toNat))
    (state, [])).2

/-- The loop guard of `GameMain_HardMode`. -/
def hardModeGuard (state : RoundState) : Bool :=
  decide (FindWinner state = -1) && decide (state.Moves ≤ (MaxX + 1) * (MaxY + 1))

/-- The inner loop of the user's turn in `GameMain_HardMode`: read numbers until
`CheckNextStep` accepts one; the result is the accepted `(x, y)` and the unread input,
or `none` when the input ends first. -/
def readUserMove (state : RoundState) : List Int → Option (Int × Int × List Int)
  | [] => none
  | x :: rest =>
    if CheckNextStep state x (CalculateCoordinateY state x) then
      some (x, CalculateCoordinateY state x, rest)
    else readUserMove state rest

/-- How a run of `GameMain_HardMode` stops. -/
inductive HardModeEnd where
  | finished (state : RoundState)
  | awaitingInput (state : RoundState)
  | unassignedColumn (state : RoundState)
  | outOfFuel (state : RoundState)
deriving DecidableEq, Repr

/-- The loop of `GameMain_HardMode` with the call of `DetermineBestMove` abstracted as
`bestMove`, run for at most `fuel` iterations on the user's input `inputs`: the states on
which `bestMove` was called, in order, and how the run stopped. A run stops early when the
input ends or when `bestMove` returns a never-assigned `BestX`, after which C gives the
move no meaning. -/
def GameMain_HardModeWith (bestMove : RoundState → List Int → Option Int × Int × List Int) :
    Nat → RoundState → List Int → List Int → List RoundState × HardModeEnd
  | 0, state, _, _ => ([], HardModeEnd.outOfFuel state)
  | fuel + 1, state, vp, inputs =>
    if hardModeGuard state then
      match state.CurrentPlayer with
      | PLAYER.PLAYER_A =>
        match readUserMove state inputs with
        | none => ([], HardModeEnd.awaitingInput state)
        | some (x, y, rest) => GameMain_HardModeWith bestMove fuel (MakeMove state x y) vp rest
      | PLAYER.PLAYER_B =>
        match (bestMove state vp).1 with
        | none => ([state], HardModeEnd.unassignedColumn state)
        | some x =>
          let next := GameMain_HardModeWith bestMove fuel
            (MakeMove state x (CalculateCoordinateY state x))
            (bestMove state vp).2.2 inputs
          (state :: next.1, next.2)
    else ([], HardModeEnd.finished state)

/-- The function `GameMain_HardMode`: its loop with `DetermineBestMove` as the computer's
move. -/
def GameMain_HardMode (fuel : Nat) (state : RoundState) (vp inputs : List Int) :
    List RoundState × HardModeEnd :=
  GameMain_HardModeWith DetermineBestMove fuel state vp inputs

/-- The 42 drops of a game that the computer began: at the even positions the computer's
drops, at the odd positions the user's. The computer's last drops are compared with
`DetermineBestMove` in `GameMain_HardMode_late_run`. -/
def hardModeMoves : List Int :=
  [3, 3, 3, 2, 2, 6, 6, 1, 1, 0, 0, 5, 0, 0, 2, 1, 5, 2, 1, 4, 6, 6, 4, 4, 5, 0, 0, 3, 1, 1,
   6, 4, 3, 6, 5, 5, 5, 3, 2, 4, 4, 2]

/-- The numbers the user types in that game: its drops at the odd positions. -/
def hardModeInputs : List Int :=
  [3, 2, 6, 1, 0, 5, 0, 1, 2, 4, 6, 4, 0, 3, 1, 4, 6, 5, 3, 4, 2]

/-- The position of that game after 38 drops: columns 2 and 4 have two free cells each and
the computer is to move. -/
def hardModeLateState : RoundState :=
  { Scene := [[2, 1, -1, 1, -1, 2, 1],
              [1, 2, 0, 2, 0, 1, 2],
              [1, 2, 1, 1, 1, 2, 1],
              [2, 1, 2, 2, 1, 2, 2],
              [2, 2, 2, 1, 2, 2, 2],
              [1, 1, 1, 2, 1, 1, 1]]
    NextMove := [[-1, -1], [-1, -1], [2, 1], [-1, -1], [4, 1], [-1, -1], [-1, -1]]
    CurrentPlayer := PLAYER.PLAYER_B
    Moves := 38 }

/-- The position of that game after 40 drops. -/
def hardModeNextState : RoundState :=
  { Scene := [[2, 1, 0, 1, 0, 2, 1],
              [1, 2, 2, 2, 1, 1, 2],
              [1, 2, 1, 1, 1, 2, 1],
              [2, 1, 2, 2, 1, 2, 2],
              [2, 2, 2, 1, 2, 2, 2],
              [1, 1, 1, 2, 1, 1, 1]]
    NextMove := [[-1, -1], [-1, -1], [2, 0], [-1, -1], [4, 0], [-1, -1], [-1, -1]]
    CurrentPlayer := PLAYER.PLAYER_B
    Moves := 40 }

/-- The full board that game ends on: nobody has four in a line. -/
def hardModeFullState : RoundState :=
  { Scene := [[2, 1, 1, 1, 2, 2, 1],
              [1, 2, 2, 2, 1, 1, 2],
              [1, 2, 1, 1, 1, 2, 1],
              [2, 1, 2, 2, 1, 2, 2],
              [2, 2, 2, 1, 2, 2, 2],
              [1, 1, 1, 2, 1, 1, 1]]
    NextMove := [[-1, -1], [-1, -1], [-1, -1], [-1, -1], [-1, -1], [-1, -1], [-1, -1]]
    CurrentPlayer := PLAYER.PLAYER_B
    Moves := 42 }

/-- The 40 drops of a game that the computer began, up to a position in which the
computer can complete four. -/
def missedWinMoves : List Int :=
  [3, 4, 4, 4, 1, 2, 2, 6, 6, 1, 2, 0, 0, 4, 0, 1, 1, 2, 0, 0, 5, 3, 6, 5, 2, 3, 0, 2, 1, 6,
   1, 5, 3, 6, 5, 6, 5, 5, 3, 4]

/-- The position after the drops `missedWinMoves`: columns 3 and 4 have one free cell each,
the computer is to move and completes four on a diagonal by dropping into column 3. -/
def missedWinState : RoundState :=
  { Scene := [[2, 2, 1, 0, 0, 1, 1],
              [1, 2, 2, 2, 1, 2, 1],
              [2, 2, 1, 2, 1, 2, 1],
              [2, 1, 2, 1, 1, 1, 2],
              [2, 1, 2, 1, 2, 1, 2],
              [1, 2, 1, 2, 1, 2, 1]]
    NextMove := [[-1, -1], [-1, -1], [-1, -1], [3, 0], [4, 0], [-1, -1], [-1, -1]]
    CurrentPlayer := PLAYER.PLAYER_B
    Moves := 40 }

/-- The 38 drops of a game that the computer began, up to a position in which the user
threatens to complete four. -/
def openThreatMoves : List Int :=
  [3, 0, 0, 1, 1, 5, 5, 3, 3, 6, 6, 0, 6, 0, 6, 6, 4, 2, 4, 5, 4, 4, 2, 0, 2, 1, 2, 2, 1, 1,
   3, 4, 0, 4, 1, 2, 5, 5]

/-- The position after the drops `openThreatMoves`: the user has three in row 1 on either
side of the drop target `(3, 1)` of column 3; columns 3, 5 and 6 are not full and the
computer is to move. -/
def openThreatState : RoundState :=
  { Scene := [[2, 2, 1, -1, 1, 0, 0],
              [1, 1, 1, 0, 1, 1, 1],
              [1, 2, 2, 2, 1, 2, 2],
              [1, 1, 2, 2, 2, 1, 2],
              [2, 2, 2, 1, 2, 2, 2],
              [1, 1, 1, 2, 2, 1, 1]]
    NextMove := [[-1, -1], [-1, -1], [-1, -1], [3, 1], [-1, -1], [5, 0], [6, 0]]
    CurrentPlayer := PLAYER.PLAYER_B
    Moves := 38 }

/-! ## Array lemmas -/

theorem mem_upTo (n i : Int) (hn : 0 ≤ n) : i ∈ upTo n ↔ 0 ≤ i ∧ i ≤ n := by
  unfold upTo
  simp only [List.mem_map, List.mem_range]
  constructor
  · rintro ⟨a, ha, rfl⟩
    simp only [Int.ofNat_eq_coe]
    omega
  · rintro ⟨h0, h1⟩
    exact ⟨i.toNat, by omega, by simp only [Int.ofNat_eq_coe]; omega⟩

theorem length_writeAt (a : List Int) (i v : Int) : (writeAt a i v).length = a.length := by
  unfold writeAt
  split <;> simp

theorem readAt_writeAt (a : List Int) (i j v : Int) (h0 : 0 ≤ i) (h1 : i < a.length) :
    readAt (writeAt a i v) j = if j = i then v else readAt a j := by
  unfold readAt writeAt
  have hi : ¬ i < 0 := by omega
  simp only [hi, if_false]
  by_cases hj : j < 0
  · have : j ≠ i := by omega
    simp [hj, this]
  · simp only [hj, if_false]
    by_cases hji : j = i
    · subst hji
      have : j.toNat < a.length := by omega
      simp [List.getD_eq_getElem?_getD, List.getElem?_set, this]
    · have : i.toNat ≠ j.toNat := by omega
      simp [List.getD_eq_getElem?_getD, List.getElem?_set, this, hji]

theorem Shaped.row_length {g : List (List Int)} {rows cols : Nat} (h : Shaped g rows cols)
    (r : Nat) (hr : r < rows) : (g.getD r []).length = cols := by
  have hlt : r < g.length := by rw [h.1]; exact hr
  rw [List.getD_eq_getElem?_getD, List.getElem?_eq_getElem hlt]
  exact h.2 _ (List.getElem_mem hlt)

theorem Shaped.writeAt2 {g : List (List Int)} {rows cols : Nat} (h : Shaped g rows cols)
    (r c v : Int) : Shaped (writeAt2 g r c v) rows cols := by
  unfold Connect4.writeAt2
  split
  · exact h
  · refine ⟨by simp [h.1], ?_⟩
    intro row hrow
    rcases List.mem_or_eq_of_mem_set hrow with hm | rfl
    · exact h.2 _ hm
    · by_cases hlt : r.toNat < g.length
      · rw [length_writeAt, List.getD_eq_getElem?_getD, List.getElem?_eq_getElem hlt]
        exact h.2 _ (List.getElem_mem hlt)
      · rw [List.set_eq_of_length_le (by omega)] at hrow
        exact h.2 _ hrow

theorem readAt2_writeAt2 {g : List (List Int)} {rows cols : Nat} (h : Shaped g rows cols)
    (r c v r' c' : Int) (hr0 : 0 ≤ r) (hr1 : r < rows) (hc0 : 0 ≤ c) (hc1 : c < cols) :
    readAt2 (writeAt2 g r c v) r' c' = if r' = r ∧ c' = c then v else readAt2 g r' c' := by
  unfold readAt2 Connect4.writeAt2
  have hr : ¬ r < 0 := by omega
  simp only [hr, if_false]
  by_cases hr' : r' < 0
  · have : r' ≠ r := by omega
    simp [hr', this]
  · simp only [hr', if_false]
    have hlt : r.toNat < g.length := by rw [h.1]; omega
    by_cases hrr : r' = r
    · subst hrr
      have hlen : (g.getD r'.toNat []).length = cols := h.row_length _ (by omega)
      rw [List.getD_eq_getElem?_getD (List.set _ _ _), List.getElem?_set, if_pos rfl]
      simp only [hlt, if_true, Option.getD_some, true_and]
      rw [readAt_writeAt _ _ _ _ hc0 (by rw [hlen]; exact hc1)]
    · have hne : r.toNat ≠ r'.toNat := by omega
      rw [List.getD_eq_getElem?_getD (List.set _ _ _), List.getElem?_set, if_neg hne]
      simp [hrr, List.getD_eq_getElem?_getD]

theorem readAt_ext (a b : List Int) (n : Nat) (ha : a.length = n) (hb : b.length = n)
    (h : ∀ i : Int, 0 ≤ i → i < n → readAt a i = readAt b i) : a = b := by
  apply List.ext_getElem (by rw [ha, hb])
  intro k hk1 hk2
  have := h k (by omega) (by omega)
  unfold readAt at this
  simpa [List.getD_eq_getElem?_getD, List.getElem?_eq_getElem hk1,
    List.getElem?_eq_getElem hk2] using this

theorem readAt2_ext {a b : List (List Int)} {rows cols : Nat} (ha : Shaped a rows cols)
    (hb : Shaped b rows cols)
    (h : ∀ r c : Int, 0 ≤ r → r < rows → 0 ≤ c → c < cols → readAt2 a r c = readAt2 b r c) :
    a = b := by
  apply List.ext_getElem (by rw [ha.1, hb.1])
  intro k hk1 hk2
  have hk : k < rows := by rw [← ha.1]; exact hk1
  apply readAt_ext _ _ cols (ha.2 _ (List.getElem_mem hk1)) (hb.2 _ (List.getElem_mem hk2))
  intro c hc0 hc1
  have := h k c (by omega) (by omega) hc0 hc1
  unfold readAt2 at this
  simpa [List.getD_eq_getElem?_getD, List.getElem?_eq_getElem hk1,
    List.getElem?_eq_getElem hk2] using this

/-! ## Index ranges and players -/

theorem mem_upTo_MaxX (i : Int) : i ∈ upTo MaxX ↔ 0 ≤ i ∧ i ≤ 6 :=
  mem_upTo MaxX i (by decide)

theorem mem_upTo_MaxY (i : Int) : i ∈ upTo MaxY ↔ 0 ≤ i ∧ i ≤ 5 :=
  mem_upTo MaxY i (by decide)

theorem mem_upTo_MaxY_succ (i : Int) : i ∈ upTo (MaxY + 1) ↔ 0 ≤ i ∧ i ≤ 6 :=
  mem_upTo (MaxY + 1) i (by decide)

theorem Opponent_Opponent (p : PLAYER) : Opponent (Opponent p) = p := by
  cases p <;> rfl

theorem PLAYER.toInt_cases (p : PLAYER) : p.toInt = 1 ∨ p.toInt = 2 := by
  cases p <;> simp [PLAYER.toInt]

/-! ## Reading the arrays after `MakeMove` and `RetractMove` -/

theorem MakeMove_Scene (s : RoundState) (x y r c : Int)
    (hS : Shaped s.Scene (MaxY.toNat + 1) (MaxX.toNat + 1))
    (hx : 0 ≤ x ∧ x ≤ 6) (hy : 0 ≤ y ∧ y ≤ 5) :
    readAt2 (MakeMove s x y).Scene r c =
      if r = y - 1 ∧ c = x ∧ 0 < y then 0
      else if r = y ∧ c = x then s.CurrentPlayer.toInt
      else readAt2 s.Scene r c := by
  have hX : (MaxX.toNat : Int) + 1 = 7 := by decide
  have hY : (MaxY.toNat : Int) + 1 = 6 := by decide
  simp only [MakeMove]
  by_cases hpos : y > 0
  · simp only [hpos, if_true]
    rw [readAt2_writeAt2 (hS.writeAt2 _ _ _) _ _ _ _ _ (by omega) (by push_cast; omega)
      (by omega) (by push_cast; omega),
      readAt2_writeAt2 hS _ _ _ _ _ (by omega) (by push_cast; omega)
      (by omega) (by push_cast; omega)]
    have : 0 < y := hpos
    simp only [this, and_true]
  · simp only [hpos, if_false]
    rw [readAt2_writeAt2 hS _ _ _ _ _ (by omega) (by push_cast; omega)
      (by omega) (by push_cast; omega)]
    have : ¬ 0 < y := hpos
    simp only [this, and_false, if_false]

theorem MakeMove_NextMove (s : RoundState) (x y c k : Int)
    (hN : Shaped s.NextMove (MaxX.toNat + 1) 2)
    (hx : 0 ≤ x ∧ x ≤ 6) (hy : 0 ≤ y) :
    readAt2 (MakeMove s x y).NextMove c k =
      if c = x ∧ k = 1 then (if 0 < y then y - 1 else -1)
      else if c = x ∧ k = 0 then (if 0 < y then x else -1)
      else readAt2 s.NextMove c k := by
  have hX : (MaxX.toNat : Int) + 1 = 7 := by decide
  simp only [MakeMove]
  by_cases hpos : y > 0
  · simp only [hpos, if_true]
    rw [readAt2_writeAt2 (hN.writeAt2 _ _ _) _ _ _ _ _ (by omega) (by push_cast; omega)
      (by omega) (by norm_num),
      readAt2_writeAt2 hN _ _ _ _ _ (by omega) (by push_cast; omega)
      (by omega) (by norm_num)]
  · have h0 : y = 0 := by omega
    subst h0
    simp only [gt_iff_lt, lt_self_iff_false, if_false, if_true]
    rw [readAt2_writeAt2 (hN.writeAt2 _ _ _) _ _ _ _ _ (by omega) (by push_cast; omega)
      (by omega) (by norm_num),
      readAt2_writeAt2 hN _ _ _ _ _ (by omega) (by push_cast; omega)
      (by omega) (by norm_num)]

theorem MakeMove_shape (s : RoundState) (x y : Int)
    (hS : Shaped s.Scene (MaxY.toNat + 1) (MaxX.toNat + 1))
    (hN : Shaped s.NextMove (MaxX.toNat + 1) 2) :
    Shaped (MakeMove s x y).Scene (MaxY.toNat + 1) (MaxX.toNat + 1) ∧
    Shaped (MakeMove s x y).NextMove (MaxX.toNat + 1) 2 := by
  simp only [MakeMove]
  refine ⟨?_, ?_⟩
  · split
    · exact (hS.writeAt2 _ _ _).writeAt2 _ _ _
    · exact hS.writeAt2 _ _ _
  · split
    · exact (hN.writeAt2 _ _ _).writeAt2 _ _ _
    · split
      · exact (hN.writeAt2 _ _ _).writeAt2 _ _ _
      · exact hN

theorem RetractMove_Scene (s : RoundState) (x y r c : Int)
    (hS : Shaped s.Scene (MaxY.toNat + 1) (MaxX.toNat + 1))
    (hx : 0 ≤ x ∧ x ≤ 6) (hy : 0 ≤ y ∧ y ≤ 5) :
    readAt2 (RetractMove s x y).Scene r c =
      if r = y - 1 ∧ c = x ∧ 0 < y then -1
      else if r = y ∧ c = x then 0
      else readAt2 s.Scene r c := by
  have hX : (MaxX.toNat : Int) + 1 = 7 := by decide
  have hY : (MaxY.toNat : Int) + 1 = 6 := by decide
  simp only [RetractMove]
  by_cases hpos : y > 0
  · simp only [hpos, if_true]
    rw [readAt2_writeAt2 (hS.writeAt2 _ _ _) _ _ _ _ _ (by omega) (by push_cast; omega)
      (by omega) (by push_cast; omega),
      readAt2_writeAt2 hS _ _ _ _ _ (by omega) (by push_cast; omega)
      (by omega) (by push_cast; omega)]
    have : 0 < y := hpos
    simp only [this, and_true]
  · simp only [hpos, if_false]
    rw [readAt2_writeAt2 hS _ _ _ _ _ (by omega) (by push_cast; omega)
      (by omega) (by push_cast; omega)]
    have : ¬ 0 < y := hpos
    simp only [this, and_false, if_false]

theorem RetractMove_NextMove (s : RoundState) (x y c k : Int)
    (hN : Shaped s.NextMove (MaxX.toNat + 1) 2) (hx : 0 ≤ x ∧ x ≤ 6) :
    readAt2 (RetractMove s x y).NextMove c k =
      if c = x ∧ k = 1 then y
      else if c = x ∧ k = 0 then x
      else readAt2 s.NextMove c k := by
  have hX : (MaxX.toNat : Int) + 1 = 7 := by decide
  simp only [RetractMove]
  rw [readAt2_writeAt2 (hN.writeAt2 _ _ _) _ _ _ _ _ (by omega) (by push_cast; omega)
    (by omega) (by norm_num),
    readAt2_writeAt2 hN _ _ _ _ _ (by omega) (by push_cast; omega)
    (by omega) (by norm_num)]

theorem RetractMove_shape (s : RoundState) (x y : Int)
    (hS : Shaped s.Scene (MaxY.toNat + 1) (MaxX.toNat + 1))
    (hN : Shaped s.NextMove (MaxX.toNat + 1) 2) :
    Shaped (RetractMove s x y).Scene (MaxY.toNat + 1) (MaxX.toNat + 1) ∧
    Shaped (RetractMove s x y).NextMove (MaxX.toNat + 1) 2 := by
  simp only [RetractMove]
  refine ⟨?_, (hN.writeAt2 _ _ _).writeAt2 _ _ _⟩
  split
  · exact (hS.writeAt2 _ _ _).writeAt2 _ _ _
  · exact hS.writeAt2 _ _ _

/-! ## Well-formed states -/

/-- In a well-formed state a non-full column is an open column whose drop row is the
second component of its `NextMove` entry. -/
theorem WellFormed.open_of_nonFull {s : RoundState} (hwf : WellFormed s) {x : Int}
    (hx : x ∈ upTo MaxX) (hopen : NonFull s x) :
    readAt2 s.NextMove x 1 ∈ upTo MaxY ∧ OpenColumn s x (readAt2 s.NextMove x 1) := by
  rcases hwf.2.2 x hx with ⟨y, hy, ho⟩ | ⟨k, _, hc⟩
  · have : readAt2 s.NextMove x 1 = y := ho.2.2.2.2
    rw [this]
    exact ⟨hy, ho⟩
  · exact absurd hc.2.2.1 hopen

/-- In a well-formed state the enabled entry of column `x` names column `x`. -/
theorem WellFormed.nextMove_fst {s : RoundState} (hwf : WellFormed s) {x : Int}
    (hx : x ∈ upTo MaxX) (hopen : NonFull s x) : readAt2 s.NextMove x 0 = x :=
  (hwf.open_of_nonFull hx hopen).2.2.2.2.1

theorem RoundState.ext_read {s t : RoundState}
    (hS : Shaped s.Scene (MaxY.toNat + 1) (MaxX.toNat + 1))
    (hN : Shaped s.NextMove (MaxX.toNat + 1) 2)
    (hS' : Shaped t.Scene (MaxY.toNat + 1) (MaxX.toNat + 1))
    (hN' : Shaped t.NextMove (MaxX.toNat + 1) 2)
    (hscene : ∀ r c : Int, 0 ≤ r → r ≤ 5 → 0 ≤ c → c ≤ 6 →
      readAt2 s.Scene r c = readAt2 t.Scene r c)
    (hnext : ∀ c k : Int, 0 ≤ c → c ≤ 6 → 0 ≤ k → k ≤ 1 →
      readAt2 s.NextMove c k = readAt2 t.NextMove c k)
    (hp : s.CurrentPlayer = t.CurrentPlayer) (hm : s.Moves = t.Moves) : s = t := by
  have hX : (MaxX.toNat : Int) + 1 = 7 := by decide
  have hY : (MaxY.toNat : Int) + 1 = 6 := by decide
  cases s; cases t
  simp only [RoundState.mk.injEq]
  refine ⟨readAt2_ext hS hS' ?_, readAt2_ext hN hN' ?_, hp, hm⟩
  · intro r c h0 h1 h2 h3
    exact hscene r c h0 (by push_cast at h1; omega) h2 (by push_cast at h3; omega)
  · intro c k h0 h1 h2 h3
    exact hnext c k h0 (by push_cast at h1; omega) h2 (by push_cast at h3; omega)

/-- Undoing a drop at the drop target of a non-full column restores the state. -/
theorem RetractMove_MakeMove_eq (s : RoundState) (x : Int) (hwf : WellFormed s)
    (hx : x ∈ upTo MaxX) (hopen : NonFull s x) :
    RetractMove (MakeMove s x (readAt2 s.NextMove x 1)) x (readAt2 s.NextMove x 1) = s := by
  obtain ⟨hy, h0, hup, _, hn0, _⟩ := hwf.open_of_nonFull hx hopen
  have hx' := (mem_upTo_MaxX x).1 hx
  have hy' := (mem_upTo_MaxY _).1 hy
  obtain ⟨hS1, hN1⟩ := MakeMove_shape s x (readAt2 s.NextMove x 1) hwf.1 hwf.2.1
  obtain ⟨hS2, hN2⟩ := RetractMove_shape _ x (readAt2 s.NextMove x 1) hS1 hN1
  apply RoundState.ext_read hS2 hN2 hwf.1 hwf.2.1
  · intro r c hr0 hr1 hc0 hc1
    rw [RetractMove_Scene _ _ _ _ _ hS1 hx' hy', MakeMove_Scene _ _ _ _ _ hwf.1 hx' hy']
    by_cases h1 : r = readAt2 s.NextMove x 1 - 1 ∧ c = x ∧ 0 < readAt2 s.NextMove x 1
    · rw [if_pos h1]
      obtain ⟨hr, hc, _⟩ := h1
      rw [hc]
      exact (hup r ((mem_upTo_MaxY r).2 ⟨hr0, hr1⟩) (by omega)).symm
    · rw [if_neg h1]
      by_cases h2 : r = readAt2 s.NextMove x 1 ∧ c = x
      · rw [if_pos h2, h2.1, h2.2]
        exact h0.symm
      · rw [if_neg h2, if_neg h1, if_neg h2]
  · intro c k hc0 hc1 hk0 hk1
    rw [RetractMove_NextMove _ _ _ _ _ hN1 hx', MakeMove_NextMove _ _ _ _ _ hwf.2.1 hx' hy'.1]
    by_cases h1 : c = x ∧ k = 1
    · rw [if_pos h1, h1.1, h1.2]
    · rw [if_neg h1]
      by_cases h2 : c = x ∧ k = 0
      · rw [if_pos h2, h2.1, h2.2]
        exact hn0.symm
      · rw [if_neg h2, if_neg h1, if_neg h2]
  · simp [RetractMove, MakeMove, Opponent_Opponent]
  · simp [RetractMove, MakeMove]

/-- A drop at the drop target of a non-full column keeps the state well-formed. -/
theorem WellFormed_dropAt {s : RoundState} (hwf : WellFormed s) {x : Int}
    (hx : x ∈ upTo MaxX) (hopen : NonFull s x) : WellFormed (dropAt s x) := by
  obtain ⟨hy, h0, hup, hdown, hn0, _⟩ := hwf.open_of_nonFull hx hopen
  have hx' := (mem_upTo_MaxX x).1 hx
  have hy' := (mem_upTo_MaxY _).1 hy
  obtain ⟨hS1, hN1⟩ := MakeMove_shape s x (readAt2 s.NextMove x 1) hwf.1 hwf.2.1
  unfold dropAt
  refine ⟨hS1, hN1, ?_⟩
  intro c hc
  have hc' := (mem_upTo_MaxX c).1 hc
  by_cases hcx : c = x
  · subst hcx
    by_cases hpos : 0 < readAt2 s.NextMove c 1
    · left
      refine ⟨readAt2 s.NextMove c 1 - 1, (mem_upTo_MaxY _).2 (by omega), ?_, ?_, ?_, ?_, ?_⟩
      · rw [MakeMove_Scene _ _ _ _ _ hwf.1 hx' hy']
        simp [hpos]
      · intro r hr hlt
        rw [MakeMove_Scene _ _ _ _ _ hwf.1 hx' hy']
        have h1 : ¬ (r = readAt2 s.NextMove c 1 - 1 ∧ c = c ∧ 0 < readAt2 s.NextMove c 1) := by
          omega
        have h2 : ¬ (r = readAt2 s.NextMove c 1 ∧ c = c) := by omega
        rw [if_neg h1, if_neg h2]
        exact hup r hr (by omega)
      · intro r hr hlt
        rw [MakeMove_Scene _ _ _ _ _ hwf.1 hx' hy']
        have h1 : ¬ (r = readAt2 s.NextMove c 1 - 1 ∧ c = c ∧ 0 < readAt2 s.NextMove c 1) := by
          omega
        rw [if_neg h1]
        by_cases h2 : r = readAt2 s.NextMove c 1
        · rw [if_pos ⟨h2, rfl⟩]
          exact s.CurrentPlayer.toInt_cases
        · have h3 : ¬ (r = readAt2 s.NextMove c 1 ∧ c = c) := by omega
          rw [if_neg h3]
          exact hdown r hr (by omega)
      · rw [MakeMove_NextMove _ _ _ _ _ hwf.2.1 hx' hy'.1]
        simp [hpos]
      · rw [MakeMove_NextMove _ _ _ _ _ hwf.2.1 hx' hy'.1]
        simp [hpos]
    · right
      have hy0 : readAt2 s.NextMove c 1 = 0 := by omega
      refine ⟨0, (mem_upTo_MaxY_succ _).2 (by omega), ?_, ?_, ?_, ?_⟩
      · intro r hr hlt
        have := (mem_upTo_MaxY r).1 hr
        omega
      · intro r hr hle
        rw [MakeMove_Scene _ _ _ _ _ hwf.1 hx' hy']
        have h1 : ¬ (r = readAt2 s.NextMove c 1 - 1 ∧ c = c ∧ 0 < readAt2 s.NextMove c 1) := by
          omega
        rw [if_neg h1]
        by_cases h2 : r = readAt2 s.NextMove c 1
        · rw [if_pos ⟨h2, rfl⟩]
          exact s.CurrentPlayer.toInt_cases
        · have h3 : ¬ (r = readAt2 s.NextMove c 1 ∧ c = c) := by omega
          rw [if_neg h3]
          exact hdown r hr (by omega)
      · rw [MakeMove_NextMove _ _ _ _ _ hwf.2.1 hx' hy'.1]
        simp [hpos]
      · rw [MakeMove_NextMove _ _ _ _ _ hwf.2.1 hx' hy'.1]
        simp [hpos]
  · have hscene : ∀ r, readAt2 (MakeMove s x (readAt2 s.NextMove x 1)).Scene r c
        = readAt2 s.Scene r c := by
      intro r
      rw [MakeMove_Scene _ _ _ _ _ hwf.1 hx' hy']
      have h1 : ¬ (r = readAt2 s.NextMove x 1 - 1 ∧ c = x ∧ 0 < readAt2 s.NextMove x 1) := by
        omega
      have h2 : ¬ (r = readAt2 s.NextMove x 1 ∧ c = x) := by omega
      rw [if_neg h1, if_neg h2]
    have hnext : ∀ k, readAt2 (MakeMove s x (readAt2 s.NextMove x 1)).NextMove c k
        = readAt2 s.NextMove c k := by
      intro k
      rw [MakeMove_NextMove _ _ _ _ _ hwf.2.1 hx' hy'.1]
      have h1 : ¬ (c = x ∧ k = 1) := by omega
      have h2 : ¬ (c = x ∧ k = 0) := by omega
      rw [if_neg h1, if_neg h2]
    rcases hwf.2.2 c hc with ⟨y, hy, ho⟩ | ⟨k, hk, hcl⟩
    · left
      refine ⟨y, hy, ?_⟩
      unfold OpenColumn at ho ⊢
      simp only [hscene, hnext]
      exact ho
    · right
      refine ⟨k, hk, ?_⟩
      unfold ClosedColumn at hcl ⊢
      simp only [hscene, hnext]
      exact hcl

theorem WellFormed_GameInit (player : PLAYER) : WellFormed (GameInit player).1 := by
  cases player <;> decide

/-- Every reachable state is well-formed. -/
theorem Reachable.wellFormed {s : RoundState} (h : Reachable s) : WellFormed s := by
  induction h with
  | init p => exact WellFormed_GameInit p
  | move s x _ hx hopen ih => exact WellFormed_dropAt ih hx hopen

/-! ## Win detection -/

theorem strandPass_iff (scene : List (List Int)) (id dx dy : Int) (n : Nat) :
    ∀ x y : Int, strandPass scene id dx dy n x y = true ↔
      ∀ k : Int, 1 ≤ k → k ≤ n →
        (0 ≤ x + k * dx ∧ x + k * dx ≤ MaxX ∧ 0 ≤ y + k * dy ∧ y + k * dy ≤ MaxY) ∧
        readAt2 scene (y + k * dy) (x + k * dx) = id := by
  induction n with
  | zero =>
    intro x y
    simp only [strandPass, true_iff]
    intro k h1 h2
    simp only [Nat.cast_zero] at h2
    omega
  | succ n ih =>
    intro x y
    simp only [strandPass]
    constructor
    · intro h
      by_cases hb : (x + dx < 0 ∨ x + dx > MaxX) ∨ (y + dy < 0 ∨ y + dy > MaxY)
      · simp [hb] at h
      · rw [if_neg hb] at h
        by_cases hc : readAt2 scene (y + dy) (x + dx) ≠ id
        · simp [hc] at h
        · rw [if_neg hc] at h
          have hrest := (ih (x + dx) (y + dy)).1 h
          intro k h1 h2
          by_cases hk : k = 1
          · subst hk
            simp only [one_mul]
            push_neg at hb hc
            exact ⟨⟨by omega, by omega, by omega, by omega⟩, hc⟩
          · have := hrest (k - 1) (by omega) (by push_cast at h2; omega)
            have ex : x + dx + (k - 1) * dx = x + k * dx := by ring
            have ey : y + dy + (k - 1) * dy = y + k * dy := by ring
            rw [ex, ey] at this
            exact this
    · intro h
      have h1 := h 1 (by omega) (by push_cast; omega)
      simp only [one_mul] at h1
      have hb : ¬ ((x + dx < 0 ∨ x + dx > MaxX) ∨ (y + dy < 0 ∨ y + dy > MaxY)) := by
        have := h1.1
        omega
      have hc : ¬ (readAt2 scene (y + dy) (x + dx) ≠ id) := by
        simp [h1.2]
      rw [if_neg hb, if_neg hc]
      apply (ih (x + dx) (y + dy)).2
      intro k hk1 hk2
      have := h (k + 1) (by omega) (by push_cast; omega)
      have ex : x + dx + k * dx = x + (k + 1) * dx := by ring
      have ey : y + dy + k * dy = y + (k + 1) * dy := by ring
      rw [ex, ey]
      exact this

/-- The eight rows of the direction matrix. -/
theorem Direction_rows (m : Int) (hm : m ∈ upTo 7) :
    (readAt2 Direction m 0, readAt2 Direction m 1) ∈
      [((0 : Int), (-1 : Int)), (1, -1), (1, 0), (1, 1), (0, 1), (-1, 1), (-1, 0), (-1, -1)] := by
  have := (mem_upTo 7 m (by decide)).1 hm
  obtain ⟨h0, h1⟩ := this
  interval_cases m <;> decide

/-- A passing strand from an origin holding `id` gives four cells of `id` in a line. -/
theorem HasLine_of_anyStrand (scene : List (List Int)) (x y id : Int)
    (hx : x ∈ upTo MaxX) (hy : y ∈ upTo MaxY) (hid : readAt2 scene y x = id)
    (h : anyStrand scene x y id = true) : HasLine scene id := by
  unfold anyStrand at h
  rw [List.any_eq_true] at h
  obtain ⟨m, hm, hpass⟩ := h
  have hrows := Direction_rows m hm
  generalize readAt2 Direction m 0 = dx at hpass hrows
  generalize readAt2 Direction m 1 = dy at hpass hrows
  have hs := (strandPass_iff scene id dx dy 3 x y).1 hpass
  have hx' := (mem_upTo_MaxX x).1 hx
  have hy' := (mem_upTo_MaxY y).1 hy
  have hMX : MaxX = 6 := rfl
  have hMY : MaxY = 5 := rfl
  have fwd : FourAt scene id x y dx dy := by
    intro k hk
    have hk' := (mem_upTo 3 k (by decide)).1 hk
    by_cases hk0 : k = 0
    · subst hk0
      simp only [zero_mul, add_zero]
      exact ⟨⟨by omega, by omega, by omega, by omega⟩, hid⟩
    · exact hs k (by omega) (by push_cast; omega)
  have bwd : FourAt scene id (x + 3 * dx) (y + 3 * dy) (-dx) (-dy) := by
    intro k hk
    have hk' := (mem_upTo 3 k (by decide)).1 hk
    have ex : x + 3 * dx + k * -dx = x + (3 - k) * dx := by ring
    have ey : y + 3 * dy + k * -dy = y + (3 - k) * dy := by ring
    rw [ex, ey]
    by_cases hk3 : k = 3
    · subst hk3
      simp only [sub_self, zero_mul, add_zero]
      exact ⟨⟨by omega, by omega, by omega, by omega⟩, hid⟩
    · exact hs (3 - k) (by omega) (by push_cast; omega)
  have h3 := hs 3 (by omega) (by norm_num)
  have hx3 : x + 3 * dx ∈ upTo MaxX := (mem_upTo_MaxX _).2 (by omega)
  have hy3 : y + 3 * dy ∈ upTo MaxY := (mem_upTo_MaxY _).2 (by omega)
  simp only [List.mem_cons, Prod.mk.injEq, List.mem_singleton, List.not_mem_nil, or_false]
    at hrows
  rcases hrows with h | h | h | h | h | h | h | h
  all_goals obtain ⟨rfl, rfl⟩ := h
  · exact ⟨_, hx3, _, hy3, (0, 1), by decide, by simpa using bwd⟩
  · exact ⟨x, hx, y, hy, (1, -1), by decide, fwd⟩
  · exact ⟨x, hx, y, hy, (1, 0), by decide, fwd⟩
  · exact ⟨x, hx, y, hy, (1, 1), by decide, fwd⟩
  · exact ⟨x, hx, y, hy, (0, 1), by decide, fwd⟩
  · exact ⟨_, hx3, _, hy3, (1, -1), by decide, by simpa using bwd⟩
  · exact ⟨_, hx3, _, hy3, (1, 0), by decide, by simpa using bwd⟩
  · exact ⟨_, hx3, _, hy3, (1, 1), by decide, by simpa using bwd⟩

/-- Four cells of `p` in a line give a passing strand from the first of them. -/
theorem anyStrand_of_FourAt (scene : List (List Int)) (p x y : Int) (d : Int × Int)
    (hd : d ∈ lineDirections) (h : FourAt scene p x y d.1 d.2) :
    readAt2 scene y x = p ∧ anyStrand scene x y p = true := by
  have h0 := h 0 (by decide)
  simp only [zero_mul, add_zero] at h0
  refine ⟨h0.2, ?_⟩
  have hs : strandPass scene p d.1 d.2 3 x y = true := by
    apply (strandPass_iff scene p d.1 d.2 3 x y).2
    intro k h1 h2
    exact h k ((mem_upTo 3 k (by decide)).2 ⟨by omega, by push_cast at h2; omega⟩)
  unfold anyStrand
  rw [List.any_eq_true]
  simp only [lineDirections, List.mem_cons, List.mem_singleton, List.not_mem_nil, or_false]
    at hd
  rcases hd with rfl | rfl | rfl | rfl
  · exact ⟨2, by decide, hs⟩
  · exact ⟨4, by decide, hs⟩
  · exact ⟨3, by decide, hs⟩
  · exact ⟨1, by decide, hs⟩

theorem scanColumn_some (scene : List (List Int)) (x : Int) (ys : List Int) (id : Int)
    (h : scanColumn scene x ys = some id) :
    ∃ y ∈ ys, readAt2 scene y x = id ∧ id ≠ 0 ∧ id ≠ -1 ∧ anyStrand scene x y id = true := by
  induction ys with
  | nil => simp [scanColumn] at h
  | cons y ys ih =>
    simp only [scanColumn] at h
    by_cases hb : readAt2 scene y x = 0 ∨ readAt2 scene y x = -1
    · simp [hb] at h
    · rw [if_neg hb] at h
      by_cases hs : anyStrand scene x y (readAt2 scene y x) = true
      · rw [if_pos hs] at h
        have hid : readAt2 scene y x = id := by simpa using h
        push_neg at hb
        refine ⟨y, List.mem_cons_self _ _, hid, ?_, ?_, ?_⟩
        · rw [← hid]; exact hb.1
        · rw [← hid]; exact hb.2
        · rw [← hid]; exact hs
      · rw [if_neg hs] at h
        obtain ⟨y', hy', hrest⟩ := ih h
        exact ⟨y', List.mem_cons_of_mem _ hy', hrest⟩

theorem scanColumn_none (scene : List (List Int)) (x : Int) (ys : List Int)
    (hsorted : ys.Pairwise (fun a b => b < a)) (h : scanColumn scene x ys = none) :
    ∀ y ∈ ys, (∀ r ∈ ys, y < r → readAt2 scene r x = 1 ∨ readAt2 scene r x = 2) →
      (readAt2 scene y x = 1 ∨ readAt2 scene y x = 2) →
      anyStrand scene x y (readAt2 scene y x) = false := by
  induction ys with
  | nil => intro y hy; simp at hy
  | cons a ys ih =>
    intro y hy hbelow hocc
    rw [List.pairwise_cons] at hsorted
    simp only [scanColumn] at h
    rcases List.mem_cons.1 hy with rfl | hy'
    · have hb : ¬ (readAt2 scene y x = 0 ∨ readAt2 scene y x = -1) := by
        rcases hocc with h1 | h1 <;> rw [h1] <;> decide
      rw [if_neg hb] at h
      by_cases hs : anyStrand scene x y (readAt2 scene y x) = true
      · simp [hs] at h
      · simpa using hs
    · have ha : readAt2 scene a x = 1 ∨ readAt2 scene a x = 2 :=
        hbelow a (List.mem_cons_self _ _) (hsorted.1 y hy')
      have hb : ¬ (readAt2 scene a x = 0 ∨ readAt2 scene a x = -1) := by
        rcases ha with h1 | h1 <;> rw [h1] <;> decide
      rw [if_neg hb] at h
      by_cases hs : anyStrand scene x a (readAt2 scene a x) = true
      · simp [hs] at h
      · rw [if_neg hs] at h
        exact ih hsorted.2 h y hy' (fun r hr => hbelow r (List.mem_cons_of_mem _ hr)) hocc

theorem scanColumns_ne (scene : List (List Int)) (xs : List Int) (id : Int)
    (hne : id ≠ -1) (h : scanColumns scene xs = id) :
    ∃ x ∈ xs, scanColumn scene x (downFrom MaxY) = some id := by
  induction xs with
  | nil => simp only [scanColumns] at h; omega
  | cons x xs ih =>
    simp only [scanColumns] at h
    cases hsc : scanColumn scene x (downFrom MaxY) with
    | some v =>
      rw [hsc] at h
      simp only at h
      exact ⟨x, List.mem_cons_self _ _, by rw [← h]; exact hsc⟩
    | none =>
      rw [hsc] at h
      simp only at h
      obtain ⟨x', hx', hrest⟩ := ih h
      exact ⟨x', List.mem_cons_of_mem _ hx', hrest⟩

theorem scanColumns_eq_neg_one (scene : List (List Int)) (xs : List Int)
    (h : scanColumns scene xs = -1) : ∀ x ∈ xs, scanColumn scene x (downFrom MaxY) = none := by
  induction xs with
  | nil => intro x hx; simp at hx
  | cons a xs ih =>
    intro x hx
    simp only [scanColumns] at h
    cases hsc : scanColumn scene a (downFrom MaxY) with
    | some v =>
      rw [hsc] at h
      simp only at h
      obtain ⟨_, _, _, _, hv, _⟩ := scanColumn_some scene a _ v hsc
      exact absurd h hv
    | none =>
      rw [hsc] at h
      simp only at h
      rcases List.mem_cons.1 hx with rfl | hx'
      · exact hsc
      · exact ih h x hx'

theorem mem_downFrom_MaxY (y : Int) : y ∈ downFrom MaxY ↔ y ∈ upTo MaxY := by
  unfold downFrom
  exact List.mem_reverse

theorem downFrom_MaxY_sorted : (downFrom MaxY).Pairwise (fun a b => b < a) := by
  decide

/-- In a well-formed state every cell below a piece holds a piece. -/
theorem WellFormed.below_piece {s : RoundState} (hwf : WellFormed s) {x y : Int}
    (hx : x ∈ upTo MaxX) (hy : y ∈ upTo MaxY)
    (hocc : readAt2 s.Scene y x = 1 ∨ readAt2 s.Scene y x = 2) :
    ∀ r ∈ upTo MaxY, y < r → readAt2 s.Scene r x = 1 ∨ readAt2 s.Scene r x = 2 := by
  intro r hr hlt
  rcases hwf.2.2 x hx with ⟨y0, _, h0, hup, hdown, _⟩ | ⟨k, _, hup, hdown, _⟩
  · by_cases hle : y ≤ y0
    · by_cases heq : y = y0
      · subst heq; rw [h0] at hocc; omega
      · have := hup y hy (by omega)
        rw [this] at hocc; omega
    · exact hdown r hr (by omega)
  · by_cases hle : y < k
    · have := hup y hy hle
      rw [this] at hocc; omega
    · exact hdown r hr (by omega)

/-- In a well-formed state every cell of the board holds `-1`, `0`, `1` or `2`. -/
theorem WellFormed.cell_cases {s : RoundState} (hwf : WellFormed s) {x y : Int}
    (hx : x ∈ upTo MaxX) (hy : y ∈ upTo MaxY) :
    readAt2 s.Scene y x = -1 ∨ readAt2 s.Scene y x = 0 ∨
      readAt2 s.Scene y x = 1 ∨ readAt2 s.Scene y x = 2 := by
  rcases hwf.2.2 x hx with ⟨y0, _, h0, hup, hdown, _⟩ | ⟨k, _, hup, hdown, _⟩
  · rcases lt_trichotomy y y0 with h | h | h
    · exact Or.inl (hup y hy h)
    · subst h; exact Or.inr (Or.inl h0)
    · exact Or.inr (Or.inr (hdown y hy h))
  · by_cases h : y < k
    · exact Or.inl (hup y hy h)
    · exact Or.inr (Or.inr (hdown y hy (by omega)))

/-- With at least seven moves counted, a value other than `-1` returned by `FindWinner`
is a player value that has four in a line. -/
theorem FindWinner_sound {s : RoundState} (hwf : WellFormed s) {p : Int}
    (h : FindWinner s = p) (hp : p ≠ -1) : (p = 1 ∨ p = 2) ∧ HasLine s.Scene p := by
  unfold FindWinner at h
  by_cases hm : s.Moves < 7
  · rw [if_pos hm] at h; omega
  · rw [if_neg hm] at h
    obtain ⟨x, hx, hsc⟩ := scanColumns_ne s.Scene _ p hp h
    obtain ⟨y, hy, hid, h0, h1, hs⟩ := scanColumn_some s.Scene x _ p hsc
    rw [mem_downFrom_MaxY] at hy
    refine ⟨?_, HasLine_of_anyStrand s.Scene x y p hx hy hid hs⟩
    have := hwf.cell_cases hx hy
    rw [hid] at this
    omega

/-- With at least seven moves counted, `FindWinner` finds every line of four. -/
theorem FindWinner_complete {s : RoundState} (hwf : WellFormed s) (hm : 7 ≤ s.Moves)
    {p : Int} (hp : p = 1 ∨ p = 2) (hline : HasLine s.Scene p) : FindWinner s ≠ -1 := by
  intro h
  unfold FindWinner at h
  rw [if_neg (by omega)] at h
  obtain ⟨x, hx, y, hy, d, hd, h4⟩ := hline
  obtain ⟨hcell, hs⟩ := anyStrand_of_FourAt s.Scene p x y d hd h4
  have hnone := scanColumns_eq_neg_one s.Scene _ h x hx
  have hocc : readAt2 s.Scene y x = 1 ∨ readAt2 s.Scene y x = 2 := by rw [hcell]; exact hp
  have := scanColumn_none s.Scene x _ downFrom_MaxY_sorted hnone y
    ((mem_downFrom_MaxY y).2 hy)
    (fun r hr hlt => hwf.below_piece hx hy hocc r ((mem_downFrom_MaxY r).1 hr) hlt) hocc
  rw [hcell, hs] at this
  exact absurd this (by decide)

/-! ## The search recursion -/

theorem terminalRating_cases (code : Int) :
    terminalRating code = WinPosition ∨ terminalRating code = LosePosition ∨
      terminalRating code = NeutralPosition := by
  unfold terminalRating
  split
  · exact Or.inl rfl
  · split
    · exact Or.inr (Or.inl rfl)
    · exact Or.inr (Or.inr rfl)

theorem terminalRating_bounds (code : Int) :
    NeutralPosition - 1 ≤ terminalRating code ∧ terminalRating code ≤ WinPosition + 1 := by
  rcases terminalRating_cases code with h | h | h <;> rw [h] <;> decide

theorem EvaluatePositionBudget_zero (state : RoundState) (vp : List Int) :
    EvaluatePositionBudget 0 state vp = (terminalRating (FindWinner state), vp) := rfl

theorem EvaluatePositionBudget_succ (b : Nat) (state : RoundState) (vp : List Int) :
    EvaluatePositionBudget (b + 1) state vp =
      if FindWinner state ≠ -1 then (terminalRating (FindWinner state), vp)
      else ((EvaluateBestMoveWith (EvaluatePositionBudget b) state vp).MoveRating,
            (EvaluateBestMoveWith (EvaluatePositionBudget b) state vp).VictoryProbability) := rfl

/-- The recursion equation of `EvaluatePosition` as it is written in the source. -/
theorem EvaluatePosition_eq (state : RoundState) (vp : List Int) (depth : Int) :
    EvaluatePosition state vp depth =
      if FindWinner state ≠ -1 ∨ depth ≥ MaxDepth then (terminalRating (FindWinner state), vp)
      else ((EvaluateBestMove state vp depth).MoveRating,
            (EvaluateBestMove state vp depth).VictoryProbability) := by
  unfold EvaluatePosition
  cases hb : (MaxDepth - depth).toNat with
  | zero =>
    have hd : depth ≥ MaxDepth := by omega
    rw [EvaluatePositionBudget_zero, if_pos (Or.inr hd)]
  | succ b =>
    have hd : ¬ depth ≥ MaxDepth := by omega
    have hnext : (MaxDepth - (depth + 1)).toNat = b := by omega
    rw [EvaluatePositionBudget_succ]
    by_cases hc : FindWinner state ≠ -1
    · rw [if_pos hc, if_pos (Or.inl hc)]
    · rw [if_neg hc, if_neg (by tauto)]
      unfold EvaluateBestMove EvaluatePosition
      rw [hnext]

/-! ### Ratings lie between `-1001` and `1001` -/

theorem EvaluateBestMoveStep_MaxRating_bounds
    (evalNext : RoundState → List Int → Int × List Int) (hb : RatingBounded evalNext)
    (acc : SearchLoop) (i : Int)
    (h : NeutralPosition - 1 ≤ acc.MaxRating ∧ acc.MaxRating ≤ WinPosition + 1) :
    NeutralPosition - 1 ≤ (EvaluateBestMoveStep evalNext acc i).MaxRating ∧
      (EvaluateBestMoveStep evalNext acc i).MaxRating ≤ WinPosition + 1 := by
  unfold EvaluateBestMoveStep
  split
  · exact h
  · simp only
    split
    · exact hb _ _
    · exact h

theorem foldl_EvaluateBestMoveStep_MaxRating_bounds
    (evalNext : RoundState → List Int → Int × List Int) (hb : RatingBounded evalNext)
    (l : List Int) : ∀ acc : SearchLoop,
    (NeutralPosition - 1 ≤ acc.MaxRating ∧ acc.MaxRating ≤ WinPosition + 1) →
    NeutralPosition - 1 ≤ (l.foldl (EvaluateBestMoveStep evalNext) acc).MaxRating ∧
      (l.foldl (EvaluateBestMoveStep evalNext) acc).MaxRating ≤ WinPosition + 1 := by
  induction l with
  | nil => intro acc h; exact h
  | cons a t ih =>
    intro acc h
    rw [List.foldl_cons]
    exact ih _ (EvaluateBestMoveStep_MaxRating_bounds evalNext hb acc a h)

theorem EvaluateBestMoveWith_bounds
    (evalNext : RoundState → List Int → Int × List Int) (hb : RatingBounded evalNext)
    (state : RoundState) (vp : List Int) :
    NeutralPosition - 1 ≤ (EvaluateBestMoveWith evalNext state vp).MoveRating ∧
      (EvaluateBestMoveWith evalNext state vp).MoveRating ≤ WinPosition + 1 := by
  have h := foldl_EvaluateBestMoveStep_MaxRating_bounds evalNext hb (upTo MaxX)
    { state := state, VictoryProbability := vp, BestMoveX := none,
      MaxRating := NeutralPosition - 1 } ⟨le_refl _, (by decide : NeutralPosition - 1 ≤ WinPosition + 1)⟩
  unfold EvaluateBestMoveWith EvaluateBestMoveLoop
  simp only
  have hW : WinPosition = 1000 := rfl
  have hN : NeutralPosition = -1000 := rfl
  split <;> omega

theorem EvaluatePositionBudget_bounded (b : Nat) : RatingBounded (EvaluatePositionBudget b) := by
  induction b with
  | zero =>
    intro st v
    rw [EvaluatePositionBudget_zero]
    exact terminalRating_bounds _
  | succ b ih =>
    intro st v
    rw [EvaluatePositionBudget_succ]
    split
    · exact terminalRating_bounds _
    · dsimp only
      exact EvaluateBestMoveWith_bounds (EvaluatePositionBudget b) ih st v

theorem EvaluatePosition_bounded (depth : Int) :
    RatingBounded (fun st v => EvaluatePosition st v depth) :=
  fun st v => EvaluatePositionBudget_bounded _ st v

/-! ### Ratings do not depend on the tally table -/

theorem EvaluateBestMoveStep_tallyFree
    (evalNext : RoundState → List Int → Int × List Int) (hf : TallyFree evalNext)
    (acc acc' : SearchLoop) (i : Int)
    (h : acc.state = acc'.state ∧ acc.BestMoveX = acc'.BestMoveX ∧
      acc.MaxRating = acc'.MaxRating) :
    (EvaluateBestMoveStep evalNext acc i).state = (EvaluateBestMoveStep evalNext acc' i).state ∧
    (EvaluateBestMoveStep evalNext acc i).BestMoveX
      = (EvaluateBestMoveStep evalNext acc' i).BestMoveX ∧
    (EvaluateBestMoveStep evalNext acc i).MaxRating
      = (EvaluateBestMoveStep evalNext acc' i).MaxRating := by
  obtain ⟨h1, h2, h3⟩ := h
  unfold EvaluateBestMoveStep
  rw [h1]
  split
  · exact ⟨h1, h2, h3⟩
  · simp only
    rw [hf _ acc.VictoryProbability acc'.VictoryProbability, h2, h3]
    exact ⟨trivial, rfl, rfl⟩

theorem foldl_EvaluateBestMoveStep_tallyFree
    (evalNext : RoundState → List Int → Int × List Int) (hf : TallyFree evalNext)
    (l : List Int) : ∀ acc acc' : SearchLoop,
    (acc.state = acc'.state ∧ acc.BestMoveX = acc'.BestMoveX ∧
      acc.MaxRating = acc'.MaxRating) →
    (l.foldl (EvaluateBestMoveStep evalNext) acc).state
      = (l.foldl (EvaluateBestMoveStep evalNext) acc').state ∧
    (l.foldl (EvaluateBestMoveStep evalNext) acc).BestMoveX
      = (l.foldl (EvaluateBestMoveStep evalNext) acc').BestMoveX ∧
    (l.foldl (EvaluateBestMoveStep evalNext) acc).MaxRating
      = (l.foldl (EvaluateBestMoveStep evalNext) acc').MaxRating := by
  induction l with
  | nil => intro acc acc' h; exact h
  | cons a t ih =>
    intro acc acc' h
    rw [List.foldl_cons, List.foldl_cons]
    exact ih _ _ (EvaluateBestMoveStep_tallyFree evalNext hf acc acc' a h)

theorem EvaluateBestMoveWith_tallyFree
    (evalNext : RoundState → List Int → Int × List Int) (hf : TallyFree evalNext)
    (state : RoundState) (v v' : List Int) :
    (EvaluateBestMoveWith evalNext state v).MoveRating
      = (EvaluateBestMoveWith evalNext state v').MoveRating ∧
    (EvaluateBestMoveWith evalNext state v).BestMoveX
      = (EvaluateBestMoveWith evalNext state v').BestMoveX := by
  obtain ⟨h1, h2, h3⟩ := foldl_EvaluateBestMoveStep_tallyFree evalNext hf (upTo MaxX)
    { state := state, VictoryProbability := v, BestMoveX := none,
      MaxRating := NeutralPosition - 1 }
    { state := state, VictoryProbability := v', BestMoveX := none,
      MaxRating := NeutralPosition - 1 } ⟨rfl, rfl, rfl⟩
  unfold EvaluateBestMoveWith EvaluateBestMoveLoop
  simp only
  rw [h1, h2, h3]
  exact ⟨rfl, rfl⟩

theorem EvaluatePositionBudget_tallyFree (b : Nat) : TallyFree (EvaluatePositionBudget b) := by
  induction b with
  | zero => intro st v v'; rfl
  | succ b ih =>
    intro st v v'
    rw [EvaluatePositionBudget_succ, EvaluatePositionBudget_succ]
    split
    · rfl
    · dsimp only
      exact (EvaluateBestMoveWith_tallyFree (EvaluatePositionBudget b) ih st v v').1

theorem EvaluatePosition_tallyFree (depth : Int) :
    TallyFree (fun st v => EvaluatePosition st v depth) :=
  fun st v v' => EvaluatePositionBudget_tallyFree _ st v v'

theorem rawRating_tallyFree (s : RoundState) (depth : Int) (v v' : List Int) (i : Int) :
    rawRating s depth v i = rawRating s depth v' i :=
  EvaluatePosition_tallyFree (depth + 1) _ v v'

/-! ### The column loop on a well-formed state -/

theorem EvaluateBestMoveStep_full (evalNext : RoundState → List Int → Int × List Int)
    (acc : SearchLoop) (i : Int) (h : ¬ NonFull acc.state i) :
    EvaluateBestMoveStep evalNext acc i = acc := by
  unfold NonFull at h
  unfold EvaluateBestMoveStep
  rw [if_pos (by simpa using h)]

/-- On a well-formed state an iteration for a non-full column rates the drop into that
column and leaves the state as it was. -/
theorem EvaluateBestMoveStep_nonFull (evalNext : RoundState → List Int → Int × List Int)
    (acc : SearchLoop) (i : Int) (hwf : WellFormed acc.state) (hi : i ∈ upTo MaxX)
    (h : NonFull acc.state i) :
    (EvaluateBestMoveStep evalNext acc i).state = acc.state ∧
    (EvaluateBestMoveStep evalNext acc i).MaxRating =
      (if (evalNext (dropAt acc.state i) acc.VictoryProbability).1 > acc.MaxRating
        then (evalNext (dropAt acc.state i) acc.VictoryProbability).1 else acc.MaxRating) ∧
    (EvaluateBestMoveStep evalNext acc i).BestMoveX =
      (if (evalNext (dropAt acc.state i) acc.VictoryProbability).1 > acc.MaxRating
        then some i else acc.BestMoveX) ∧
    (EvaluateBestMoveStep evalNext acc i).VictoryProbability =
      (if (evalNext (dropAt acc.state i) acc.VictoryProbability).1 = WinPosition
        then writeAt (evalNext (dropAt acc.state i) acc.VictoryProbability).2 i
          (readAt (evalNext (dropAt acc.state i) acc.VictoryProbability).2 i + 1)
        else (evalNext (dropAt acc.state i) acc.VictoryProbability).2) := by
  have h0 : readAt2 acc.state.NextMove i 0 = i := hwf.nextMove_fst hi h
  have hne : ¬ readAt2 acc.state.NextMove i 0 = -1 := h
  unfold EvaluateBestMoveStep
  rw [if_neg hne]
  simp only [h0, dropAt]
  exact ⟨RetractMove_MakeMove_eq acc.state i hwf hi h, trivial, trivial, trivial⟩

/-- The column loop over an ascending list of columns of a well-formed state: the state is
left as it was, `MaxRating` is the larger of its initial value and the ratings of the
non-full columns, and `BestMoveX` is the first column that reached it. -/
theorem foldl_EvaluateBestMoveStep_wf (evalNext : RoundState → List Int → Int × List Int)
    (s : RoundState) (hwf : WellFormed s) (R : Int → Int)
    (hR : ∀ i v, (evalNext (dropAt s i) v).1 = R i) (l : List Int) :
    ∀ acc : SearchLoop, (∀ i ∈ l, i ∈ upTo MaxX) → l.Pairwise (fun a b => a < b) →
      acc.state = s →
      (l.foldl (EvaluateBestMoveStep evalNext) acc).state = s ∧
      acc.MaxRating ≤ (l.foldl (EvaluateBestMoveStep evalNext) acc).MaxRating ∧
      (∀ i ∈ l, NonFull s i → R i ≤ (l.foldl (EvaluateBestMoveStep evalNext) acc).MaxRating) ∧
      (((l.foldl (EvaluateBestMoveStep evalNext) acc).MaxRating = acc.MaxRating ∧
          (l.foldl (EvaluateBestMoveStep evalNext) acc).BestMoveX = acc.BestMoveX) ∨
        (acc.MaxRating < (l.foldl (EvaluateBestMoveStep evalNext) acc).MaxRating ∧
          ∃ i ∈ l, NonFull s i ∧
            R i = (l.foldl (EvaluateBestMoveStep evalNext) acc).MaxRating ∧
            (l.foldl (EvaluateBestMoveStep evalNext) acc).BestMoveX = some i ∧
            ∀ j ∈ l, NonFull s j → j < i →
              R j < (l.foldl (EvaluateBestMoveStep evalNext) acc).MaxRating)) := by
  induction l with
  | nil =>
    intro acc _ _ hst
    exact ⟨hst, le_refl _, fun i hi => absurd hi (List.not_mem_nil i), Or.inl ⟨rfl, rfl⟩⟩
  | cons a t ih =>
    intro acc hmem hsorted hst
    rw [List.pairwise_cons] at hsorted
    rw [List.foldl_cons]
    have ha : a ∈ upTo MaxX := hmem a (List.mem_cons_self _ _)
    have hmem' : ∀ i ∈ t, i ∈ upTo MaxX := fun i hi => hmem i (List.mem_cons_of_mem _ hi)
    by_cases hnf : NonFull s a
    · have hwf' : WellFormed acc.state := by rw [hst]; exact hwf
      have hnf' : NonFull acc.state a := by rw [hst]; exact hnf
      obtain ⟨e1, e2, e3, _⟩ := EvaluateBestMoveStep_nonFull evalNext acc a hwf' ha hnf'
      rw [hst, hR] at e2 e3
      rw [hst] at e1
      obtain ⟨k1, k2, k3, k4⟩ := ih (EvaluateBestMoveStep evalNext acc a) hmem' hsorted.2 e1
      set r := List.foldl (EvaluateBestMoveStep evalNext) (EvaluateBestMoveStep evalNext acc a) t
        with hr
      have hstep_ge : acc.MaxRating ≤ (EvaluateBestMoveStep evalNext acc a).MaxRating ∧
          R a ≤ (EvaluateBestMoveStep evalNext acc a).MaxRating := by
        rw [e2]; split <;> constructor <;> omega
      refine ⟨k1, by omega, ?_, ?_⟩
      · intro i hi hnfi
        rcases List.mem_cons.1 hi with rfl | hi'
        · omega
        · exact k3 i hi' hnfi
      · rcases k4 with ⟨m1, m2⟩ | ⟨m1, i, hi, hnfi, m2, m3, m4⟩
        · by_cases hgt : R a > acc.MaxRating
          · right
            rw [if_pos hgt] at e2 e3
            refine ⟨by omega, a, List.mem_cons_self _ _, hnf, by omega, by rw [m2, e3], ?_⟩
            intro j hj _ hlt
            rcases List.mem_cons.1 hj with rfl | hj'
            · omega
            · have := hsorted.1 j hj'
              omega
          · left
            rw [if_neg hgt] at e2 e3
            exact ⟨by omega, by rw [m2, e3]⟩
        · right
          refine ⟨by omega, i, List.mem_cons_of_mem _ hi, hnfi, m2, m3, ?_⟩
          intro j hj hnfj hlt
          rcases List.mem_cons.1 hj with rfl | hj'
          · omega
          · exact m4 j hj' hnfj hlt
    · have hnf' : ¬ NonFull acc.state a := by rw [hst]; exact hnf
      rw [EvaluateBestMoveStep_full evalNext acc a hnf']
      obtain ⟨k1, k2, k3, k4⟩ := ih acc hmem' hsorted.2 hst
      refine ⟨k1, k2, ?_, ?_⟩
      · intro i hi hnfi
        rcases List.mem_cons.1 hi with rfl | hi'
        · exact absurd hnfi hnf
        · exact k3 i hi' hnfi
      · rcases k4 with h | ⟨m1, i, hi, hnfi, m2, m3, m4⟩
        · exact Or.inl h
        · right
          refine ⟨m1, i, List.mem_cons_of_mem _ hi, hnfi, m2, m3, ?_⟩
          intro j hj hnfj hlt
          rcases List.mem_cons.1 hj with rfl | hj'
          · exact absurd hnfj hnf
          · exact m4 j hj' hnfj hlt

theorem upTo_MaxX_sorted : (upTo MaxX).Pairwise (fun a b => a < b) := by decide

/-- The function `EvaluateBestMove` on a well-formed state: the state survives the loop, the maximum
is the largest rating of a non-full column (never below the initial `NeutralPosition - 1`),
and when it exceeds that initial value the returned column is the lowest-indexed non-full
column that attains it. -/
theorem EvaluateBestMoveLoop_wf (s : RoundState) (vp : List Int) (depth : Int)
    (hwf : WellFormed s) :
    (EvaluateBestMoveLoop (fun st v => EvaluatePosition st v (depth + 1)) s vp).state = s ∧
    NeutralPosition - 1 ≤
      (EvaluateBestMoveLoop (fun st v => EvaluatePosition st v (depth + 1)) s vp).MaxRating ∧
    (∀ i ∈ upTo MaxX, NonFull s i → rawRating s depth vp i ≤
      (EvaluateBestMoveLoop (fun st v => EvaluatePosition st v (depth + 1)) s vp).MaxRating) ∧
    (((EvaluateBestMoveLoop (fun st v => EvaluatePosition st v (depth + 1)) s vp).MaxRating
          = NeutralPosition - 1 ∧
        (EvaluateBestMoveLoop (fun st v => EvaluatePosition st v (depth + 1)) s vp).BestMoveX
          = none) ∨
      (NeutralPosition - 1 <
          (EvaluateBestMoveLoop (fun st v => EvaluatePosition st v (depth + 1)) s vp).MaxRating ∧
        ∃ i ∈ upTo MaxX, NonFull s i ∧
          rawRating s depth vp i =
            (EvaluateBestMoveLoop (fun st v => EvaluatePosition st v (depth + 1)) s vp).MaxRating ∧
          (EvaluateBestMoveLoop (fun st v => EvaluatePosition st v (depth + 1)) s vp).BestMoveX
            = some i ∧
          ∀ j ∈ upTo MaxX, NonFull s j → j < i → rawRating s depth vp j <
            (EvaluateBestMoveLoop (fun st v => EvaluatePosition st v (depth + 1)) s vp).MaxRating))
    := by
  have hR : ∀ i v, ((fun st v => EvaluatePosition st v (depth + 1)) (dropAt s i) v).1
      = rawRating s depth vp i := fun i v => rawRating_tallyFree s depth v vp i
  exact foldl_EvaluateBestMoveStep_wf _ s hwf (fun i => rawRating s depth vp i) hR (upTo MaxX)
    { state := s, VictoryProbability := vp, BestMoveX := none,
      MaxRating := NeutralPosition - 1 } (fun i hi => hi) upTo_MaxX_sorted rfl

/-! ### The tally table only grows -/

theorem writeAt_of_not_lt (a : List Int) (i v : Int) (h : ¬ (0 ≤ i ∧ i < a.length)) :
    writeAt a i v = a := by
  unfold writeAt
  split
  · rfl
  · exact List.set_eq_of_length_le (by omega)

theorem readAt_le_readAt_bump (a : List Int) (i j : Int) :
    readAt a j ≤ readAt (writeAt a i (readAt a i + 1)) j := by
  by_cases h : 0 ≤ i ∧ i < a.length
  · rw [readAt_writeAt a i j _ h.1 h.2]
    split
    · subst j; omega
    · exact le_refl _
  · rw [writeAt_of_not_lt a i _ h]

theorem EvaluateBestMoveStep_tallyGrows
    (evalNext : RoundState → List Int → Int × List Int) (hg : TallyGrows evalNext)
    (acc : SearchLoop) (i j : Int) :
    readAt acc.VictoryProbability j
      ≤ readAt (EvaluateBestMoveStep evalNext acc i).VictoryProbability j := by
  unfold EvaluateBestMoveStep
  split
  · exact le_refl _
  · dsimp only
    split
    · exact le_trans (hg _ _ j) (readAt_le_readAt_bump _ i j)
    · exact hg _ _ j

theorem foldl_EvaluateBestMoveStep_tallyGrows
    (evalNext : RoundState → List Int → Int × List Int) (hg : TallyGrows evalNext)
    (l : List Int) (j : Int) : ∀ acc : SearchLoop,
    readAt acc.VictoryProbability j
      ≤ readAt (l.foldl (EvaluateBestMoveStep evalNext) acc).VictoryProbability j := by
  induction l with
  | nil => intro acc; exact le_refl _
  | cons a t ih =>
    intro acc
    rw [List.foldl_cons]
    exact le_trans (EvaluateBestMoveStep_tallyGrows evalNext hg acc a j) (ih _)

theorem EvaluateBestMoveWith_tallyGrows
    (evalNext : RoundState → List Int → Int × List Int) (hg : TallyGrows evalNext)
    (state : RoundState) (vp : List Int) (j : Int) :
    readAt vp j ≤ readAt (EvaluateBestMoveWith evalNext state vp).VictoryProbability j := by
  have h := foldl_EvaluateBestMoveStep_tallyGrows evalNext hg (upTo MaxX) j
    { state := state, VictoryProbability := vp, BestMoveX := none,
      MaxRating := NeutralPosition - 1 }
  unfold EvaluateBestMoveWith EvaluateBestMoveLoop
  dsimp only at h ⊢
  exact h

theorem EvaluatePositionBudget_tallyGrows (b : Nat) : TallyGrows (EvaluatePositionBudget b) := by
  induction b with
  | zero => intro st v j; exact le_refl _
  | succ b ih =>
    intro st v j
    rw [EvaluatePositionBudget_succ]
    split
    · exact le_refl _
    · dsimp only
      exact EvaluateBestMoveWith_tallyGrows (EvaluatePositionBudget b) ih st v j

theorem EvaluateBestMove_tallyGrows (state : RoundState) (vp : List Int) (depth j : Int) :
    readAt vp j ≤ readAt (EvaluateBestMove state vp depth).VictoryProbability j := by
  unfold EvaluateBestMove
  exact EvaluateBestMoveWith_tallyGrows (fun st v => EvaluatePosition st v (depth + 1))
    (fun st v j => EvaluatePositionBudget_tallyGrows _ st v j) state vp j

/-! ### The fallback scan of `DetermineBestMove` -/

theorem foldl_tallyStep (vp : List Int) (l : List Int) :
    ∀ acc : Option Int × Int, l.Pairwise (fun a b => a < b) →
      acc.2 ≤ (l.foldl (tallyStep vp) acc).2 ∧
      (∀ i ∈ l, readAt vp i ≤ (l.foldl (tallyStep vp) acc).2) ∧
      (((l.foldl (tallyStep vp) acc).2 = acc.2 ∧ (l.foldl (tallyStep vp) acc).1 = acc.1) ∨
        (acc.2 < (l.foldl (tallyStep vp) acc).2 ∧
          ∃ i ∈ l, readAt vp i = (l.foldl (tallyStep vp) acc).2 ∧
            (l.foldl (tallyStep vp) acc).1 = some i ∧
            ∀ j ∈ l, j < i → readAt vp j < (l.foldl (tallyStep vp) acc).2)) := by
  induction l with
  | nil =>
    intro acc _
    exact ⟨le_refl _, fun i hi => absurd hi (List.not_mem_nil i), Or.inl ⟨rfl, rfl⟩⟩
  | cons a t ih =>
    intro acc hsorted
    rw [List.pairwise_cons] at hsorted
    rw [List.foldl_cons]
    obtain ⟨k2, k3, k4⟩ := ih (tallyStep vp acc a) hsorted.2
    by_cases hgt : readAt vp a > acc.2
    · have e : tallyStep vp acc a = (some a, readAt vp a) := by
        unfold tallyStep; rw [if_pos hgt]
      rw [e] at k2 k3 k4 ⊢
      dsimp only at k2 k4
      refine ⟨by omega, ?_, ?_⟩
      · intro i hi
        rcases List.mem_cons.1 hi with rfl | hi'
        · exact k2
        · exact k3 i hi'
      · right
        rcases k4 with ⟨m1, m2⟩ | ⟨m1, i, hi, m2, m3, m4⟩
        · refine ⟨by omega, a, List.mem_cons_self _ _, by omega, m2, ?_⟩
          intro j hj hlt
          rcases List.mem_cons.1 hj with rfl | hj'
          · omega
          · have := hsorted.1 j hj'
            omega
        · refine ⟨by omega, i, List.mem_cons_of_mem _ hi, m2, m3, ?_⟩
          intro j hj hlt
          rcases List.mem_cons.1 hj with rfl | hj'
          · omega
          · exact m4 j hj' hlt
    · have e : tallyStep vp acc a = acc := by
        unfold tallyStep; rw [if_neg hgt]
      rw [e] at k2 k3 k4 ⊢
      refine ⟨k2, ?_, ?_⟩
      · intro i hi
        rcases List.mem_cons.1 hi with rfl | hi'
        · omega
        · exact k3 i hi'
      · rcases k4 with h | ⟨m1, i, hi, m2, m3, m4⟩
        · exact Or.inl h
        · right
          refine ⟨m1, i, List.mem_cons_of_mem _ hi, m2, m3, ?_⟩
          intro j hj hlt
          rcases List.mem_cons.1 hj with rfl | hj'
          · omega
          · exact m4 j hj' hlt

/-! ## Pieces on the board -/

theorem mem_boardCells (r c : Int) : (r, c) ∈ boardCells ↔ (0 ≤ r ∧ r ≤ 5) ∧ (0 ≤ c ∧ c ≤ 6) := by
  unfold boardCells
  rw [Finset.mem_product, Finset.mem_Icc, Finset.mem_Icc]
  rfl

/-- After a drop into a non-full column of a well-formed state, a cell holds the player
value `q` exactly when it is the drop cell and `q` is the mover, or it held `q` before. -/
theorem dropAt_cell_eq_piece {s : RoundState} (hwf : WellFormed s) {x : Int}
    (hx : x ∈ upTo MaxX) (hopen : NonFull s x) (r c q : Int) (hq : q = 1 ∨ q = 2) :
    readAt2 (dropAt s x).Scene r c = q ↔
      ((r = readAt2 s.NextMove x 1 ∧ c = x ∧ q = s.CurrentPlayer.toInt) ∨
        readAt2 s.Scene r c = q) := by
  obtain ⟨hy, h0, hup, _, _, _⟩ := hwf.open_of_nonFull hx hopen
  have hx' := (mem_upTo_MaxX x).1 hx
  have hy' := (mem_upTo_MaxY _).1 hy
  unfold dropAt
  rw [MakeMove_Scene s x _ r c hwf.1 hx' hy']
  by_cases h1 : r = readAt2 s.NextMove x 1 - 1 ∧ c = x ∧ 0 < readAt2 s.NextMove x 1
  · rw [if_pos h1]
    obtain ⟨hr, hc, hpos⟩ := h1
    have hcell : readAt2 s.Scene r c = -1 := by
      rw [hc]
      exact hup r ((mem_upTo_MaxY r).2 (by omega)) (by omega)
    rw [hcell]
    constructor
    · intro h; omega
    · rintro (⟨h, _, _⟩ | h) <;> omega
  · rw [if_neg h1]
    by_cases h2 : r = readAt2 s.NextMove x 1 ∧ c = x
    · rw [if_pos h2]
      have hcell : readAt2 s.Scene r c = 0 := by rw [h2.1, h2.2]; exact h0
      rw [hcell]
      constructor
      · intro h; exact Or.inl ⟨h2.1, h2.2, h.symm⟩
      · rintro (⟨_, _, h⟩ | h)
        · exact h.symm
        · omega
    · rw [if_neg h2]
      constructor
      · intro h; exact Or.inr h
      · rintro (⟨h, h', _⟩ | h)
        · exact absurd ⟨h, h'⟩ h2
        · exact h

/-- A drop does not remove a line. -/
theorem HasLine_dropAt_of_HasLine {s : RoundState} (hwf : WellFormed s) {x : Int}
    (hx : x ∈ upTo MaxX) (hopen : NonFull s x) {q : Int} (hq : q = 1 ∨ q = 2)
    (h : HasLine s.Scene q) : HasLine (dropAt s x).Scene q := by
  obtain ⟨a, ha, b, hb, d, hd, h4⟩ := h
  refine ⟨a, ha, b, hb, d, hd, fun k hk => ⟨(h4 k hk).1, ?_⟩⟩
  exact (dropAt_cell_eq_piece hwf hx hopen _ _ q hq).2 (Or.inr (h4 k hk).2)

/-- A drop creates no line for the player who did not move. -/
theorem HasLine_of_HasLine_dropAt {s : RoundState} (hwf : WellFormed s) {x : Int}
    (hx : x ∈ upTo MaxX) (hopen : NonFull s x) {q : Int} (hq : q = 1 ∨ q = 2)
    (hne : q ≠ s.CurrentPlayer.toInt) (h : HasLine (dropAt s x).Scene q) :
    HasLine s.Scene q := by
  obtain ⟨a, ha, b, hb, d, hd, h4⟩ := h
  refine ⟨a, ha, b, hb, d, hd, fun k hk => ⟨(h4 k hk).1, ?_⟩⟩
  rcases (dropAt_cell_eq_piece hwf hx hopen _ _ q hq).1 (h4 k hk).2 with ⟨_, _, h⟩ | h
  · exact absurd h hne
  · exact h

theorem pieceCount_dropAt_mover {s : RoundState} (hwf : WellFormed s) {x : Int}
    (hx : x ∈ upTo MaxX) (hopen : NonFull s x) :
    pieceCount (dropAt s x).Scene s.CurrentPlayer.toInt
      = pieceCount s.Scene s.CurrentPlayer.toInt + 1 := by
  obtain ⟨hy, h0, _⟩ := hwf.open_of_nonFull hx hopen
  have hx' := (mem_upTo_MaxX x).1 hx
  have hy' := (mem_upTo_MaxY _).1 hy
  have hp := s.CurrentPlayer.toInt_cases
  unfold pieceCount
  have hset : boardCells.filter
        (fun cell => readAt2 (dropAt s x).Scene cell.1 cell.2 = s.CurrentPlayer.toInt)
      = insert (readAt2 s.NextMove x 1, x) (boardCells.filter
        (fun cell => readAt2 s.Scene cell.1 cell.2 = s.CurrentPlayer.toInt)) := by
    ext ⟨r, c⟩
    simp only [Finset.mem_filter, Finset.mem_insert, mem_boardCells, Prod.mk.injEq]
    rw [dropAt_cell_eq_piece hwf hx hopen r c _ hp]
    constructor
    · rintro ⟨hb, ⟨h1, h2, _⟩ | h⟩
      · exact Or.inl ⟨h1, h2⟩
      · exact Or.inr ⟨hb, h⟩
    · rintro (⟨h1, h2⟩ | ⟨hb, h⟩)
      · exact ⟨⟨by omega, by omega⟩, Or.inl ⟨h1, h2, rfl⟩⟩
      · exact ⟨hb, Or.inr h⟩
  rw [hset, Finset.card_insert_of_not_mem]
  simp only [Finset.mem_filter, mem_boardCells]
  rintro ⟨_, h⟩
  rw [h0] at h
  omega

theorem pieceCount_dropAt_other {s : RoundState} (hwf : WellFormed s) {x : Int}
    (hx : x ∈ upTo MaxX) (hopen : NonFull s x) :
    pieceCount (dropAt s x).Scene (Opponent s.CurrentPlayer).toInt
      = pieceCount s.Scene (Opponent s.CurrentPlayer).toInt := by
  have hp := (Opponent s.CurrentPlayer).toInt_cases
  have hne : (Opponent s.CurrentPlayer).toInt ≠ s.CurrentPlayer.toInt := by
    cases s.CurrentPlayer <;> decide
  unfold pieceCount
  congr 1
  ext ⟨r, c⟩
  simp only [Finset.mem_filter]
  rw [dropAt_cell_eq_piece hwf hx hopen r c _ hp]
  constructor
  · rintro ⟨hb, ⟨_, _, h⟩ | h⟩
    · exact absurd h hne
    · exact ⟨hb, h⟩
  · rintro ⟨hb, h⟩
    exact ⟨hb, Or.inr h⟩

theorem pieceCount_GameInit (player : PLAYER) (p : Int) (hp : p = 1 ∨ p = 2) :
    pieceCount (GameInit player).1.Scene p = 0 := by
  unfold pieceCount
  rw [Finset.card_eq_zero, Finset.filter_eq_empty_iff]
  rintro ⟨r, c⟩ hmem
  rw [mem_boardCells] at hmem
  obtain ⟨⟨hr0, hr1⟩, ⟨hc0, hc1⟩⟩ := hmem
  have hscene : (GameInit player).1.Scene = (GameInit PLAYER.PLAYER_A).1.Scene := rfl
  rw [hscene]
  rcases hp with rfl | rfl <;> interval_cases r <;> interval_cases c <;> decide

theorem TurnCount_GameInit (player : PLAYER) : TurnCount (GameInit player).1 := by
  unfold TurnCount
  rw [pieceCount_GameInit player _ (PLAYER.toInt_cases _),
    pieceCount_GameInit player _ (PLAYER.toInt_cases _)]
  have hm : (GameInit player).1.Moves = 0 := rfl
  rw [hm]
  exact ⟨by decide, by decide⟩

theorem TurnCount_dropAt {s : RoundState} (h : TurnCount s) (hwf : WellFormed s) {x : Int}
    (hx : x ∈ upTo MaxX) (hopen : NonFull s x) : TurnCount (dropAt s x) := by
  have h1 := pieceCount_dropAt_mover hwf hx hopen
  have h2 := pieceCount_dropAt_other hwf hx hopen
  have hcp : (dropAt s x).CurrentPlayer = Opponent s.CurrentPlayer := rfl
  have hmv : (dropAt s x).Moves = s.Moves + 1 := rfl
  unfold TurnCount at h ⊢
  rw [hcp, hmv, Opponent_Opponent, h1, h2]
  push_cast
  omega

/-- In a reachable state the pieces of the two players are in step with `Moves`. -/
theorem Reachable.turnCount {s : RoundState} (h : Reachable s) : TurnCount s := by
  induction h with
  | init p => exact TurnCount_GameInit p
  | move s x hr hx hopen ih => exact TurnCount_dropAt ih hr.wellFormed hx hopen

/-- Four cells in a line are four different cells of the board. -/
theorem four_le_pieceCount (scene : List (List Int)) (p : Int) (h : HasLine scene p) :
    4 ≤ pieceCount scene p := by
  obtain ⟨x, _, y, _, d, hd, h4⟩ := h
  unfold pieceCount
  have hsub : (Finset.range 4).image (fun k : Nat => (y + (k : Int) * d.2, x + (k : Int) * d.1))
      ⊆ boardCells.filter (fun cell => readAt2 scene cell.1 cell.2 = p) := by
    intro cell hcell
    rw [Finset.mem_image] at hcell
    obtain ⟨k, hk, rfl⟩ := hcell
    rw [Finset.mem_range] at hk
    have := h4 (k : Int) ((mem_upTo 3 _ (by decide)).2 ⟨by omega, by omega⟩)
    have hMX : MaxX = 6 := rfl
    have hMY : MaxY = 5 := rfl
    rw [Finset.mem_filter, mem_boardCells]
    exact ⟨⟨⟨by omega, by omega⟩, ⟨by omega, by omega⟩⟩, this.2⟩
  have hinj : Function.Injective
      (fun k : Nat => (y + (k : Int) * d.2, x + (k : Int) * d.1)) := by
    intro a b hab
    simp only [Prod.mk.injEq] at hab
    simp only [lineDirections, List.mem_cons, List.mem_singleton, List.not_mem_nil, or_false]
      at hd
    rcases hd with rfl | rfl | rfl | rfl <;> simp at hab <;> omega
  calc 4 = ((Finset.range 4).image
        (fun k : Nat => (y + (k : Int) * d.2, x + (k : Int) * d.1))).card := by
        rw [Finset.card_image_of_injective _ hinj, Finset.card_range]
    _ ≤ _ := Finset.card_le_card hsub

/-- In a reachable state a line of four needs at least seven counted moves. -/
theorem Reachable.seven_le_Moves {s : RoundState} (h : Reachable s) {p : Int}
    (hp : p = 1 ∨ p = 2) (hline : HasLine s.Scene p) : 7 ≤ s.Moves := by
  have h4 := four_le_pieceCount s.Scene p hline
  obtain ⟨h1, h2⟩ := h.turnCount
  have hcases : p = s.CurrentPlayer.toInt ∨ p = (Opponent s.CurrentPlayer).toInt := by
    cases s.CurrentPlayer <;> simp [PLAYER.toInt, Opponent] <;> omega
  rcases hcases with rfl | rfl <;> omega

theorem Reachable_play {s : RoundState} (h : Reachable s) (cols : List Int)
    (hlegal : legalPlay s cols = true) : Reachable (play s cols) := by
  induction cols generalizing s with
  | nil => exact h
  | cons x xs ih =>
    simp only [legalPlay, Bool.and_eq_true, decide_eq_true_eq] at hlegal
    exact ih (Reachable.move s x h hlegal.1.1 hlegal.1.2) hlegal.2

theorem WellFormed.dropTargetsExact {s : RoundState} (hwf : WellFormed s) :
    DropTargetsExact s := by
  intro c hc
  have hc' := (mem_upTo_MaxX c).1 hc
  rcases hwf.2.2 c hc with ⟨y0, hy0, h0, hup, hdown, hn0, hn1⟩ | ⟨k, _, hup, hdown, hn0, hn1⟩
  · refine ⟨?_, ?_⟩
    · intro y hy hz
      rcases lt_trichotomy y y0 with h | h | h
      · have := hup y hy h; omega
      · subst h; exact ⟨hn0, hn1⟩
      · have := hdown y hy h; omega
    · constructor
      · intro hall
        exact absurd h0 (hall y0 hy0)
      · rintro ⟨h1, _⟩
        omega
  · refine ⟨?_, ?_⟩
    · intro y hy hz
      by_cases h : y < k
      · have := hup y hy h; omega
      · have := hdown y hy (by omega); omega
    · constructor
      · intro _
        exact ⟨hn0, hn1⟩
      · intro _ y hy hz
        by_cases h : y < k
        · have := hup y hy h; omega
        · have := hdown y hy (by omega); omega

/-! ## The claims -/

/-- C1. Round trip: in a well-formed state, `MakeMove` at the drop target `(x, y)` of a
non-full column followed by `RetractMove` with the same `(x, y)` gives back the state,
equal in `Scene`, `NextMove`, `CurrentPlayer` and `Moves`. -/
theorem RetractMove_MakeMove_roundtrip (s : RoundState) (x : Int) (hwf : WellFormed s)
    (hx : x ∈ upTo MaxX) (hopen : NonFull s x) :
    RetractMove (MakeMove s x (readAt2 s.NextMove x 1)) x (readAt2 s.NextMove x 1) = s :=
  RetractMove_MakeMove_eq s x hwf hx hopen

theorem RetractMove_MakeMove_roundtrip_witness :
    WellFormed lateWinState ∧ (5 : Int) ∈ upTo MaxX ∧ NonFull lateWinState 5 ∧
      RetractMove (MakeMove lateWinState 5 (readAt2 lateWinState.NextMove 5 1)) 5
        (readAt2 lateWinState.NextMove 5 1) = lateWinState :=
  ⟨by decide, by decide, by decide,
    RetractMove_MakeMove_roundtrip lateWinState 5 (by decide) (by decide) (by decide)⟩

/-- C2. For a well-formed state with `Moves ≥ 7`, `FindWinner` returns `-1` exactly when
neither player has four pieces in four consecutive cells of a row, a column or a diagonal;
a returned value other than `-1` is a player who has such a line; and four computer pieces
in a line with no user line make it return `PLAYER_B`. -/
theorem FindWinner_correct (s : RoundState) (hwf : WellFormed s) (hm : 7 ≤ s.Moves) :
    (FindWinner s = -1 ↔
      ¬ HasLine s.Scene PLAYER.PLAYER_A.toInt ∧ ¬ HasLine s.Scene PLAYER.PLAYER_B.toInt) ∧
    (∀ p, FindWinner s = p → p ≠ -1 →
      (p = PLAYER.PLAYER_A.toInt ∨ p = PLAYER.PLAYER_B.toInt) ∧ HasLine s.Scene p) ∧
    (HasLine s.Scene PLAYER.PLAYER_B.toInt → ¬ HasLine s.Scene PLAYER.PLAYER_A.toInt →
      FindWinner s = PLAYER.PLAYER_B.toInt) := by
  have hA : PLAYER.PLAYER_A.toInt = 1 := rfl
  have hB : PLAYER.PLAYER_B.toInt = 2 := rfl
  rw [hA, hB]
  refine ⟨⟨?_, ?_⟩, ?_, ?_⟩
  · intro h
    exact ⟨fun hl => FindWinner_complete hwf hm (Or.inl rfl) hl h,
      fun hl => FindWinner_complete hwf hm (Or.inr rfl) hl h⟩
  · rintro ⟨h1, h2⟩
    by_contra hne
    obtain ⟨hp, hl⟩ := FindWinner_sound hwf rfl hne
    rcases hp with hp | hp
    · rw [hp] at hl; exact h1 hl
    · rw [hp] at hl; exact h2 hl
  · intro p hp hne
    exact FindWinner_sound hwf hp hne
  · intro h2 h1
    have hne := FindWinner_complete hwf hm (Or.inr rfl) h2
    obtain ⟨hp, hl⟩ := FindWinner_sound hwf rfl hne
    rcases hp with hp | hp
    · rw [hp] at hl; exact absurd hl h1
    · exact hp

set_option maxRecDepth 100000 in
theorem FindWinner_correct_witness :
    WellFormed (dropAt lateWinState 5) ∧ 7 ≤ (dropAt lateWinState 5).Moves ∧
    HasLine (dropAt lateWinState 5).Scene PLAYER.PLAYER_B.toInt ∧
    ¬ HasLine (dropAt lateWinState 5).Scene PLAYER.PLAYER_A.toInt ∧
    FindWinner (dropAt lateWinState 5) = PLAYER.PLAYER_B.toInt :=
  ⟨by decide, by decide, by decide, by decide,
    (FindWinner_correct (dropAt lateWinState 5) (by decide) (by decide)).2.2
      (by decide) (by decide)⟩

/-- C3. Well-formedness is an invariant of play: the state made by `GameInit` is
well-formed, and `MakeMove` at the drop target of a non-full column of a well-formed state
gives a well-formed state; in a well-formed state every column is a run of `-1`, at most
one `0`, then only `1` or `2`, and `NextMove[c]` is `(c, y)` for the row `y` of the `0`
cell and `(-1, -1)` exactly when the column has no `0` cell. -/
theorem WellFormed_invariant :
    (∀ player, WellFormed (GameInit player).1 ∧ DropTargetsExact (GameInit player).1) ∧
    (∀ s x, WellFormed s → x ∈ upTo MaxX → NonFull s x →
      WellFormed (MakeMove s x (readAt2 s.NextMove x 1)) ∧
      DropTargetsExact (MakeMove s x (readAt2 s.NextMove x 1))) :=
  ⟨fun player => ⟨WellFormed_GameInit player, (WellFormed_GameInit player).dropTargetsExact⟩,
    fun _ _ hwf hx hopen => ⟨WellFormed_dropAt hwf hx hopen, (WellFormed_dropAt hwf hx hopen).dropTargetsExact⟩⟩

theorem WellFormed_invariant_witness :
    WellFormed (GameInit PLAYER.PLAYER_A).1 ∧ (3 : Int) ∈ upTo MaxX ∧
    NonFull (GameInit PLAYER.PLAYER_A).1 3 ∧
    WellFormed (MakeMove (GameInit PLAYER.PLAYER_A).1 3
      (readAt2 (GameInit PLAYER.PLAYER_A).1.NextMove 3 1)) ∧
    DropTargetsExact (MakeMove (GameInit PLAYER.PLAYER_A).1 3
      (readAt2 (GameInit PLAYER.PLAYER_A).1.NextMove 3 1)) :=
  ⟨(WellFormed_invariant.1 PLAYER.PLAYER_A).1, by decide, by decide,
    WellFormed_invariant.2 (GameInit PLAYER.PLAYER_A).1 3
      (WellFormed_invariant.1 PLAYER.PLAYER_A).1 (by decide) (by decide)⟩

theorem EvaluateBestMove_MoveRating (s : RoundState) (vp : List Int) (depth : Int) :
    (EvaluateBestMove s vp depth).MoveRating =
      if (EvaluateBestMoveLoop (fun st v => EvaluatePosition st v (depth + 1)) s
          vp).state.CurrentPlayer = PLAYER.PLAYER_B
      then (EvaluateBestMoveLoop (fun st v => EvaluatePosition st v (depth + 1)) s vp).MaxRating
      else -(EvaluateBestMoveLoop (fun st v => EvaluatePosition st v (depth + 1)) s
          vp).MaxRating := by
  unfold EvaluateBestMove EvaluateBestMoveWith
  dsimp only

theorem EvaluateBestMove_BestMoveX (s : RoundState) (vp : List Int) (depth : Int) :
    (EvaluateBestMove s vp depth).BestMoveX =
      (EvaluateBestMoveLoop (fun st v => EvaluatePosition st v (depth + 1)) s vp).BestMoveX := by
  unfold EvaluateBestMove EvaluateBestMoveWith
  dsimp only

/-- On a well-formed state the loop of `EvaluateBestMove` leaves the state as it was, its
final `MaxRating` is at least every rating of a non-full column, and when that maximum
exceeds the initial `NeutralPosition - 1` the returned column is the lowest-indexed
non-full column that attains it. -/
theorem EvaluateBestMove_wf (s : RoundState) (vp : List Int) (depth : Int)
    (hwf : WellFormed s) :
    ∃ M : Int,
      (EvaluateBestMove s vp depth).MoveRating
        = (if s.CurrentPlayer = PLAYER.PLAYER_B then M else -M) ∧
      NeutralPosition - 1 ≤ M ∧
      (∀ i ∈ upTo MaxX, NonFull s i → rawRating s depth vp i ≤ M) ∧
      ((M = NeutralPosition - 1 ∧ (EvaluateBestMove s vp depth).BestMoveX = none) ∨
        (NeutralPosition - 1 < M ∧ ∃ i ∈ upTo MaxX, NonFull s i ∧
          rawRating s depth vp i = M ∧ (EvaluateBestMove s vp depth).BestMoveX = some i ∧
          ∀ j ∈ upTo MaxX, NonFull s j → j < i → rawRating s depth vp j < M)) := by
  obtain ⟨h1, h2, h3, h4⟩ := EvaluateBestMoveLoop_wf s vp depth hwf
  rw [EvaluateBestMove_MoveRating, EvaluateBestMove_BestMoveX, h1]
  exact ⟨_, rfl, h2, h3, h4⟩

theorem rawRating_ge (s : RoundState) (depth : Int) (vp : List Int) (i : Int) :
    NeutralPosition - 1 ≤ rawRating s depth vp i :=
  (EvaluatePosition_bounded (depth + 1) (dropAt s i) vp).1

/-- C8. `EvaluatePosition` returns `WinPosition` (1000) when `FindWinner` gives the
computer, `LosePosition` (0) when it gives the user, `NeutralPosition` (-1000) when there
is no winner and `depth ≥ MaxDepth` (8), and in the remaining case of no winner and
`depth < MaxDepth` exactly the rating (and tally table) that `EvaluateBestMove` produces
for the same state and depth. -/
theorem EvaluatePosition_cases (state : RoundState) (vp : List Int) (depth : Int) :
    (WinPosition = 1000 ∧ LosePosition = 0 ∧ NeutralPosition = -1000 ∧ MaxDepth = 8) ∧
    EvaluatePosition state vp depth =
      if FindWinner state = PLAYER.PLAYER_B.toInt then (WinPosition, vp)
      else if FindWinner state = PLAYER.PLAYER_A.toInt then (LosePosition, vp)
      else if FindWinner state = -1 ∧ depth < MaxDepth then
        ((EvaluateBestMove state vp depth).MoveRating,
         (EvaluateBestMove state vp depth).VictoryProbability)
      else (NeutralPosition, vp) := by
  refine ⟨⟨rfl, rfl, rfl, rfl⟩, ?_⟩
  rw [EvaluatePosition_eq]
  have hA : PLAYER.PLAYER_A.toInt = 1 := rfl
  have hB : PLAYER.PLAYER_B.toInt = 2 := rfl
  by_cases h2 : FindWinner state = PLAYER.PLAYER_B.toInt
  · rw [if_pos h2, if_pos (Or.inl (by rw [h2, hB]; decide))]
    unfold terminalRating
    rw [if_pos h2]
  · rw [if_neg h2]
    by_cases h1 : FindWinner state = PLAYER.PLAYER_A.toInt
    · rw [if_pos h1, if_pos (Or.inl (by rw [h1, hA]; decide))]
      unfold terminalRating
      rw [if_neg h2, if_pos h1]
    · rw [if_neg h1]
      by_cases h3 : FindWinner state = -1 ∧ depth < MaxDepth
      · rw [if_pos h3, if_neg (by omega)]
      · rw [if_neg h3, if_pos (by omega)]
        unfold terminalRating
        rw [if_neg h2, if_neg h1]

/-- C9. For a well-formed state with a non-full column, the rating output by
`EvaluateBestMove` is `M` when the state's `CurrentPlayer` is the computer and `-M` when it
is the user, where `M` is the maximum over the non-full columns of the rating of the
simulated drop (whatever tally table that rating is computed with); the loop leaves the
state, hence the player tested, as it was. -/
theorem EvaluateBestMove_rating (s : RoundState) (vp : List Int) (depth : Int)
    (hwf : WellFormed s) (hex : ∃ i ∈ upTo MaxX, NonFull s i) :
    (EvaluateBestMoveLoop (fun st v => EvaluatePosition st v (depth + 1)) s vp).state = s ∧
    ∃ M : Int,
      (∃ i ∈ upTo MaxX, NonFull s i ∧ ∀ v, rawRating s depth v i = M) ∧
      (∀ j ∈ upTo MaxX, NonFull s j → ∀ v, rawRating s depth v j ≤ M) ∧
      (EvaluateBestMove s vp depth).MoveRating
        = (if s.CurrentPlayer = PLAYER.PLAYER_B then M else -M) := by
  refine ⟨(EvaluateBestMoveLoop_wf s vp depth hwf).1, ?_⟩
  obtain ⟨M, hM, _, hle, hcase⟩ := EvaluateBestMove_wf s vp depth hwf
  refine ⟨M, ?_, ?_, hM⟩
  · rcases hcase with ⟨hlow, _⟩ | ⟨_, i, hi, hnf, heq, _⟩
    · obtain ⟨i, hi, hnf⟩ := hex
      refine ⟨i, hi, hnf, fun v => ?_⟩
      have h1 := hle i hi hnf
      have h2 := rawRating_ge s depth vp i
      rw [rawRating_tallyFree s depth v vp i]
      omega
    · exact ⟨i, hi, hnf, fun v => by rw [rawRating_tallyFree s depth v vp i]; exact heq⟩
  · intro j hj hnf v
    rw [rawRating_tallyFree s depth v vp j]
    exact hle j hj hnf

theorem EvaluateBestMove_rating_witness :
    WellFormed lateWinState ∧ (∃ i ∈ upTo MaxX, NonFull lateWinState i) ∧
    (EvaluateBestMoveLoop (fun st v => EvaluatePosition st v (0 + 1)) lateWinState
      zeroTally).state = lateWinState ∧
    ∃ M : Int,
      (∃ i ∈ upTo MaxX, NonFull lateWinState i ∧ ∀ v, rawRating lateWinState 0 v i = M) ∧
      (∀ j ∈ upTo MaxX, NonFull lateWinState j → ∀ v, rawRating lateWinState 0 v j ≤ M) ∧
      (EvaluateBestMove lateWinState zeroTally 0).MoveRating
        = (if lateWinState.CurrentPlayer = PLAYER.PLAYER_B then M else -M) :=
  ⟨by decide, by decide,
    EvaluateBestMove_rating lateWinState zeroTally 0 (by decide) (by decide)⟩

/-- C6, at the failing input. `drawnEndState` is reached from `GameInit` by legal drops, is
well-formed and has the non-full column 2, yet `EvaluateBestMove` at depth 0 returns
without ever assigning `BestMoveX`: the only rating, `NeutralPosition - 1`, equals the
initial `MaxRating`, so the test `Rating > MaxRating` never succeeds. -/
theorem EvaluateBestMove_unassigned :
    play (GameInit PLAYER.PLAYER_B).1 drawnEndMoves = drawnEndState ∧
    legalPlay (GameInit PLAYER.PLAYER_B).1 drawnEndMoves = true ∧
    WellFormed drawnEndState ∧
    (∀ i ∈ upTo MaxX, NonFull drawnEndState i ↔ i = 2) ∧
    rawRating drawnEndState 0 zeroTally 2 = NeutralPosition - 1 ∧
    (EvaluateBestMove drawnEndState zeroTally 0).BestMoveX = none := by
  set_option maxRecDepth 100000 in decide

/-- C7. With the tally table initially all zero, `DetermineBestMove` returns the column
chosen by `EvaluateBestMove` at depth 0 when the top-level rating differs from
`NeutralPosition`, and when the rating equals `NeutralPosition` it returns the
lowest-indexed column among those whose tally, accumulated during this search, is
maximal. -/
theorem DetermineBestMove_choice (s : RoundState) (vp : List Int)
    (hzero : ∀ i ∈ upTo MaxX, readAt vp i = 0) :
    ((EvaluateBestMove s vp 0).MoveRating ≠ NeutralPosition →
      (DetermineBestMove s vp).1 = (EvaluateBestMove s vp 0).BestMoveX) ∧
    ((EvaluateBestMove s vp 0).MoveRating = NeutralPosition →
      ∃ c ∈ upTo MaxX, (DetermineBestMove s vp).1 = some c ∧
        (∀ j ∈ upTo MaxX, readAt (EvaluateBestMove s vp 0).VictoryProbability j
          ≤ readAt (EvaluateBestMove s vp 0).VictoryProbability c) ∧
        (∀ j ∈ upTo MaxX, j < c → readAt (EvaluateBestMove s vp 0).VictoryProbability j
          < readAt (EvaluateBestMove s vp 0).VictoryProbability c)) := by
  constructor
  · intro hne
    unfold DetermineBestMove
    dsimp only
    rw [if_neg hne]
  · intro heq
    obtain ⟨_, k3, k4⟩ := foldl_tallyStep (EvaluateBestMove s vp 0).VictoryProbability
      (upTo MaxX) ((EvaluateBestMove s vp 0).BestMoveX, -1) upTo_MaxX_sorted
    have h0 : (0 : Int) ∈ upTo MaxX := by decide
    have hge : 0 ≤ readAt (EvaluateBestMove s vp 0).VictoryProbability 0 := by
      have := EvaluateBestMove_tallyGrows s vp 0 0
      rw [hzero 0 h0] at this
      exact this
    have hbest : (DetermineBestMove s vp).1 =
        ((upTo MaxX).foldl (tallyStep (EvaluateBestMove s vp 0).VictoryProbability)
          ((EvaluateBestMove s vp 0).BestMoveX, -1)).1 := by
      unfold DetermineBestMove
      dsimp only
      rw [if_pos heq]
    have hmax := k3 0 h0
    rcases k4 with ⟨m1, _⟩ | ⟨_, i, hi, m2, m3, m4⟩
    · dsimp only at m1
      omega
    · refine ⟨i, hi, by rw [hbest, m3], ?_, ?_⟩
      · intro j hj
        rw [m2]
        exact k3 j hj
      · intro j hj hlt
        rw [m2]
        exact m4 j hj hlt

theorem DetermineBestMove_choice_witness :
    (∀ i ∈ upTo MaxX, readAt zeroTally i = 0) ∧
    ((EvaluateBestMove openingState zeroTally 0).MoveRating ≠ NeutralPosition →
      (DetermineBestMove openingState zeroTally).1
        = (EvaluateBestMove openingState zeroTally 0).BestMoveX) ∧
    ((EvaluateBestMove openingState zeroTally 0).MoveRating = NeutralPosition →
      ∃ c ∈ upTo MaxX, (DetermineBestMove openingState zeroTally).1 = some c ∧
        (∀ j ∈ upTo MaxX, readAt (EvaluateBestMove openingState zeroTally 0).VictoryProbability j
          ≤ readAt (EvaluateBestMove openingState zeroTally 0).VictoryProbability c) ∧
        (∀ j ∈ upTo MaxX, j < c →
          readAt (EvaluateBestMove openingState zeroTally 0).VictoryProbability j
            < readAt (EvaluateBestMove openingState zeroTally 0).VictoryProbability c)) :=
  ⟨by decide, DetermineBestMove_choice openingState zeroTally (by decide)⟩

/-! ## Immediate wins and immediate threats -/

theorem DetermineBestMove_fst_of_ne (s : RoundState) (vp : List Int)
    (hne : (EvaluateBestMove s vp 0).MoveRating ≠ NeutralPosition) :
    (DetermineBestMove s vp).1 = (EvaluateBestMove s vp 0).BestMoveX := by
  unfold DetermineBestMove
  dsimp only
  rw [if_neg hne]

/-- When the mover's drop into column `a` completes a line for the mover and the other
player has none, `FindWinner` reports the mover afterwards. -/
theorem FindWinner_dropAt_of_line {s : RoundState} (hreach : Reachable s) {a : Int}
    (ha : a ∈ upTo MaxX) (hnf : NonFull s a)
    (hother : ¬ HasLine s.Scene (Opponent s.CurrentPlayer).toInt)
    (hline : HasLine (dropAt s a).Scene s.CurrentPlayer.toInt) :
    FindWinner (dropAt s a) = s.CurrentPlayer.toInt := by
  have hreach' : Reachable (dropAt s a) := Reachable.move s a hreach ha hnf
  have hwf' := hreach'.wellFormed
  have hm := hreach'.seven_le_Moves s.CurrentPlayer.toInt_cases hline
  have hne := FindWinner_complete hwf' hm s.CurrentPlayer.toInt_cases hline
  obtain ⟨hp, hl⟩ := FindWinner_sound hwf' rfl hne
  by_contra hcon
  have hq : FindWinner (dropAt s a) = (Opponent s.CurrentPlayer).toInt := by
    cases hcp : s.CurrentPlayer <;> rw [hcp] at hcon <;>
      simp only [PLAYER.toInt, Opponent] at hcon ⊢ <;> omega
  rw [hq] at hl
  exact hother (HasLine_of_HasLine_dropAt hreach.wellFormed ha hnf
    (PLAYER.toInt_cases _) (by cases s.CurrentPlayer <;> decide) hl)

theorem terminalRating_PLAYER_B : terminalRating PLAYER.PLAYER_B.toInt = WinPosition := rfl

theorem terminalRating_PLAYER_A : terminalRating PLAYER.PLAYER_A.toInt = LosePosition := rfl

/-- The function `EvaluatePosition` at a position where `FindWinner` reports a player. -/
theorem EvaluatePosition_of_winner (state : RoundState) (vp : List Int) (depth : Int)
    (p : PLAYER) (h : FindWinner state = p.toInt) :
    (EvaluatePosition state vp depth).1 = terminalRating p.toInt := by
  rw [EvaluatePosition_eq, if_pos (Or.inl (by rw [h]; cases p <;> decide)), h]

/-- What the search does when the computer can complete four. In a state reached from
`GameInit` by legal drops, with the computer to move and no line for the user, every drop
that completes a computer four is rated `WinPosition`, and `DetermineBestMove` returns the
lowest-indexed non-full column whose rating is the maximum over the non-full columns. That
maximum can exceed `WinPosition`, and the returned column need not complete four. -/
theorem DetermineBestMove_win_available (s : RoundState) (vp : List Int) (a : Int)
    (hreach : Reachable s) (hno : ¬ HasLine s.Scene PLAYER.PLAYER_A.toInt)
    (hturn : s.CurrentPlayer = PLAYER.PLAYER_B) (ha : a ∈ upTo MaxX) (hnf : NonFull s a)
    (hwin : HasLine (dropAt s a).Scene PLAYER.PLAYER_B.toInt) :
    rawRating s 0 vp a = WinPosition ∧
    ∃ c ∈ upTo MaxX, NonFull s c ∧ (DetermineBestMove s vp).1 = some c ∧
      WinPosition ≤ rawRating s 0 vp c ∧
      (∀ j ∈ upTo MaxX, NonFull s j → rawRating s 0 vp j ≤ rawRating s 0 vp c) ∧
      (∀ j ∈ upTo MaxX, NonFull s j → j < c → rawRating s 0 vp j < rawRating s 0 vp c) := by
  have hfw : FindWinner (dropAt s a) = PLAYER.PLAYER_B.toInt := by
    have := FindWinner_dropAt_of_line hreach ha hnf (by rw [hturn]; exact hno)
      (by rw [hturn]; exact hwin)
    rw [hturn] at this
    exact this
  have hraw : rawRating s 0 vp a = WinPosition := by
    unfold rawRating
    rw [EvaluatePosition_of_winner _ _ _ PLAYER.PLAYER_B hfw, terminalRating_PLAYER_B]
  refine ⟨hraw, ?_⟩
  obtain ⟨M, hM, _, hle, hcase⟩ := EvaluateBestMove_wf s vp 0 hreach.wellFormed
  have hMa := hle a ha hnf
  rw [hraw] at hMa
  have hW : WinPosition = 1000 := rfl
  have hN : NeutralPosition = -1000 := rfl
  rw [hturn, if_pos rfl] at hM
  rcases hcase with ⟨hlow, _⟩ | ⟨_, i, hi, hnfi, heq, hbest, hfirst⟩
  · omega
  · refine ⟨i, hi, hnfi, ?_, by omega, ?_, ?_⟩
    · rw [DetermineBestMove_fst_of_ne s vp (by omega), hbest]
    · intro j hj hnfj
      rw [heq]
      exact hle j hj hnfj
    · intro j hj hnfj hlt
      rw [heq]
      exact hfirst j hj hnfj hlt

set_option maxRecDepth 100000 in
theorem DetermineBestMove_win_available_witness :
    Reachable lateWinState ∧ ¬ HasLine lateWinState.Scene PLAYER.PLAYER_A.toInt ∧
    lateWinState.CurrentPlayer = PLAYER.PLAYER_B ∧ (5 : Int) ∈ upTo MaxX ∧
    NonFull lateWinState 5 ∧ HasLine (dropAt lateWinState 5).Scene PLAYER.PLAYER_B.toInt ∧
    (rawRating lateWinState 0 zeroTally 5 = WinPosition ∧
      ∃ c ∈ upTo MaxX, NonFull lateWinState c ∧
        (DetermineBestMove lateWinState zeroTally).1 = some c ∧
        WinPosition ≤ rawRating lateWinState 0 zeroTally c ∧
        (∀ j ∈ upTo MaxX, NonFull lateWinState j →
          rawRating lateWinState 0 zeroTally j ≤ rawRating lateWinState 0 zeroTally c) ∧
        (∀ j ∈ upTo MaxX, NonFull lateWinState j → j < c →
          rawRating lateWinState 0 zeroTally j < rawRating lateWinState 0 zeroTally c)) := by
  have hplay : play (GameInit PLAYER.PLAYER_B).1 lateWinMoves = lateWinState := by decide
  have hreach : Reachable lateWinState := by
    rw [← hplay]
    exact Reachable_play (Reachable.init PLAYER.PLAYER_B) lateWinMoves (by decide)
  exact ⟨hreach, by decide, rfl, by decide, by decide, by decide,
    DetermineBestMove_win_available lateWinState zeroTally 5 hreach (by decide) rfl
      (by decide) (by decide) (by decide)⟩

/-- A tie between two winning drops. The position `lateWinState` is reached from
`GameInit` by legal drops, nobody has a line, the computer is to move, the tally table is
all zero, and the drop into the non-full column 5 completes a computer four; yet
`DetermineBestMove` returns column 3, rated `WinPosition` as well, whose drop completes no
computer four. -/
theorem DetermineBestMove_win_counterexample :
    play (GameInit PLAYER.PLAYER_B).1 lateWinMoves = lateWinState ∧
    legalPlay (GameInit PLAYER.PLAYER_B).1 lateWinMoves = true ∧
    ¬ HasLine lateWinState.Scene PLAYER.PLAYER_A.toInt ∧
    ¬ HasLine lateWinState.Scene PLAYER.PLAYER_B.toInt ∧
    lateWinState.CurrentPlayer = PLAYER.PLAYER_B ∧
    (∀ i ∈ upTo MaxX, readAt zeroTally i = 0) ∧
    NonFull lateWinState 5 ∧ HasLine (dropAt lateWinState 5).Scene PLAYER.PLAYER_B.toInt ∧
    (DetermineBestMove lateWinState zeroTally).1 = some 3 ∧
    ¬ HasLine (dropAt lateWinState 3).Scene PLAYER.PLAYER_B.toInt := by
  set_option maxRecDepth 100000 in decide

/-- What the search does under an immediate threat. In a state reached from `GameInit` by
legal drops in which nobody has a line, with the computer to move, a user piece dropped
into the non-full column `c` would complete a user four, and no computer drop completes a
computer four: every other non-full column is rated at most `LosePosition`, so
`DetermineBestMove` returns `c` when the drop into `c` is rated above `LosePosition`. The
blocking drop can be rated below that. -/
theorem DetermineBestMove_blocks_when_rated (s : RoundState) (vp : List Int) (c : Int)
    (hreach : Reachable s) (hnoA : ¬ HasLine s.Scene PLAYER.PLAYER_A.toInt)
    (hturn : s.CurrentPlayer = PLAYER.PLAYER_B) (hc : c ∈ upTo MaxX) (hnf : NonFull s c)
    (hthreat : HasLine (dropAt (withPlayer s PLAYER.PLAYER_A) c).Scene PLAYER.PLAYER_A.toInt)
    (hnowin : ∀ j ∈ upTo MaxX, NonFull s j →
      ¬ HasLine (dropAt s j).Scene PLAYER.PLAYER_B.toInt) :
    (∀ j ∈ upTo MaxX, NonFull s j → j ≠ c → rawRating s 0 vp j ≤ LosePosition) ∧
    (LosePosition < rawRating s 0 vp c → (DetermineBestMove s vp).1 = some c) := by
  have hwf := hreach.wellFormed
  have hA : PLAYER.PLAYER_A.toInt = 1 := rfl
  have hB : PLAYER.PLAYER_B.toInt = 2 := rfl
  have hW : WinPosition = 1000 := rfl
  have hL : LosePosition = 0 := rfl
  have hN : NeutralPosition = -1000 := rfl
  have hothers : ∀ j ∈ upTo MaxX, NonFull s j → j ≠ c → rawRating s 0 vp j ≤ LosePosition := by
    intro j hj hnfj hjc
    have hj' := (mem_upTo_MaxX j).1 hj
    have hc' := (mem_upTo_MaxX c).1 hc
    have hy := (mem_upTo_MaxY _).1 (hwf.open_of_nonFull hj hnfj).1
    -- the state after the computer's drop into `j`
    have hreach1 : Reachable (dropAt s j) := Reachable.move s j hreach hj hnfj
    have hwf1 := hreach1.wellFormed
    have hcp1 : (dropAt s j).CurrentPlayer = PLAYER.PLAYER_A := by
      show Opponent s.CurrentPlayer = _
      rw [hturn]; rfl
    have hnext : ∀ k, readAt2 (dropAt s j).NextMove c k = readAt2 s.NextMove c k := by
      intro k
      unfold dropAt
      rw [MakeMove_NextMove s j _ c k hwf.2.1 hj' hy.1, if_neg (by omega), if_neg (by omega)]
    have hnf1 : NonFull (dropAt s j) c := by
      unfold NonFull
      rw [hnext 0]
      exact hnf
    have hnoA1 : ¬ HasLine (dropAt s j).Scene PLAYER.PLAYER_A.toInt := fun h =>
      hnoA (HasLine_of_HasLine_dropAt hwf hj hnfj (Or.inl rfl) (by rw [hturn]; decide) h)
    have hfw1 : FindWinner (dropAt s j) = -1 := by
      by_contra hne
      obtain ⟨hp, hl⟩ := FindWinner_sound hwf1 rfl hne
      rcases hp with hp | hp
      · rw [hp] at hl; exact hnoA1 hl
      · rw [hp] at hl; exact hnowin j hj hnfj hl
    -- the user's reply into `c` completes the line
    have hline2 : HasLine (dropAt (dropAt s j) c).Scene PLAYER.PLAYER_A.toInt := by
      obtain ⟨x0, hx0, y0, hy0, d, hd, h4⟩ := hthreat
      refine ⟨x0, hx0, y0, hy0, d, hd, fun k hk => ⟨(h4 k hk).1, ?_⟩⟩
      have hwfA : WellFormed (withPlayer s PLAYER.PLAYER_A) := hwf
      have hnfA : NonFull (withPlayer s PLAYER.PLAYER_A) c := hnf
      rw [dropAt_cell_eq_piece hwf1 hc hnf1 _ _ PLAYER.PLAYER_A.toInt (Or.inl rfl), hnext 1,
        hcp1]
      rcases (dropAt_cell_eq_piece hwfA hc hnfA _ _ PLAYER.PLAYER_A.toInt (Or.inl rfl)).1
        (h4 k hk).2 with ⟨h1, h2, _⟩ | h
      · exact Or.inl ⟨h1, h2, rfl⟩
      · right
        exact (dropAt_cell_eq_piece hwf hj hnfj _ _ PLAYER.PLAYER_A.toInt (Or.inl rfl)).2
          (Or.inr h)
    have hfw2 : FindWinner (dropAt (dropAt s j) c) = PLAYER.PLAYER_A.toInt := by
      have := FindWinner_dropAt_of_line hreach1 hc hnf1
        (by rw [hcp1]; exact hnowin j hj hnfj) (by rw [hcp1]; exact hline2)
      rw [hcp1] at this
      exact this
    have hraw2 : rawRating (dropAt s j) (0 + 1) vp c = LosePosition := by
      unfold rawRating
      rw [EvaluatePosition_of_winner _ _ _ PLAYER.PLAYER_A hfw2, terminalRating_PLAYER_A]
    obtain ⟨M, hM, _, hle, _⟩ := EvaluateBestMove_wf (dropAt s j) vp (0 + 1) hwf1
    have hMc := hle c hc hnf1
    rw [hraw2] at hMc
    rw [hcp1, if_neg (by decide)] at hM
    unfold rawRating
    rw [EvaluatePosition_eq, if_neg (by rw [hfw1]; decide)]
    dsimp only
    omega
  refine ⟨hothers, ?_⟩
  intro hgood
  obtain ⟨M, hM, _, hle, hcase⟩ := EvaluateBestMove_wf s vp 0 hwf
  have hMc := hle c hc hnf
  rw [hturn, if_pos rfl] at hM
  rcases hcase with ⟨hlow, _⟩ | ⟨_, i, hi, hnfi, heq, hbest, _⟩
  · omega
  · have hic : i = c := by
      by_contra hne
      have := hothers i hi hnfi hne
      omega
    rw [DetermineBestMove_fst_of_ne s vp (by omega), hbest, hic]

theorem DetermineBestMove_blocks_when_rated_witness :
    Reachable blockedState ∧ ¬ HasLine blockedState.Scene PLAYER.PLAYER_A.toInt ∧
    blockedState.CurrentPlayer = PLAYER.PLAYER_B ∧ (3 : Int) ∈ upTo MaxX ∧
    NonFull blockedState 3 ∧
    HasLine (dropAt (withPlayer blockedState PLAYER.PLAYER_A) 3).Scene PLAYER.PLAYER_A.toInt ∧
    (∀ j ∈ upTo MaxX, NonFull blockedState j →
      ¬ HasLine (dropAt blockedState j).Scene PLAYER.PLAYER_B.toInt) ∧
    LosePosition < rawRating blockedState 0 zeroTally 3 ∧
    (DetermineBestMove blockedState zeroTally).1 = some 3 := by
  have hplay : play (GameInit PLAYER.PLAYER_B).1 blockedMoves = blockedState := by
    set_option maxRecDepth 100000 in decide
  have hreach : Reachable blockedState := by
    rw [← hplay]
    exact Reachable_play (Reachable.init PLAYER.PLAYER_B) blockedMoves
      (by set_option maxRecDepth 100000 in decide)
  have hgood : LosePosition < rawRating blockedState 0 zeroTally 3 := by
    set_option maxRecDepth 100000 in decide
  exact ⟨hreach, by decide, rfl, by decide, by decide,
    by set_option maxRecDepth 100000 in decide,
    by set_option maxRecDepth 100000 in decide, hgood,
    (DetermineBestMove_blocks_when_rated blockedState zeroTally 3 hreach (by decide) rfl
      (by decide) (by decide) (by set_option maxRecDepth 100000 in decide)
      (by set_option maxRecDepth 100000 in decide)).2 hgood⟩

/-- A threat the search leaves open. The position `unblockedState` is reached from
`GameInit` by legal drops, nobody has a line, the computer is to move, the tally table is
all zero, the user has three in row 3 and would complete four at the drop target of column
3, and no computer drop completes a computer four. The blocking drop into column 3 is rated
`NeutralPosition`, the drop into column 6 is rated `LosePosition`, which is the greater
number, so `DetermineBestMove` returns column 6; after that drop the user completes four
by dropping into column 3. -/
theorem DetermineBestMove_block_counterexample :
    play (GameInit PLAYER.PLAYER_B).1 unblockedMoves = unblockedState ∧
    legalPlay (GameInit PLAYER.PLAYER_B).1 unblockedMoves = true ∧
    ¬ HasLine unblockedState.Scene PLAYER.PLAYER_A.toInt ∧
    ¬ HasLine unblockedState.Scene PLAYER.PLAYER_B.toInt ∧
    unblockedState.CurrentPlayer = PLAYER.PLAYER_B ∧
    (∀ i ∈ upTo MaxX, readAt zeroTally i = 0) ∧
    NonFull unblockedState 3 ∧ readAt2 unblockedState.NextMove 3 1 = 3 ∧
    FourAt (dropAt (withPlayer unblockedState PLAYER.PLAYER_A) 3).Scene
      PLAYER.PLAYER_A.toInt 0 3 1 0 ∧
    (∀ j ∈ upTo MaxX, NonFull unblockedState j →
      ¬ HasLine (dropAt unblockedState j).Scene PLAYER.PLAYER_B.toInt) ∧
    rawRating unblockedState 0 zeroTally 3 = NeutralPosition ∧
    rawRating unblockedState 0 zeroTally 6 = LosePosition ∧
    DetermineBestMove unblockedState zeroTally = (some 6, LosePosition, zeroTally) ∧
    legalPlay unblockedState [6, 3] = true ∧
    FindWinner (play unblockedState [6, 3]) = PLAYER.PLAYER_A.toInt := by
  set_option maxRecDepth 100000 in decide

/-! ## Initial state, input validation and the cleared tally -/

/-- C11. For every player, `GameInit` gives a state whose `Scene` holds `-1` everywhere
except the bottom row `MaxY`, which holds `0`; `NextMove[i]` is `(i, MaxY)` for every
column; `CurrentPlayer` is the given player; `Moves` is `0`; and every entry of
`VictoryProbability` is `0`. The arrays have their declared sizes. -/
theorem GameInit_state (player : PLAYER) :
    (∀ y ∈ upTo MaxY, ∀ x ∈ upTo MaxX,
      readAt2 (GameInit player).1.Scene y x = if y = MaxY then 0 else -1) ∧
    (∀ i ∈ upTo MaxX, readAt2 (GameInit player).1.NextMove i 0 = i ∧
      readAt2 (GameInit player).1.NextMove i 1 = MaxY) ∧
    (GameInit player).1.CurrentPlayer = player ∧
    (GameInit player).1.Moves = 0 ∧
    (∀ i ∈ upTo MaxX, readAt (GameInit player).2 i = 0) ∧
    Shaped (GameInit player).1.Scene (MaxY.toNat + 1) (MaxX.toNat + 1) ∧
    Shaped (GameInit player).1.NextMove (MaxX.toNat + 1) 2 ∧
    (GameInit player).2.length = MaxX.toNat + 1 := by
  cases player <;> decide

theorem CheckNextStep_true_iff (s : RoundState) (hwf : WellFormed s) (x y : Int) :
    CheckNextStep s x y = true ↔
      (0 ≤ x ∧ x ≤ MaxX) ∧ y ≠ -1 ∧
        readAt2 s.NextMove x 0 = x ∧ readAt2 s.NextMove x 1 = y := by
  have hMX : MaxX = 6 := rfl
  unfold CheckNextStep
  by_cases hy : y = -1
  · rw [if_pos hy]
    constructor
    · intro h; exact absurd h (by decide)
    · rintro ⟨_, h, _⟩; exact absurd hy h
  · rw [if_neg hy, List.any_eq_true]
    constructor
    · rintro ⟨i, hi, hpass⟩
      by_cases hfull : readAt2 s.NextMove i 0 = -1
      · rw [if_pos hfull] at hpass
        exact absurd hpass (by decide)
      · rw [if_neg hfull] at hpass
        have hxy := of_decide_eq_true hpass
        have hii : readAt2 s.NextMove i 0 = i := hwf.nextMove_fst hi hfull
        have hix : i = x := by rw [← hii]; exact hxy.1
        subst hix
        have hi' := (mem_upTo_MaxX i).1 hi
        exact ⟨⟨hi'.1, by omega⟩, hy, hii, hxy.2⟩
    · rintro ⟨⟨h0, h1⟩, _, hx0, hx1⟩
      refine ⟨x, (mem_upTo_MaxX x).2 ⟨h0, by omega⟩, ?_⟩
      rw [if_neg (by omega)]
      exact decide_eq_true ⟨hx0, hx1⟩

/-- C12. For a well-formed state and all integers `x`, `y`: `CheckNextStep` is true exactly
when `0 ≤ x ≤ MaxX`, `y ≠ -1` and `NextMove[x] = (x, y)`; so it is false for every full
column and for every `x` outside `0..MaxX`. -/
theorem CheckNextStep_spec (s : RoundState) (hwf : WellFormed s) (x y : Int) :
    (CheckNextStep s x y = true ↔
      (0 ≤ x ∧ x ≤ MaxX) ∧ y ≠ -1 ∧
        readAt2 s.NextMove x 0 = x ∧ readAt2 s.NextMove x 1 = y) ∧
    (x ∈ upTo MaxX → ¬ NonFull s x → CheckNextStep s x y = false) ∧
    (¬ (0 ≤ x ∧ x ≤ MaxX) → CheckNextStep s x y = false) := by
  have hiff := CheckNextStep_true_iff s hwf x y
  refine ⟨hiff, ?_, ?_⟩
  · intro hx hfull
    have hx' := (mem_upTo_MaxX x).1 hx
    have h1 : readAt2 s.NextMove x 0 = -1 := by
      unfold NonFull at hfull
      exact not_not.1 hfull
    cases hc : CheckNextStep s x y with
    | false => rfl
    | true =>
      have := (hiff.1 hc).2.2.1
      omega
  · intro hout
    cases hc : CheckNextStep s x y with
    | false => rfl
    | true => exact absurd (hiff.1 hc).1 hout

theorem CheckNextStep_spec_witness :
    WellFormed openingState ∧
    ((CheckNextStep openingState 3 3 = true ↔
      (0 ≤ (3 : Int) ∧ (3 : Int) ≤ MaxX) ∧ (3 : Int) ≠ -1 ∧
        readAt2 openingState.NextMove 3 0 = 3 ∧ readAt2 openingState.NextMove 3 1 = 3) ∧
    ((3 : Int) ∈ upTo MaxX → ¬ NonFull openingState 3 →
      CheckNextStep openingState 3 3 = false) ∧
    (¬ (0 ≤ (3 : Int) ∧ (3 : Int) ≤ MaxX) → CheckNextStep openingState 3 3 = false)) :=
  ⟨by decide, CheckNextStep_spec openingState (by decide) 3 3⟩

/-- C13. For a well-formed state and every integer `x`: `CalculateCoordinateY` returns the
drop row `NextMove[x][1]` when `0 ≤ x ≤ MaxX` and column `x` is not full, and `-1` in every
other case. -/
theorem CalculateCoordinateY_spec (s : RoundState) (hwf : WellFormed s) (x : Int) :
    CalculateCoordinateY s x =
      if (0 ≤ x ∧ x ≤ MaxX) ∧ NonFull s x then readAt2 s.NextMove x 1 else -1 := by
  have hMX : MaxX = 6 := rfl
  unfold CalculateCoordinateY
  cases hfind : (upTo MaxX).find? (fun i => readAt2 s.NextMove i 0 == x) with
  | some i =>
    have hp : readAt2 s.NextMove i 0 = x := by
      have := List.find?_some hfind
      simpa using this
    have hi : i ∈ upTo MaxX := List.mem_of_find?_eq_some hfind
    have hi' := (mem_upTo_MaxX i).1 hi
    dsimp only
    rcases hwf.2.2 i hi with ⟨y, _, ho⟩ | ⟨k, _, hc⟩
    · have hii : readAt2 s.NextMove i 0 = i := ho.2.2.2.1
      have hix : i = x := by rw [← hii]; exact hp
      subst hix
      rw [if_pos ⟨⟨hi'.1, by omega⟩, by unfold NonFull; omega⟩]
    · have hx : x = -1 := by rw [← hp]; exact hc.2.2.1
      rw [if_neg (by omega)]
      exact hc.2.2.2
  | none =>
    dsimp only
    rw [List.find?_eq_none] at hfind
    by_cases hc : (0 ≤ x ∧ x ≤ MaxX) ∧ NonFull s x
    · have hx : x ∈ upTo MaxX := (mem_upTo_MaxX x).2 ⟨hc.1.1, by omega⟩
      have := hfind x hx
      have hxx := hwf.nextMove_fst hx hc.2
      simp [hxx] at this
    · rw [if_neg hc]

theorem CalculateCoordinateY_spec_witness :
    WellFormed lateWinState ∧
    CalculateCoordinateY lateWinState 5 =
      (if (0 ≤ (5 : Int) ∧ (5 : Int) ≤ MaxX) ∧ NonFull lateWinState 5
        then readAt2 lateWinState.NextMove 5 1 else -1) ∧
    CalculateCoordinateY lateWinState (-1) =
      (if (0 ≤ (-1 : Int) ∧ (-1 : Int) ≤ MaxX) ∧ NonFull lateWinState (-1)
        then readAt2 lateWinState.NextMove (-1) 1 else -1) :=
  ⟨by decide, CalculateCoordinateY_spec lateWinState (by decide) 5,
    CalculateCoordinateY_spec lateWinState (by decide) (-1)⟩

theorem play_Moves (cols : List Int) :
    ∀ s : RoundState, (play s cols).Moves = s.Moves + cols.length := by
  induction cols with
  | nil => intro s; simp [play]
  | cons x xs ih =>
    intro s
    have hstep : play s (x :: xs) = play (dropAt s x) xs := rfl
    have hmv : (dropAt s x).Moves = s.Moves + 1 := rfl
    rw [hstep, ih, hmv, List.length_cons]
    push_cast
    omega

/-- C14. After `k < 7` successive drops from the state made by `GameInit` (also for
`k = 0`, the empty board) `FindWinner` returns `-1`. -/
theorem FindWinner_before_seven (player : PLAYER) (cols : List Int)
    (hk : cols.length < 7) : FindWinner (play (GameInit player).1 cols) = -1 := by
  have hm : (play (GameInit player).1 cols).Moves = cols.length := by
    rw [play_Moves]
    have : (GameInit player).1.Moves = 0 := rfl
    omega
  unfold FindWinner
  rw [if_pos (by omega)]

theorem FindWinner_before_seven_witness :
    legalPlay (GameInit PLAYER.PLAYER_A).1 [3, 3, 4, 4, 5, 5] = true ∧
    ([3, 3, 4, 4, 5, 5] : List Int).length < 7 ∧
    FindWinner (play (GameInit PLAYER.PLAYER_A).1 [3, 3, 4, 4, 5, 5]) = -1 :=
  ⟨by decide, by decide, FindWinner_before_seven PLAYER.PLAYER_A [3, 3, 4, 4, 5, 5] (by decide)⟩

/-! ## The tally table keeps its size and is cleared at the end -/

theorem readAt_of_not_lt (a : List Int) (i : Int) (h : ¬ (0 ≤ i ∧ i < a.length)) :
    readAt a i = 0 := by
  unfold readAt
  split
  · rfl
  · rw [List.getD_eq_getElem?_getD, List.getElem?_eq_none (by omega)]
    rfl

theorem readAt_writeAt_zero (a : List Int) (i j : Int) (h : j = i ∨ readAt a j = 0) :
    readAt (writeAt a i 0) j = 0 := by
  by_cases hin : 0 ≤ i ∧ i < a.length
  · rw [readAt_writeAt a i j 0 hin.1 hin.2]
    split
    · rfl
    · rcases h with h | h
      · contradiction
      · exact h
  · rw [writeAt_of_not_lt a i 0 hin]
    rcases h with h | h
    · rw [h]; exact readAt_of_not_lt a i hin
    · exact h

theorem foldl_clear (l : List Int) : ∀ v : List Int,
    ((l.foldl (fun w i => writeAt w i 0) v).length = v.length) ∧
    ∀ j, (j ∈ l ∨ readAt v j = 0) → readAt (l.foldl (fun w i => writeAt w i 0) v) j = 0 := by
  induction l with
  | nil =>
    intro v
    refine ⟨rfl, fun j h => ?_⟩
    rcases h with h | h
    · exact absurd h (List.not_mem_nil j)
    · exact h
  | cons a t ih =>
    intro v
    rw [List.foldl_cons]
    obtain ⟨h1, h2⟩ := ih (writeAt v a 0)
    refine ⟨by rw [h1, length_writeAt], fun j h => ?_⟩
    apply h2
    rcases h with h | h
    · rcases List.mem_cons.1 h with rfl | h'
      · exact Or.inr (readAt_writeAt_zero v j j (Or.inl rfl))
      · exact Or.inl h'
    · exact Or.inr (readAt_writeAt_zero v a j (Or.inr h))

/-- One iteration of the column loop keeps the size of the tally table when `evalNext`
does. -/
theorem EvaluateBestMoveStep_length
    (evalNext : RoundState → List Int → Int × List Int)
    (hlen : ∀ st v, (evalNext st v).2.length = v.length) (acc : SearchLoop) (i : Int) :
    (EvaluateBestMoveStep evalNext acc i).VictoryProbability.length
      = acc.VictoryProbability.length := by
  unfold EvaluateBestMoveStep
  split
  · rfl
  · dsimp only
    split
    · rw [length_writeAt, hlen]
    · rw [hlen]

theorem foldl_EvaluateBestMoveStep_length
    (evalNext : RoundState → List Int → Int × List Int)
    (hlen : ∀ st v, (evalNext st v).2.length = v.length) (l : List Int) :
    ∀ acc : SearchLoop,
      (l.foldl (EvaluateBestMoveStep evalNext) acc).VictoryProbability.length
        = acc.VictoryProbability.length := by
  induction l with
  | nil => intro acc; rfl
  | cons a t ih =>
    intro acc
    rw [List.foldl_cons, ih, EvaluateBestMoveStep_length evalNext hlen]

theorem EvaluateBestMoveWith_length
    (evalNext : RoundState → List Int → Int × List Int)
    (hlen : ∀ st v, (evalNext st v).2.length = v.length) (state : RoundState)
    (vp : List Int) :
    (EvaluateBestMoveWith evalNext state vp).VictoryProbability.length = vp.length := by
  have h := foldl_EvaluateBestMoveStep_length evalNext hlen (upTo MaxX)
    { state := state, VictoryProbability := vp, BestMoveX := none,
      MaxRating := NeutralPosition - 1 }
  unfold EvaluateBestMoveWith EvaluateBestMoveLoop
  dsimp only at h ⊢
  exact h

theorem EvaluatePositionBudget_length (b : Nat) :
    ∀ st v, (EvaluatePositionBudget b st v).2.length = v.length := by
  induction b with
  | zero => intro st v; rfl
  | succ b ih =>
    intro st v
    rw [EvaluatePositionBudget_succ]
    split
    · rfl
    · dsimp only
      exact EvaluateBestMoveWith_length (EvaluatePositionBudget b) ih st v

theorem EvaluateBestMove_length (state : RoundState) (vp : List Int) (depth : Int) :
    (EvaluateBestMove state vp depth).VictoryProbability.length = vp.length := by
  unfold EvaluateBestMove
  exact EvaluateBestMoveWith_length (fun st v => EvaluatePosition st v (depth + 1))
    (fun st v => EvaluatePositionBudget_length _ st v) state vp

theorem DetermineBestMove_tally (s : RoundState) (vp : List Int) :
    (DetermineBestMove s vp).2.2 =
      (upTo MaxX).foldl (fun w i => writeAt w i 0)
        (EvaluateBestMove s vp 0).VictoryProbability := by
  unfold DetermineBestMove
  dsimp only

/-- C16. For every state and every initial content of the tally table, every entry of
`VictoryProbability` is `0` after `DetermineBestMove`, and the table has kept its size. -/
theorem DetermineBestMove_clears (s : RoundState) (vp : List Int) :
    (∀ i ∈ upTo MaxX, readAt (DetermineBestMove s vp).2.2 i = 0) ∧
    (DetermineBestMove s vp).2.2.length = vp.length := by
  rw [DetermineBestMove_tally]
  obtain ⟨h1, h2⟩ := foldl_clear (upTo MaxX) (EvaluateBestMove s vp 0).VictoryProbability
  exact ⟨fun i hi => h2 i (Or.inl hi), by rw [h1, EvaluateBestMove_length]⟩

/-! ## Reflection of the board -/

theorem Mirrored_mirror (s : RoundState) : Mirrored s.Scene (mirror s).Scene := by
  intro y hy x hx
  obtain ⟨hy0, hy1⟩ := (mem_upTo_MaxY y).1 hy
  obtain ⟨hx0, hx1⟩ := (mem_upTo_MaxX x).1 hx
  interval_cases y <;> interval_cases x <;> rfl

theorem Mirrored.symm {a b : List (List Int)} (h : Mirrored a b) : Mirrored b a := by
  intro y hy x hx
  have hx' := (mem_upTo_MaxX x).1 hx
  have hMX : MaxX = 6 := rfl
  have := h y hy (MaxX - x) ((mem_upTo_MaxX _).2 (by omega))
  rw [this]
  congr 1
  omega

theorem strandPass_of_mirrored {a b : List (List Int)} (h : Mirrored a b)
    (id dx dy : Int) (n : Nat) (x y : Int)
    (hpass : strandPass b id (-dx) dy n (MaxX - x) y = true) :
    strandPass a id dx dy n x y = true := by
  have hMX : MaxX = 6 := rfl
  have hMY : MaxY = 5 := rfl
  rw [strandPass_iff] at hpass ⊢
  intro k h1 h2
  obtain ⟨hb, hcell⟩ := hpass k h1 h2
  have ex : MaxX - x + k * -dx = MaxX - (x + k * dx) := by ring
  rw [ex] at hb hcell
  refine ⟨⟨by omega, by omega, hb.2.2.1, hb.2.2.2⟩, ?_⟩
  rw [h.symm (y + k * dy) ((mem_upTo_MaxY _).2 ⟨hb.2.2.1, by omega⟩) (x + k * dx)
    ((mem_upTo_MaxX _).2 ⟨by omega, by omega⟩)]
  exact hcell

/-- Every row of the direction matrix has its reflection in the matrix. -/
theorem Direction_reflected (m : Int) (hm : m ∈ upTo 7) :
    ∃ m' ∈ upTo 7, readAt2 Direction m' 0 = -readAt2 Direction m 0 ∧
      readAt2 Direction m' 1 = readAt2 Direction m 1 := by
  obtain ⟨h0, h1⟩ := (mem_upTo 7 m (by decide)).1 hm
  interval_cases m
  · exact ⟨0, by decide, by decide, by decide⟩
  · exact ⟨7, by decide, by decide, by decide⟩
  · exact ⟨6, by decide, by decide, by decide⟩
  · exact ⟨5, by decide, by decide, by decide⟩
  · exact ⟨4, by decide, by decide, by decide⟩
  · exact ⟨3, by decide, by decide, by decide⟩
  · exact ⟨2, by decide, by decide, by decide⟩
  · exact ⟨1, by decide, by decide, by decide⟩

theorem anyStrand_of_mirrored {a b : List (List Int)} (h : Mirrored a b) (x y id : Int)
    (hpass : anyStrand b (MaxX - x) y id = true) : anyStrand a x y id = true := by
  unfold anyStrand at hpass ⊢
  rw [List.any_eq_true] at hpass ⊢
  obtain ⟨m, hm, hs⟩ := hpass
  obtain ⟨m', hm', e0, e1⟩ := Direction_reflected m hm
  refine ⟨m', hm', ?_⟩
  apply strandPass_of_mirrored h
  rw [e0, e1, neg_neg]
  exact hs

theorem anyStrand_mirrored {a b : List (List Int)} (h : Mirrored a b) (x y id : Int) :
    anyStrand b (MaxX - x) y id = anyStrand a x y id := by
  rw [Bool.eq_iff_iff]
  constructor
  · exact anyStrand_of_mirrored h x y id
  · intro hpass
    apply anyStrand_of_mirrored h.symm (MaxX - x) y id
    have e : MaxX - (MaxX - x) = x := by omega
    rw [e]
    exact hpass

theorem scanColumn_mirrored {a b : List (List Int)} (h : Mirrored a b) (x : Int)
    (hx : x ∈ upTo MaxX) (ys : List Int) (hys : ∀ y ∈ ys, y ∈ upTo MaxY) :
    scanColumn b (MaxX - x) ys = scanColumn a x ys := by
  induction ys with
  | nil => rfl
  | cons y ys ih =>
    have hcell : readAt2 b y (MaxX - x) = readAt2 a y x :=
      (h.symm y (hys y (List.mem_cons_self _ _)) x hx).symm
    simp only [scanColumn]
    rw [hcell, anyStrand_mirrored h x y, ih (fun r hr => hys r (List.mem_cons_of_mem _ hr))]

theorem scanColumns_of_none (scene : List (List Int)) (xs : List Int)
    (h : ∀ x ∈ xs, scanColumn scene x (downFrom MaxY) = none) : scanColumns scene xs = -1 := by
  induction xs with
  | nil => rfl
  | cons x xs ih =>
    simp only [scanColumns]
    rw [h x (List.mem_cons_self _ _)]
    exact ih (fun r hr => h r (List.mem_cons_of_mem _ hr))

theorem scanColumns_mirrored_none {a b : List (List Int)} (h : Mirrored a b)
    (hnone : scanColumns a (upTo MaxX) = -1) : scanColumns b (upTo MaxX) = -1 := by
  have hMX : MaxX = 6 := rfl
  apply scanColumns_of_none
  intro x hx
  have hx' := (mem_upTo_MaxX x).1 hx
  have hmx : MaxX - x ∈ upTo MaxX := (mem_upTo_MaxX _).2 (by omega)
  have := scanColumn_mirrored h (MaxX - x) hmx (downFrom MaxY)
    (fun y hy => (mem_downFrom_MaxY y).1 hy)
  have e : MaxX - (MaxX - x) = x := by omega
  rw [e] at this
  rw [this]
  exact scanColumns_eq_neg_one a _ hnone _ hmx

/-- A value other than `-1` returned by the column scan has four cells in a line, and is
not `0`. -/
theorem HasLine_of_scanColumns (scene : List (List Int)) (p : Int) (hp : p ≠ -1)
    (h : scanColumns scene (upTo MaxX) = p) : p ≠ 0 ∧ HasLine scene p := by
  obtain ⟨x, hx, hsc⟩ := scanColumns_ne scene _ p hp h
  obtain ⟨y, hy, hid, h0, _, hs⟩ := scanColumn_some scene x _ p hsc
  exact ⟨h0, HasLine_of_anyStrand scene x y p hx ((mem_downFrom_MaxY y).1 hy) hid hs⟩

theorem HasLine_mirrored {a b : List (List Int)} (h : Mirrored a b) (p : Int) (hp : p ≠ -1)
    (hb : scanColumns b (upTo MaxX) = p) : HasLine a p := by
  have hMX : MaxX = 6 := rfl
  obtain ⟨x, hx, hsc⟩ := scanColumns_ne b _ p hp hb
  have hx' := (mem_upTo_MaxX x).1 hx
  have hmx : MaxX - x ∈ upTo MaxX := (mem_upTo_MaxX _).2 (by omega)
  have := scanColumn_mirrored h (MaxX - x) hmx (downFrom MaxY)
    (fun y hy => (mem_downFrom_MaxY y).1 hy)
  have e : MaxX - (MaxX - x) = x := by omega
  rw [e, hsc] at this
  obtain ⟨y, hy, hid, _, _, hs⟩ := scanColumn_some a (MaxX - x) _ p this.symm
  exact HasLine_of_anyStrand a (MaxX - x) y p hmx ((mem_downFrom_MaxY y).1 hy) hid hs

/-- In a well-formed state in which the two players do not both have a line, at most one
value other than `0` and `-1` has one. -/
theorem WellFormed.singleWinner {s : RoundState} (hwf : WellFormed s)
    (hnot : ¬ (HasLine s.Scene PLAYER.PLAYER_A.toInt ∧ HasLine s.Scene PLAYER.PLAYER_B.toInt)) :
    SingleWinner s.Scene := by
  have player_of : ∀ p : Int, p ≠ 0 → p ≠ -1 → HasLine s.Scene p → p = 1 ∨ p = 2 := by
    intro p hp0 hp1 hl
    obtain ⟨x, hx, y, hy, d, _, h4⟩ := hl
    have hcell := (h4 0 (by decide)).2
    simp only [zero_mul, add_zero] at hcell
    have := hwf.cell_cases hx hy
    rw [hcell] at this
    omega
  intro a b ha0 ha1 hb0 hb1 hla hlb
  rcases player_of a ha0 ha1 hla with rfl | rfl <;>
    rcases player_of b hb0 hb1 hlb with rfl | rfl
  · rfl
  · exact absurd ⟨hla, hlb⟩ hnot
  · exact absurd ⟨hlb, hla⟩ hnot
  · rfl

/-- C15, amended. For every state, `FindWinner` of the reflected state is `-1` exactly when
`FindWinner` of the state is; and the two calls return the same value whenever at most one
value other than `0` and `-1` has four in a line on the board. -/
theorem FindWinner_mirror (s : RoundState) :
    (FindWinner (mirror s) = -1 ↔ FindWinner s = -1) ∧
    (SingleWinner s.Scene → FindWinner (mirror s) = FindWinner s) := by
  have hm : (mirror s).Moves = s.Moves := rfl
  have hmir := Mirrored_mirror s
  have hiff : FindWinner (mirror s) = -1 ↔ FindWinner s = -1 := by
    unfold FindWinner
    rw [hm]
    by_cases hlt : s.Moves < 7
    · rw [if_pos hlt, if_pos hlt]
    · rw [if_neg hlt, if_neg hlt]
      exact ⟨scanColumns_mirrored_none hmir.symm, scanColumns_mirrored_none hmir⟩
  refine ⟨hiff, ?_⟩
  intro hone
  by_cases hs : FindWinner s = -1
  · rw [hs]; exact hiff.2 hs
  · have hs' : FindWinner (mirror s) ≠ -1 := fun h => hs (hiff.1 h)
    have hge : ¬ s.Moves < 7 := by
      intro hlt
      apply hs
      unfold FindWinner
      rw [if_pos hlt]
    have e1 : FindWinner s = scanColumns s.Scene (upTo MaxX) := by
      unfold FindWinner; rw [if_neg hge]
    have e2 : FindWinner (mirror s) = scanColumns (mirror s).Scene (upTo MaxX) := by
      unfold FindWinner; rw [hm, if_neg hge]
    obtain ⟨ha0, hla⟩ := HasLine_of_scanColumns s.Scene _ hs e1.symm
    obtain ⟨hb0, _⟩ := HasLine_of_scanColumns (mirror s).Scene _ hs' e2.symm
    have hlb := HasLine_mirrored hmir _ hs' e2.symm
    exact hone _ _ hb0 hs' ha0 hs hlb hla

theorem FindWinner_mirror_witness :
    SingleWinner (dropAt lateWinState 5).Scene ∧
    FindWinner (dropAt lateWinState 5) = PLAYER.PLAYER_B.toInt ∧
    FindWinner (mirror (dropAt lateWinState 5)) = FindWinner (dropAt lateWinState 5) :=
  ⟨WellFormed.singleWinner (by decide) (by set_option maxRecDepth 100000 in decide),
    by set_option maxRecDepth 100000 in decide,
    (FindWinner_mirror (dropAt lateWinState 5)).2
      (WellFormed.singleWinner (by decide) (by set_option maxRecDepth 100000 in decide))⟩

/-- C15, counterexample. In `twoLinesState` the user has four in column 0 and the computer
four in column 6: `FindWinner` returns the user, and on the reflected state the computer. -/
theorem FindWinner_mirror_counterexample :
    WellFormed twoLinesState ∧
    FindWinner twoLinesState = PLAYER.PLAYER_A.toInt ∧
    FindWinner (mirror twoLinesState) = PLAYER.PLAYER_B.toInt ∧
    FindWinner (mirror twoLinesState) ≠ FindWinner twoLinesState := by
  set_option maxRecDepth 100000 in decide

/-! ## What the tally table counts -/

theorem readAt_bump (v : List Int) (i c : Int) (h0 : 0 ≤ i) (h1 : i < v.length) :
    readAt (writeAt v i (readAt v i + 1)) c = readAt v c + (if i = c then 1 else 0) := by
  rw [readAt_writeAt v i c _ h0 h1]
  by_cases h : c = i
  · subst h
    rw [if_pos rfl, if_pos rfl]
  · rw [if_neg h, if_neg (fun e => h e.symm), add_zero]

/-- The column loop on a well-formed state adds to the tally of column `c` one for each
drop into `c` rated `WinPosition` and what the recursive calls add. -/
theorem foldl_EvaluateBestMoveStep_tally
    (evalNext : RoundState → List Int → Int × List Int) (s : RoundState)
    (hwf : WellFormed s) (c : Int) (rate : RoundState → Int) (below : RoundState → Int)
    (hlen : ∀ st v, (evalNext st v).2.length = v.length)
    (hrate : ∀ st v, (evalNext st v).1 = rate st)
    (hcount : ∀ i ∈ upTo MaxX, NonFull s i → ∀ v : List Int, v.length = MaxX.toNat + 1 →
      readAt (evalNext (dropAt s i) v).2 c = readAt v c + below (dropAt s i))
    (l : List Int) :
    ∀ acc : SearchLoop, (∀ i ∈ l, i ∈ upTo MaxX) → acc.state = s →
      acc.VictoryProbability.length = MaxX.toNat + 1 →
      readAt (l.foldl (EvaluateBestMoveStep evalNext) acc).VictoryProbability c =
        readAt acc.VictoryProbability c +
          ((l.filter (fun i => decide (NonFull s i))).map (fun i =>
            (if i = c ∧ rate (dropAt s i) = WinPosition then 1 else 0)
              + below (dropAt s i))).sum := by
  induction l with
  | nil =>
    intro acc _ _ _
    simp
  | cons a t ih =>
    intro acc hmem hst hlenacc
    rw [List.foldl_cons]
    have ha : a ∈ upTo MaxX := hmem a (List.mem_cons_self _ _)
    have ha' := (mem_upTo_MaxX a).1 ha
    have hmem' : ∀ i ∈ t, i ∈ upTo MaxX := fun i hi => hmem i (List.mem_cons_of_mem _ hi)
    have hX : MaxX.toNat + 1 = 7 := by decide
    by_cases hnf : NonFull s a
    · have hwf' : WellFormed acc.state := by rw [hst]; exact hwf
      have hnf' : NonFull acc.state a := by rw [hst]; exact hnf
      obtain ⟨e1, _, _, e4⟩ := EvaluateBestMoveStep_nonFull evalNext acc a hwf' ha hnf'
      rw [hst] at e1 e4
      rw [hrate] at e4
      have hreslen : (evalNext (dropAt s a) acc.VictoryProbability).2.length = 7 := by
        rw [hlen, hlenacc, hX]
      have hlen' : (EvaluateBestMoveStep evalNext acc a).VictoryProbability.length
          = MaxX.toNat + 1 := by
        rw [EvaluateBestMoveStep_length evalNext hlen, hlenacc]
      have hread : readAt (EvaluateBestMoveStep evalNext acc a).VictoryProbability c =
          readAt acc.VictoryProbability c +
            ((if a = c ∧ rate (dropAt s a) = WinPosition then 1 else 0)
              + below (dropAt s a)) := by
        rw [e4]
        have hsub := hcount a ha hnf acc.VictoryProbability hlenacc
        by_cases hwin : rate (dropAt s a) = WinPosition
        · rw [if_pos hwin, readAt_bump _ a c ha'.1 (by rw [hreslen]; omega), hsub]
          by_cases hac : a = c
          · rw [if_pos hac, if_pos ⟨hac, hwin⟩]; omega
          · rw [if_neg hac, if_neg (fun h => hac h.1)]; omega
        · rw [if_neg hwin, hsub, if_neg (fun h => hwin h.2)]; omega
      rw [ih (EvaluateBestMoveStep evalNext acc a) hmem' e1 hlen', hread,
        List.filter_cons_of_pos (by simpa using hnf), List.map_cons, List.sum_cons]
      omega
    · have hnf' : ¬ NonFull acc.state a := by rw [hst]; exact hnf
      rw [EvaluateBestMoveStep_full evalNext acc a hnf',
        ih acc hmem' hst hlenacc, List.filter_cons_of_neg (by simpa using hnf)]

theorem EvaluateBestMoveWith_tally
    (evalNext : RoundState → List Int → Int × List Int) (s : RoundState)
    (hwf : WellFormed s) (c : Int) (rate : RoundState → Int) (below : RoundState → Int)
    (hlen : ∀ st v, (evalNext st v).2.length = v.length)
    (hrate : ∀ st v, (evalNext st v).1 = rate st)
    (hcount : ∀ i ∈ upTo MaxX, NonFull s i → ∀ v : List Int, v.length = MaxX.toNat + 1 →
      readAt (evalNext (dropAt s i) v).2 c = readAt v c + below (dropAt s i))
    (vp : List Int) (hvp : vp.length = MaxX.toNat + 1) :
    readAt (EvaluateBestMoveWith evalNext s vp).VictoryProbability c =
      readAt vp c + winRatedLoop rate below s c := by
  have h := foldl_EvaluateBestMoveStep_tally evalNext s hwf c rate below hlen hrate hcount
    (upTo MaxX)
    { state := s, VictoryProbability := vp, BestMoveX := none,
      MaxRating := NeutralPosition - 1 } (fun i hi => hi) rfl hvp
  unfold EvaluateBestMoveWith EvaluateBestMoveLoop winRatedLoop
  dsimp only at h ⊢
  exact h

theorem winRatedBelow_succ (b : Nat) (state : RoundState) (c : Int) :
    winRatedBelow (b + 1) state c =
      if FindWinner state ≠ -1 then 0
      else winRatedLoop (fun st => (EvaluatePositionBudget b st []).1)
        (fun st => winRatedBelow b st c) state c := rfl

theorem EvaluatePositionBudget_tally (c : Int) (b : Nat) :
    ∀ (st : RoundState) (vp : List Int), WellFormed st → vp.length = MaxX.toNat + 1 →
      readAt (EvaluatePositionBudget b st vp).2 c = readAt vp c + winRatedBelow b st c := by
  induction b with
  | zero =>
    intro st vp _ _
    rw [EvaluatePositionBudget_zero]
    simp [winRatedBelow]
  | succ b ih =>
    intro st vp hwf hvp
    rw [EvaluatePositionBudget_succ, winRatedBelow_succ]
    by_cases hw : FindWinner st ≠ -1
    · rw [if_pos hw, if_pos hw, add_zero]
    · rw [if_neg hw, if_neg hw]
      dsimp only
      exact EvaluateBestMoveWith_tally (EvaluatePositionBudget b) st hwf c
        (fun st' => (EvaluatePositionBudget b st' []).1) (fun st' => winRatedBelow b st' c)
        (EvaluatePositionBudget_length b)
        (fun st' v => EvaluatePositionBudget_tallyFree b st' v [])
        (fun i hi hnf v hv => ih (dropAt st i) v (WellFormed_dropAt hwf hi hnf) hv) vp hvp

/-- After `EvaluateBestMove` on a well-formed state the tally of column `c` has grown by
the number of simulated drops into `c`, at any ply, that were rated `WinPosition`. -/
theorem EvaluateBestMove_tally (s : RoundState) (vp : List Int) (depth : Int) (c : Int)
    (hwf : WellFormed s) (hvp : vp.length = MaxX.toNat + 1) :
    readAt (EvaluateBestMove s vp depth).VictoryProbability c =
      readAt vp c + winRatedDrops s depth c := by
  unfold EvaluateBestMove winRatedDrops
  exact EvaluateBestMoveWith_tally (fun st v => EvaluatePosition st v (depth + 1)) s hwf c
    (fun st => (EvaluatePosition st [] (depth + 1)).1)
    (fun st => winRatedBelow (MaxDepth - (depth + 1)).toNat st c)
    (fun st v => EvaluatePositionBudget_length _ st v)
    (fun st' v => EvaluatePosition_tallyFree (depth + 1) st' v [])
    (fun i hi hnf v hv => EvaluatePositionBudget_tally c _ (dropAt s i) v
      (WellFormed_dropAt hwf hi hnf) hv) vp hvp

/-- C17, amended. Starting from an all-zero tally table, after the depth-0 call of
`EvaluateBestMove` on a well-formed state the tally of each column `c` is the number of
simulated drops into column `c`, at any ply of the search, whose resulting position
`EvaluatePosition` rated `WinPosition`. -/
theorem EvaluateBestMove_tally_counts (s : RoundState) (vp : List Int) (c : Int)
    (hwf : WellFormed s) (hvp : vp.length = MaxX.toNat + 1)
    (hzero : ∀ i ∈ upTo MaxX, readAt vp i = 0) (hc : c ∈ upTo MaxX) :
    readAt (EvaluateBestMove s vp 0).VictoryProbability c = winRatedDrops s 0 c := by
  rw [EvaluateBestMove_tally s vp 0 c hwf hvp, hzero c hc, zero_add]

set_option maxRecDepth 100000 in
theorem EvaluateBestMove_tally_counts_witness :
    WellFormed lateWinState ∧ zeroTally.length = MaxX.toNat + 1 ∧
    (∀ i ∈ upTo MaxX, readAt zeroTally i = 0) ∧ (5 : Int) ∈ upTo MaxX ∧
    winRatedDrops lateWinState 0 5 = 3 ∧
    readAt (EvaluateBestMove lateWinState zeroTally 0).VictoryProbability 5
      = winRatedDrops lateWinState 0 5 :=
  ⟨by decide, by decide, by decide, by decide, by decide,
    EvaluateBestMove_tally_counts lateWinState zeroTally 5 (by decide) (by decide)
      (by decide) (by decide)⟩

/-- C17, counterexample. From `lateWinState` and an all-zero tally table the depth-0 search
leaves the tally of column 5 at 3, while only one simulated line of play under the
top-level drop into column 5 ends in a computer win. -/
theorem EvaluateBestMove_tally_counterexample :
    WellFormed lateWinState ∧ (∀ i ∈ upTo MaxX, readAt zeroTally i = 0) ∧
    readAt (EvaluateBestMove lateWinState zeroTally 0).VictoryProbability 5 = 3 ∧
    winBranchesUnder lateWinState 5 = 1 ∧
    readAt (EvaluateBestMove lateWinState zeroTally 0).VictoryProbability 5
      ≠ winBranchesUnder lateWinState 5 := by
  set_option maxRecDepth 100000 in decide

/-- C18, amended. In a state reached from `GameInit` by legal drops, with the computer to
move and no line for either player: if the rating produced by the depth-0
`EvaluateBestMove` equals `NeutralPosition`, then no sequence of at most one simulated
legal drop reaches a position in which `FindWinner` reports a winner. -/
theorem neutral_rating_no_immediate_winner (s : RoundState) (vp : List Int)
    (hreach : Reachable s) (hturn : s.CurrentPlayer = PLAYER.PLAYER_B)
    (hnoA : ¬ HasLine s.Scene PLAYER.PLAYER_A.toInt)
    (hnoB : ¬ HasLine s.Scene PLAYER.PLAYER_B.toInt)
    (hneutral : (EvaluateBestMove s vp 0).MoveRating = NeutralPosition) :
    ∀ cols : List Int, cols.length ≤ 1 → legalPlay s cols = true →
      FindWinner (play s cols) = -1 := by
  have hwf := hreach.wellFormed
  have hA : PLAYER.PLAYER_A.toInt = 1 := rfl
  have hB : PLAYER.PLAYER_B.toInt = 2 := rfl
  intro cols hlen hlegal
  match cols, hlen, hlegal with
  | [], _, _ =>
    show FindWinner s = -1
    by_contra hne
    obtain ⟨hp, hl⟩ := FindWinner_sound hwf rfl hne
    rcases hp with hp | hp
    · rw [hp] at hl; exact hnoA hl
    · rw [hp] at hl; exact hnoB hl
  | [a], _, hlegal =>
    simp only [legalPlay, Bool.and_eq_true, decide_eq_true_eq, and_true] at hlegal
    obtain ⟨ha, hnf⟩ := hlegal
    show FindWinner (dropAt s a) = -1
    by_contra hne
    have hwf1 : WellFormed (dropAt s a) := WellFormed_dropAt hwf ha hnf
    obtain ⟨hp, hl⟩ := FindWinner_sound hwf1 rfl hne
    rcases hp with hp | hp
    · rw [hp] at hl
      exact hnoA (HasLine_of_HasLine_dropAt hwf ha hnf (Or.inl rfl)
        (by rw [hturn]; decide) hl)
    · have hraw : rawRating s 0 vp a = WinPosition := by
        unfold rawRating
        rw [EvaluatePosition_of_winner _ _ _ PLAYER.PLAYER_B hp, terminalRating_PLAYER_B]
      obtain ⟨M, hM, _, hle, _⟩ := EvaluateBestMove_wf s vp 0 hwf
      have hMa := hle a ha hnf
      rw [hturn, if_pos rfl] at hM
      have hW : WinPosition = 1000 := rfl
      have hN : NeutralPosition = -1000 := rfl
      omega
  | _ :: _ :: _, hlen, _ =>
    simp only [List.length_cons] at hlen
    omega

theorem neutral_rating_no_immediate_winner_witness :
    Reachable veiledState ∧ veiledState.CurrentPlayer = PLAYER.PLAYER_B ∧
    ¬ HasLine veiledState.Scene PLAYER.PLAYER_A.toInt ∧
    ¬ HasLine veiledState.Scene PLAYER.PLAYER_B.toInt ∧
    (EvaluateBestMove veiledState zeroTally 0).MoveRating = NeutralPosition ∧
    ([2] : List Int).length ≤ 1 ∧ legalPlay veiledState [2] = true ∧
    FindWinner (play veiledState [2]) = -1 := by
  have hplay : play (GameInit PLAYER.PLAYER_A).1 veiledMoves = veiledState := by
    set_option maxRecDepth 100000 in decide
  have hreach : Reachable veiledState := by
    rw [← hplay]
    exact Reachable_play (Reachable.init PLAYER.PLAYER_A) veiledMoves
      (by set_option maxRecDepth 100000 in decide)
  have hneutral : (EvaluateBestMove veiledState zeroTally 0).MoveRating = NeutralPosition := by
    set_option maxRecDepth 100000 in decide
  exact ⟨hreach, rfl, by decide, by decide, hneutral, by decide, by decide,
    neutral_rating_no_immediate_winner veiledState zeroTally hreach rfl (by decide)
      (by decide) hneutral [2] (by decide) (by decide)⟩

/-- C18, counterexample. `veiledState` is reached from `GameInit` by legal drops, the
computer is to move, nobody has a line and the depth-0 rating is `NeutralPosition`; yet
after the two legal drops into column 2 `FindWinner` reports the user. -/
theorem neutral_rating_counterexample :
    play (GameInit PLAYER.PLAYER_A).1 veiledMoves = veiledState ∧
    legalPlay (GameInit PLAYER.PLAYER_A).1 veiledMoves = true ∧
    veiledState.CurrentPlayer = PLAYER.PLAYER_B ∧
    ¬ HasLine veiledState.Scene PLAYER.PLAYER_A.toInt ∧
    ¬ HasLine veiledState.Scene PLAYER.PLAYER_B.toInt ∧
    FindWinner veiledState = -1 ∧
    (EvaluateBestMove veiledState zeroTally 0).MoveRating = NeutralPosition ∧
    ([2, 2] : List Int).length ≤ MaxDepth ∧
    legalPlay veiledState [2, 2] = true ∧
    FindWinner (play veiledState [2, 2]) = PLAYER.PLAYER_A.toInt := by
  set_option maxRecDepth 100000 in decide

/-! ## The column returned by `DetermineBestMove` when one is assigned -/

theorem NonFull_dropAt_iff {s : RoundState} (hwf : WellFormed s) {i : Int}
    (hi : i ∈ upTo MaxX) (hnf : NonFull s i) {c : Int} (hci : c ≠ i) :
    NonFull (dropAt s i) c ↔ NonFull s c := by
  have hi' := (mem_upTo_MaxX i).1 hi
  have hy := (mem_upTo_MaxY _).1 (hwf.open_of_nonFull hi hnf).1
  unfold NonFull dropAt
  rw [MakeMove_NextMove s i _ c 0 hwf.2.1 hi' hy.1, if_neg (by omega), if_neg (by omega)]

theorem winRatedLoop_nonneg (rate : RoundState → Int) (below : RoundState → Int)
    (s : RoundState) (c : Int) (hbelow : ∀ st, 0 ≤ below st) :
    0 ≤ winRatedLoop rate below s c := by
  unfold winRatedLoop
  apply List.sum_nonneg
  intro t ht
  rw [List.mem_map] at ht
  obtain ⟨i, _, rfl⟩ := ht
  have := hbelow (dropAt s i)
  split <;> omega

theorem winRatedBelow_nonneg (c : Int) (b : Nat) : ∀ st, 0 ≤ winRatedBelow b st c := by
  induction b with
  | zero => intro st; exact le_refl _
  | succ b ih =>
    intro st
    rw [winRatedBelow_succ]
    split
    · exact le_refl _
    · exact winRatedLoop_nonneg _ _ st c ih

/-- Each non-full column contributes at most the whole count. -/
theorem term_le_winRatedLoop (rate : RoundState → Int) (below : RoundState → Int)
    (s : RoundState) (c : Int) (hbelow : ∀ st, 0 ≤ below st) (i : Int)
    (hi : i ∈ upTo MaxX) (hnf : NonFull s i) :
    (if i = c ∧ rate (dropAt s i) = WinPosition then 1 else 0) + below (dropAt s i)
      ≤ winRatedLoop rate below s c := by
  unfold winRatedLoop
  apply List.single_le_sum
  · intro t ht
    rw [List.mem_map] at ht
    obtain ⟨j, _, rfl⟩ := ht
    have := hbelow (dropAt s j)
    split <;> omega
  · rw [List.mem_map]
    exact ⟨i, List.mem_filter.2 ⟨hi, by simpa using hnf⟩, rfl⟩

theorem winRatedLoop_full (rate : RoundState → Int) (below : RoundState → Int)
    (s : RoundState) (c : Int) (hfull : ¬ NonFull s c)
    (hbelow : ∀ i ∈ upTo MaxX, NonFull s i → below (dropAt s i) = 0) :
    winRatedLoop rate below s c = 0 := by
  unfold winRatedLoop
  apply List.sum_eq_zero
  intro t ht
  rw [List.mem_map] at ht
  obtain ⟨i, hi, rfl⟩ := ht
  rw [List.mem_filter] at hi
  have hnf : NonFull s i := by simpa using hi.2
  have hic : i ≠ c := fun h => hfull (h ▸ hnf)
  rw [if_neg (fun h => hic h.1), hbelow i hi.1 hnf, add_zero]

/-- Nothing is counted for a column that is full. -/
theorem winRatedBelow_full (c : Int) (b : Nat) :
    ∀ st, WellFormed st → ¬ NonFull st c → winRatedBelow b st c = 0 := by
  induction b with
  | zero => intro st _ _; rfl
  | succ b ih =>
    intro st hwf hfull
    rw [winRatedBelow_succ]
    split
    · rfl
    · apply winRatedLoop_full _ _ st c hfull
      intro i hi hnf
      have hci : c ≠ i := fun h => hfull (h ▸ hnf)
      exact ih (dropAt st i) (WellFormed_dropAt hwf hi hnf)
        (fun h => hfull ((NonFull_dropAt_iff hwf hi hnf hci).1 h))

theorem winRatedDrops_full (s : RoundState) (depth c : Int) (hwf : WellFormed s)
    (hfull : ¬ NonFull s c) : winRatedDrops s depth c = 0 := by
  unfold winRatedDrops
  apply winRatedLoop_full _ _ s c hfull
  intro i hi hnf
  have hci : c ≠ i := fun h => hfull (h ▸ hnf)
  exact winRatedBelow_full c _ (dropAt s i) (WellFormed_dropAt hwf hi hnf)
    (fun h => hfull ((NonFull_dropAt_iff hwf hi hnf hci).1 h))

/-- When the depth-0 rating of a well-formed state is `NeutralPosition`, some non-full
column has a drop rated `WinPosition` counted for it. -/
theorem exists_winRatedDrops_pos (s : RoundState) (vp : List Int) (hwf : WellFormed s)
    (hneutral : (EvaluateBestMove s vp 0).MoveRating = NeutralPosition) :
    ∃ j ∈ upTo MaxX, NonFull s j ∧ 1 ≤ winRatedDrops s 0 j := by
  have hW : WinPosition = 1000 := rfl
  have hL : LosePosition = 0 := rfl
  have hN : NeutralPosition = -1000 := rfl
  obtain ⟨M, hM, _, _, hcase⟩ := EvaluateBestMove_wf s vp 0 hwf
  rw [hneutral] at hM
  have hMgt : NeutralPosition - 1 < M := by
    rcases hcase with ⟨hlow, _⟩ | ⟨hgt, _⟩
    · split at hM <;> omega
    · exact hgt
  rcases hcase with ⟨hlow, _⟩ | ⟨_, i, hi, hnf, heq, _, _⟩
  · omega
  · cases hcp : s.CurrentPlayer with
    | PLAYER_A =>
      rw [hcp, if_neg (by decide)] at hM
      have hrate : (EvaluatePosition (dropAt s i) [] (0 + 1)).1 = WinPosition := by
        have := rawRating_tallyFree s 0 [] vp i
        unfold rawRating at this heq
        rw [this, heq]
        omega
      refine ⟨i, hi, hnf, ?_⟩
      have hterm := term_le_winRatedLoop (fun st => (EvaluatePosition st [] (0 + 1)).1)
        (fun st => winRatedBelow (MaxDepth - (0 + 1)).toNat st i) s i
        (fun st => winRatedBelow_nonneg i _ st) i hi hnf
      have hb := winRatedBelow_nonneg i (MaxDepth - (0 + 1)).toNat (dropAt s i)
      dsimp only at hterm
      rw [if_pos ⟨rfl, hrate⟩] at hterm
      unfold winRatedDrops
      omega
    | PLAYER_B =>
      rw [hcp, if_pos rfl] at hM
      -- the drop into `i` is rated `NeutralPosition`: a user ply below it saw `WinPosition`
      have hwf1 : WellFormed (dropAt s i) := WellFormed_dropAt hwf hi hnf
      have hcp1 : (dropAt s i).CurrentPlayer = PLAYER.PLAYER_A := by
        show Opponent s.CurrentPlayer = _
        rw [hcp]; rfl
      have hraw : (EvaluatePosition (dropAt s i) vp (0 + 1)).1 = NeutralPosition := by
        have : rawRating s 0 vp i = (EvaluatePosition (dropAt s i) vp (0 + 1)).1 := rfl
        rw [← this, heq]
        omega
      have hfw : FindWinner (dropAt s i) = -1 := by
        by_contra hne
        obtain ⟨hp, _⟩ := FindWinner_sound hwf1 rfl hne
        rcases hp with hp | hp
        · rw [EvaluatePosition_of_winner _ _ _ PLAYER.PLAYER_A hp,
            terminalRating_PLAYER_A] at hraw
          omega
        · rw [EvaluatePosition_of_winner _ _ _ PLAYER.PLAYER_B hp,
            terminalRating_PLAYER_B] at hraw
          omega
      rw [EvaluatePosition_eq, if_neg (by rw [hfw]; decide)] at hraw
      dsimp only at hraw
      obtain ⟨M1, hM1, _, _, hcase1⟩ := EvaluateBestMove_wf (dropAt s i) vp (0 + 1) hwf1
      rw [hraw, hcp1, if_neg (by decide)] at hM1
      rcases hcase1 with ⟨hlow1, _⟩ | ⟨_, j, hj, hnfj, heqj, _, _⟩
      · omega
      · have hnfs : NonFull s j := by
          by_cases hji : j = i
          · rw [hji]; exact hnf
          · exact (NonFull_dropAt_iff hwf hi hnf hji).1 hnfj
        refine ⟨j, hj, hnfs, ?_⟩
        have hbudget : (MaxDepth - (0 + 1)).toNat = 6 + 1 := by decide
        have hbudget2 : (MaxDepth - (0 + 1 + 1)).toNat = 6 := by decide
        have hrate : (EvaluatePositionBudget 6 (dropAt (dropAt s i) j) []).1 = WinPosition := by
          have h1 := rawRating_tallyFree (dropAt s i) (0 + 1) [] vp j
          unfold rawRating EvaluatePosition at h1 heqj
          rw [hbudget2] at h1 heqj
          rw [h1, heqj]
          omega
        -- the count under the drop into `i`
        have hsub : 1 ≤ winRatedBelow (MaxDepth - (0 + 1)).toNat (dropAt s i) j := by
          rw [hbudget, winRatedBelow_succ, if_neg (by rw [hfw]; decide)]
          have hterm := term_le_winRatedLoop (fun st => (EvaluatePositionBudget 6 st []).1)
            (fun st => winRatedBelow 6 st j) (dropAt s i) j
            (fun st => winRatedBelow_nonneg j 6 st) j hj hnfj
          have hb := winRatedBelow_nonneg j 6 (dropAt (dropAt s i) j)
          dsimp only at hterm
          rw [if_pos ⟨rfl, hrate⟩] at hterm
          omega
        have hterm := term_le_winRatedLoop (fun st => (EvaluatePosition st [] (0 + 1)).1)
          (fun st => winRatedBelow (MaxDepth - (0 + 1)).toNat st j) s j
          (fun st => winRatedBelow_nonneg j _ st) i hi hnf
        dsimp only at hterm
        unfold winRatedDrops
        split at hterm <;> omega

/-- Whenever `DetermineBestMove`, run on a well-formed state with an all-zero tally table,
returns an assigned column, that column is on the board and not full. -/
theorem DetermineBestMove_valid_of_some (s : RoundState) (vp : List Int) (c : Int)
    (hwf : WellFormed s) (hvp : vp.length = MaxX.toNat + 1)
    (hzero : ∀ i ∈ upTo MaxX, readAt vp i = 0)
    (hsome : (DetermineBestMove s vp).1 = some c) : c ∈ upTo MaxX ∧ NonFull s c := by
  by_cases hneutral : (EvaluateBestMove s vp 0).MoveRating = NeutralPosition
  · -- the fallback scan
    obtain ⟨_, k3, k4⟩ := foldl_tallyStep (EvaluateBestMove s vp 0).VictoryProbability
      (upTo MaxX) ((EvaluateBestMove s vp 0).BestMoveX, -1) upTo_MaxX_sorted
    have hbest : (DetermineBestMove s vp).1 =
        ((upTo MaxX).foldl (tallyStep (EvaluateBestMove s vp 0).VictoryProbability)
          ((EvaluateBestMove s vp 0).BestMoveX, -1)).1 := by
      unfold DetermineBestMove
      dsimp only
      rw [if_pos hneutral]
    obtain ⟨j, hj, hnfj, hpos⟩ := exists_winRatedDrops_pos s vp hwf hneutral
    have htj := EvaluateBestMove_tally s vp 0 j hwf hvp
    rw [hzero j hj, zero_add] at htj
    have hmaxj := k3 j hj
    rcases k4 with ⟨m1, _⟩ | ⟨_, i, hi, m2, m3, _⟩
    · dsimp only at m1
      omega
    · rw [hbest, m3] at hsome
      have hic : i = c := by simpa using hsome
      subst hic
      refine ⟨hi, ?_⟩
      by_contra hfull
      have hti := EvaluateBestMove_tally s vp 0 i hwf hvp
      rw [hzero i hi, zero_add, winRatedDrops_full s 0 i hwf hfull] at hti
      omega
  · rw [DetermineBestMove_fst_of_ne s vp hneutral] at hsome
    obtain ⟨M, _, _, _, hcase⟩ := EvaluateBestMove_wf s vp 0 hwf
    rcases hcase with ⟨_, hnone⟩ | ⟨_, i, hi, hnf, _, hbest, _⟩
    · rw [hnone] at hsome
      exact absurd hsome (by simp)
    · rw [hbest] at hsome
      have hic : i = c := by simpa using hsome
      subst hic
      exact ⟨hi, hnf⟩

/-- C19, at the failing input. `drawnEndState` is reached from `GameInit` by legal drops,
is well-formed and has the non-full column 2; run on it with an all-zero tally table,
`DetermineBestMove` returns the unassigned `BestX` with rating `NeutralPosition - 1`. -/
theorem DetermineBestMove_unassigned :
    play (GameInit PLAYER.PLAYER_B).1 drawnEndMoves = drawnEndState ∧
    legalPlay (GameInit PLAYER.PLAYER_B).1 drawnEndMoves = true ∧
    WellFormed drawnEndState ∧ (2 : Int) ∈ upTo MaxX ∧ NonFull drawnEndState 2 ∧
    (∀ i ∈ upTo MaxX, readAt zeroTally i = 0) ∧
    DetermineBestMove drawnEndState zeroTally = (none, NeutralPosition - 1, zeroTally) := by
  set_option maxRecDepth 100000 in decide

/-! ## The states on which `EvaluateBestMove` is invoked -/

/-- The function `callsStep` moves the state exactly as `EvaluateBestMoveStep` does. -/
theorem callsStep_state (callsNext : RoundState → List RoundState)
    (evalNext : RoundState → List Int → Int × List Int) (acc : SearchLoop)
    (calls : List RoundState) (i : Int) :
    (callsStep callsNext (acc.state, calls) i).1 = (EvaluateBestMoveStep evalNext acc i).state := by
  unfold callsStep EvaluateBestMoveStep
  dsimp only
  split <;> rfl

theorem foldl_callsStep_state (callsNext : RoundState → List RoundState)
    (evalNext : RoundState → List Int → Int × List Int) (l : List Int) :
    ∀ (acc : SearchLoop) (calls : List RoundState),
      (l.foldl (callsStep callsNext) (acc.state, calls)).1
        = (l.foldl (EvaluateBestMoveStep evalNext) acc).state := by
  induction l with
  | nil => intro acc calls; rfl
  | cons a t ih =>
    intro acc calls
    rw [List.foldl_cons, List.foldl_cons]
    have h := callsStep_state callsNext evalNext acc calls a
    have e : callsStep callsNext (acc.state, calls) a
        = ((EvaluateBestMoveStep evalNext acc a).state,
            (callsStep callsNext (acc.state, calls) a).2) := by
      rw [← h]
    rw [e]
    exact ih _ _

/-- C20, at the failing input. `drawnEndState` is well-formed and has the non-full column
2, yet the search that `DetermineBestMove` starts on it invokes `EvaluateBestMove`, through
`EvaluatePosition` at depth 4, on `drawnFullState`, the board filled by four drops into
column 2, which has no non-full column; that call has no candidate, leaves `BestMoveX`
unassigned and reports its initial `MaxRating` as the rating. -/
theorem searchCalls_full_board :
    WellFormed drawnEndState ∧ (2 : Int) ∈ upTo MaxX ∧ NonFull drawnEndState 2 ∧
    play drawnEndState [2, 2, 2, 2] = drawnFullState ∧
    legalPlay drawnEndState [2, 2, 2, 2] = true ∧
    (∀ i ∈ upTo MaxX, ¬ NonFull drawnFullState i) ∧
    drawnFullState ∈ searchCalls drawnEndState ∧
    FindWinner drawnFullState = -1 ∧
    EvaluatePosition drawnFullState zeroTally 4
      = ((EvaluateBestMove drawnFullState zeroTally 4).MoveRating,
         (EvaluateBestMove drawnFullState zeroTally 4).VictoryProbability) ∧
    (EvaluateBestMove drawnFullState zeroTally 4).BestMoveX = none ∧
    (EvaluateBestMove drawnFullState zeroTally 4).MoveRating = NeutralPosition - 1 := by
  set_option maxRecDepth 100000 in decide

/-! ## The move counter, the occupied cells and the unguarded scan -/

theorem occupiedCells_dropAt {s : RoundState} (hwf : WellFormed s) {x : Int}
    (hx : x ∈ upTo MaxX) (hopen : NonFull s x) :
    occupiedCells (dropAt s x).Scene = occupiedCells s.Scene + 1 := by
  have h1 := pieceCount_dropAt_mover hwf hx hopen
  have h2 := pieceCount_dropAt_other hwf hx hopen
  unfold occupiedCells
  cases hc : s.CurrentPlayer <;> rw [hc] at h1 h2 <;> simp only [Opponent] at h2 <;> omega

/-- In a reachable state `Moves` counts the occupied cells. -/
theorem Reachable.moves_eq_occupied {s : RoundState} (h : Reachable s) :
    s.Moves = (occupiedCells s.Scene : Int) := by
  induction h with
  | init p =>
    have h1 := pieceCount_GameInit p PLAYER.PLAYER_A.toInt (Or.inl rfl)
    have h2 := pieceCount_GameInit p PLAYER.PLAYER_B.toInt (Or.inr rfl)
    have hm : (GameInit p).1.Moves = 0 := rfl
    unfold occupiedCells
    rw [h1, h2, hm]
    rfl
  | move s x hr hx hopen ih =>
    have hmv : (dropAt s x).Moves = s.Moves + 1 := rfl
    rw [hmv, occupiedCells_dropAt hr.wellFormed hx hopen, ih]
    push_cast
    rfl

/-- A value other than `-1` returned by the unguarded scan of a well-formed state is a
player value that has four in a line. -/
theorem FindWinnerScan_sound {s : RoundState} (hwf : WellFormed s) {p : Int}
    (h : FindWinnerScan s = p) (hp : p ≠ -1) : (p = 1 ∨ p = 2) ∧ HasLine s.Scene p := by
  unfold FindWinnerScan at h
  obtain ⟨x, hx, hsc⟩ := scanColumns_ne s.Scene _ p hp h
  obtain ⟨y, hy, hid, h0, h1, hs⟩ := scanColumn_some s.Scene x _ p hsc
  rw [mem_downFrom_MaxY] at hy
  refine ⟨?_, HasLine_of_anyStrand s.Scene x y p hx hy hid hs⟩
  have := hwf.cell_cases hx hy
  rw [hid] at this
  omega

/-- In a reachable state with fewer than seven moves nobody has four in a line. -/
theorem Reachable.no_line_before_seven {s : RoundState} (h : Reachable s) (hm : s.Moves < 7) :
    ¬ HasLine s.Scene 1 ∧ ¬ HasLine s.Scene 2 := by
  constructor
  · intro hl
    have := h.seven_le_Moves (Or.inl rfl) hl
    omega
  · intro hl
    have := h.seven_le_Moves (Or.inr rfl) hl
    omega

/-- In a reachable state `FindWinner` and the unguarded scan return the same value. -/
theorem Reachable.findWinner_eq_scan {s : RoundState} (h : Reachable s) :
    FindWinner s = FindWinnerScan s := by
  by_cases hm : s.Moves < 7
  · have hf : FindWinner s = -1 := by unfold FindWinner; rw [if_pos hm]
    rw [hf]
    by_contra hne
    obtain ⟨hp, hl⟩ := FindWinnerScan_sound h.wellFormed rfl (fun heq => hne heq.symm)
    have := h.seven_le_Moves hp hl
    omega
  · unfold FindWinner FindWinnerScan
    rw [if_neg hm]

theorem Reachable_openingState : Reachable openingState :=
  Reachable_play (Reachable.init PLAYER.PLAYER_A) [3, 3, 4] (by decide)

/-! ## Claim C22 -/

/-- C22: in every state reached from `GameInit` by drops at the current drop targets,
`Moves` equals the number of occupied cells; when `Moves < 7` no player has four pieces in
a line; and `FindWinner` returns what the same scan returns without the `Moves < 7` test. -/
theorem FindWinner_gate_harmless (s : RoundState) (h : Reachable s) :
    s.Moves = (occupiedCells s.Scene : Int) ∧
    (s.Moves < 7 → ¬ HasLine s.Scene 1 ∧ ¬ HasLine s.Scene 2) ∧
    FindWinner s = FindWinnerScan s :=
  ⟨h.moves_eq_occupied, h.no_line_before_seven, h.findWinner_eq_scan⟩

/-- Witness for C22 at the position after the drops 3, 3, 4 of a game the user began. -/
theorem FindWinner_gate_harmless_witness :
    Reachable openingState ∧ openingState.Moves = 3 ∧
    openingState.Moves = (occupiedCells openingState.Scene : Int) ∧
    (openingState.Moves < 7 →
      ¬ HasLine openingState.Scene 1 ∧ ¬ HasLine openingState.Scene 2) ∧
    FindWinner openingState = FindWinnerScan openingState :=
  ⟨Reachable_openingState, by decide,
   FindWinner_gate_harmless openingState Reachable_openingState⟩

/-! ## Termination of the search: fuel and simulated lines -/

/-- When the nested call returns, an iteration of the fuelled loop is the iteration of
`EvaluateBestMove`. -/
theorem EvaluateBestMoveStepFuel_some
    (evalFuel : RoundState → List Int → Option (Int × List Int))
    (evalNext : RoundState → List Int → Int × List Int)
    (h : ∀ st v, evalFuel st v = some (evalNext st v)) (a : SearchLoop) (i : Int) :
    EvaluateBestMoveStepFuel evalFuel (some a) i = some (EvaluateBestMoveStep evalNext a i) := by
  unfold EvaluateBestMoveStepFuel
  dsimp only
  by_cases hfull : readAt2 a.state.NextMove i 0 = -1
  · rw [if_pos hfull]
    unfold EvaluateBestMoveStep
    rw [if_pos hfull]
  · rw [if_neg hfull, h]
    dsimp only
    unfold EvaluateBestMoveStep
    rw [if_neg hfull]

theorem foldl_EvaluateBestMoveStepFuel_some
    (evalFuel : RoundState → List Int → Option (Int × List Int))
    (evalNext : RoundState → List Int → Int × List Int)
    (h : ∀ st v, evalFuel st v = some (evalNext st v)) (l : List Int) :
    ∀ a : SearchLoop, l.foldl (EvaluateBestMoveStepFuel evalFuel) (some a)
      = some (l.foldl (EvaluateBestMoveStep evalNext) a) := by
  induction l with
  | nil => intro a; rfl
  | cons i l ih =>
    intro a
    rw [List.foldl_cons, List.foldl_cons, EvaluateBestMoveStepFuel_some evalFuel evalNext h, ih]

theorem EvaluateBestMoveFuelWith_some
    (evalFuel : RoundState → List Int → Option (Int × List Int))
    (evalNext : RoundState → List Int → Int × List Int)
    (h : ∀ st v, evalFuel st v = some (evalNext st v)) (state : RoundState) (vp : List Int) :
    EvaluateBestMoveFuelWith evalFuel state vp = some (EvaluateBestMoveWith evalNext state vp) := by
  unfold EvaluateBestMoveFuelWith EvaluateBestMoveWith EvaluateBestMoveLoop
  rw [foldl_EvaluateBestMoveStepFuel_some evalFuel evalNext h]

/-- A value of `int` is what an `int` holds after it is computed. -/
theorem wrapInt_of_isInt (z : Int) (h : IsInt z) : wrapInt z = z := by
  unfold IsInt at h
  unfold wrapInt
  omega

theorem isInt_wrapInt (z : Int) : IsInt (wrapInt z) := by
  unfold IsInt wrapInt
  omega

/-- With more fuel than plies left, the source's recursion returns, and it returns the value
of `EvaluatePosition`; no `depth + 1` formed on the way leaves the range of `int`. -/
theorem EvaluatePositionFuel_enough :
    ∀ (fuel : Nat) (state : RoundState) (vp : List Int) (depth : Int),
      -2147483648 ≤ depth → (MaxDepth - depth).toNat + 1 ≤ fuel →
      EvaluatePositionFuel fuel state vp depth = some (EvaluatePosition state vp depth) := by
  intro fuel
  induction fuel with
  | zero => intro state vp depth _ h; omega
  | succ fuel ih =>
    intro state vp depth hlow h
    rw [EvaluatePosition_eq]
    unfold EvaluatePositionFuel
    by_cases hc : FindWinner state ≠ -1 ∨ depth ≥ MaxDepth
    · rw [if_pos hc, if_pos hc]
    · rw [if_neg hc, if_neg hc]
      have hM : MaxDepth = 8 := rfl
      have hd : ¬ depth ≥ MaxDepth := fun hd => hc (Or.inr hd)
      have hw : wrapInt (depth + 1) = depth + 1 :=
        wrapInt_of_isInt _ ⟨by omega, by omega⟩
      rw [hw]
      have hnext : ∀ st v, EvaluatePositionFuel fuel st v (depth + 1)
          = some (EvaluatePosition st v (depth + 1)) := by
        intro st v
        apply ih
        · omega
        · omega
      rw [EvaluateBestMoveFuelWith_some _ (fun st v => EvaluatePosition st v (depth + 1)) hnext]
      rfl

/-- The function `EvaluateBestMove` returns at every depth: with more fuel than plies left
below the depth of its nested calls, which is `depth + 1` computed in `int`, it returns
the loop over `EvaluatePosition` at that depth. -/
theorem EvaluateBestMoveFuel_enough (fuel : Nat) (state : RoundState) (vp : List Int)
    (depth : Int) (h : (MaxDepth - wrapInt (depth + 1)).toNat + 1 ≤ fuel) :
    EvaluateBestMoveFuel fuel state vp depth
      = some (EvaluateBestMoveWith (fun st v => EvaluatePosition st v (wrapInt (depth + 1)))
          state vp) := by
  unfold EvaluateBestMoveFuel
  exact EvaluateBestMoveFuelWith_some _ (fun st v => EvaluatePosition st v (wrapInt (depth + 1)))
    (fun st v => EvaluatePositionFuel_enough fuel st v (wrapInt (depth + 1))
      (isInt_wrapInt _).1 h) state vp

/-- Below the largest `int` the nested calls are at `depth + 1` and the loop is
`EvaluateBestMove`. -/
theorem EvaluateBestMoveWith_wrapInt (state : RoundState) (vp : List Int) (depth : Int)
    (hlow : -2147483648 ≤ depth) (hhigh : depth < 2147483647) :
    EvaluateBestMoveWith (fun st v => EvaluatePosition st v (wrapInt (depth + 1))) state vp
      = EvaluateBestMove state vp depth := by
  rw [wrapInt_of_isInt _ ⟨by omega, by omega⟩]
  rfl

/-- At `depth >= MaxDepth` the position is rated at once. -/
theorem EvaluatePosition_at_MaxDepth (state : RoundState) (vp : List Int) (depth : Int)
    (h : MaxDepth ≤ depth) :
    EvaluatePosition state vp depth = (terminalRating (FindWinner state), vp) := by
  rw [EvaluatePosition_eq, if_pos (Or.inr h)]

/-- An iteration of the column loop leaves the move counter as it found it. -/
theorem callsStep_Moves (callsNext : RoundState → List RoundState)
    (acc : RoundState × List RoundState) (i : Int) :
    (callsStep callsNext acc i).1.Moves = acc.1.Moves := by
  unfold callsStep
  split
  · rfl
  · show acc.1.Moves + 1 - 1 = acc.1.Moves
    omega

theorem callsStep_visits (callsNext : RoundState → List RoundState) (b : Nat)
    (hnext : ∀ s1, ∀ st ∈ callsNext s1, s1.Moves ≤ st.Moves ∧ st.Moves ≤ s1.Moves + b)
    (acc : RoundState × List RoundState) (i : Int)
    (hacc : ∀ st ∈ acc.2, acc.1.Moves + 1 ≤ st.Moves ∧ st.Moves ≤ acc.1.Moves + 1 + b) :
    ∀ st ∈ (callsStep callsNext acc i).2,
      acc.1.Moves + 1 ≤ st.Moves ∧ st.Moves ≤ acc.1.Moves + 1 + b := by
  unfold callsStep
  split
  · exact hacc
  · intro st hst
    dsimp only at hst
    rcases List.mem_append.1 hst with h | h
    · exact hacc st h
    · have := hnext _ st h
      have hm : (MakeMove acc.1 (readAt2 acc.1.NextMove i 0) (readAt2 acc.1.NextMove i 1)).Moves
          = acc.1.Moves + 1 := rfl
      rw [hm] at this
      exact this

theorem foldl_callsStep_visits (callsNext : RoundState → List RoundState) (b : Nat)
    (hnext : ∀ s1, ∀ st ∈ callsNext s1, s1.Moves ≤ st.Moves ∧ st.Moves ≤ s1.Moves + b)
    (l : List Int) :
    ∀ (acc : RoundState × List RoundState),
      (∀ st ∈ acc.2, acc.1.Moves + 1 ≤ st.Moves ∧ st.Moves ≤ acc.1.Moves + 1 + b) →
      ∀ st ∈ (l.foldl (callsStep callsNext) acc).2,
        acc.1.Moves + 1 ≤ st.Moves ∧ st.Moves ≤ acc.1.Moves + 1 + b := by
  induction l with
  | nil => intro acc hacc; exact hacc
  | cons i l ih =>
    intro acc hacc
    rw [List.foldl_cons]
    have h1 := callsStep_visits callsNext b hnext acc i hacc
    have hm := callsStep_Moves callsNext acc i
    have h2 := ih (callsStep callsNext acc i) (by rw [hm]; exact h1)
    rw [hm] at h2
    exact h2

/-- Every position `EvaluatePosition` visits with `budget` plies left lies at most `budget`
simulated moves beyond the position it was called on. -/
theorem EvaluatePositionVisits_Moves :
    ∀ (budget : Nat) (state : RoundState), ∀ st ∈ EvaluatePositionVisits budget state,
      state.Moves ≤ st.Moves ∧ st.Moves ≤ state.Moves + budget := by
  intro budget
  induction budget with
  | zero =>
    intro state st hst
    simp only [EvaluatePositionVisits, List.mem_singleton] at hst
    subst hst
    exact ⟨le_refl _, by simp⟩
  | succ b ih =>
    intro state st hst
    unfold EvaluatePositionVisits at hst
    by_cases hc : FindWinner state ≠ -1
    · rw [if_pos hc, List.mem_singleton] at hst
      subst hst
      exact ⟨le_refl _, by push_cast; omega⟩
    · rw [if_neg hc, List.mem_cons] at hst
      rcases hst with rfl | hst
      · exact ⟨le_refl _, by push_cast; omega⟩
      · have := foldl_callsStep_visits (EvaluatePositionVisits b) b ih (upTo MaxX) (state, [])
          (by intro st h; simp at h) st hst
        dsimp only at this
        push_cast
        omega

/-- Every position visited by a search started at depth 0 lies between one and `MaxDepth`
simulated moves beyond the root. -/
theorem searchVisits_Moves (state : RoundState) :
    ∀ st ∈ searchVisits state 0,
      state.Moves + 1 ≤ st.Moves ∧ st.Moves ≤ state.Moves + MaxDepth := by
  intro st hst
  unfold searchVisits at hst
  have := foldl_callsStep_visits (EvaluatePositionVisits (MaxDepth - (0 + 1)).toNat)
    (MaxDepth - (0 + 1)).toNat (EvaluatePositionVisits_Moves _) (upTo MaxX) (state, [])
    (by intro st h; simp at h) st hst
  dsimp only at this
  have hb : ((MaxDepth - (0 + 1)).toNat : Int) = MaxDepth - 1 := by decide
  rw [hb] at this
  omega

/-- On the 38-move position `drawnEndState` the recursion nests five calls of
`EvaluatePosition`: four units of fuel do not suffice, five do. -/
theorem EvaluatePositionFuel_drawnEndState :
    EvaluatePositionFuel 4 drawnEndState zeroTally 0 = none ∧
    EvaluatePositionFuel 5 drawnEndState zeroTally 0
      = some (EvaluatePosition drawnEndState zeroTally 0) := by
  constructor <;> decide

/-- At the largest `int` the nested calls of `EvaluateBestMove` are at the smallest `int`,
far below `MaxDepth`: on `drawnEndState` the search runs on until the board is full, four
calls of `EvaluatePosition` deep, and returns the rating `NeutralPosition - 1` with no
column assigned. -/
theorem EvaluateBestMoveFuel_largest_depth :
    wrapInt (2147483647 + 1) = -2147483648 ∧
    EvaluateBestMoveFuel 3 drawnEndState zeroTally 2147483647 = none ∧
    EvaluateBestMoveFuel 4 drawnEndState zeroTally 2147483647
      = some { BestMoveX := none, MoveRating := NeutralPosition - 1,
               VictoryProbability := zeroTally } := by
  set_option maxRecDepth 100000 in decide

/-! ## Claim C23 -/

/-- C23: for every state and every depth that is a value of `int`, the recursion of
`EvaluateBestMove` and `EvaluatePosition` terminates. Read as the source writes it, with
the test `depth >= MaxDepth` and every nested call at `depth + 1` computed in `int`,
`EvaluatePosition` returns as soon as the fuel exceeds the plies left, with the value of
the model, and `EvaluateBestMove` returns as soon as the fuel exceeds the plies left below
the depth of its nested calls. Below the largest `int` that depth is `depth + 1` and the
result is that of the model `EvaluateBestMove`; at the largest `int` it wraps to the
smallest. At `depth >= MaxDepth` a position is rated at once. When the move counter has
room for `MaxDepth` more moves, every position visited by a search started at depth 0 lies
between one and `MaxDepth` simulated moves beyond the root. -/
theorem search_terminates (state : RoundState) (vp : List Int) (depth : Int)
    (hdepth : IsInt depth) :
    (∀ fuel, (MaxDepth - depth).toNat + 1 ≤ fuel →
      EvaluatePositionFuel fuel state vp depth = some (EvaluatePosition state vp depth)) ∧
    (∀ fuel, (MaxDepth - wrapInt (depth + 1)).toNat + 1 ≤ fuel →
      EvaluateBestMoveFuel fuel state vp depth
        = some (EvaluateBestMoveWith
            (fun st v => EvaluatePosition st v (wrapInt (depth + 1))) state vp)) ∧
    (depth < 2147483647 → ∀ fuel, (MaxDepth - (depth + 1)).toNat + 1 ≤ fuel →
      EvaluateBestMoveFuel fuel state vp depth = some (EvaluateBestMove state vp depth)) ∧
    (MaxDepth ≤ depth →
      EvaluatePosition state vp depth = (terminalRating (FindWinner state), vp)) ∧
    (IsInt state.Moves → IsInt (state.Moves + MaxDepth) →
      ∀ st ∈ searchVisits state 0,
        state.Moves + 1 ≤ st.Moves ∧ st.Moves ≤ state.Moves + MaxDepth) := by
  refine ⟨fun fuel h => EvaluatePositionFuel_enough fuel state vp depth hdepth.1 h,
    fun fuel h => EvaluateBestMoveFuel_enough fuel state vp depth h, ?_,
    EvaluatePosition_at_MaxDepth state vp depth, fun _ _ => searchVisits_Moves state⟩
  intro hhigh fuel h
  have hw : wrapInt (depth + 1) = depth + 1 :=
    wrapInt_of_isInt _ ⟨by have := hdepth.1; omega, by omega⟩
  rw [← EvaluateBestMoveWith_wrapInt state vp depth hdepth.1 hhigh]
  apply EvaluateBestMoveFuel_enough
  rw [hw]
  exact h

/-- Witness for C23 at the two ends of `int` on `drawnEndState`: at depth 0 nine units of
fuel suffice, at the largest `int` the nested calls start at the smallest `int`. -/
theorem search_terminates_witness :
    IsInt 0 ∧ IsInt 2147483647 ∧
    EvaluatePositionFuel 9 drawnEndState zeroTally 0
      = some (EvaluatePosition drawnEndState zeroTally 0) ∧
    EvaluateBestMoveFuel 8 drawnEndState zeroTally 0
      = some (EvaluateBestMove drawnEndState zeroTally 0) ∧
    EvaluateBestMoveFuel 2147483657 drawnEndState zeroTally 2147483647
      = some (EvaluateBestMoveWith
          (fun st v => EvaluatePosition st v (wrapInt (2147483647 + 1)))
          drawnEndState zeroTally) :=
  ⟨by decide, by decide,
   (search_terminates drawnEndState zeroTally 0 (by decide)).1 9 (by decide),
   (search_terminates drawnEndState zeroTally 0 (by decide)).2.2.1 (by decide) 8 (by decide),
   (search_terminates drawnEndState zeroTally 2147483647 (by decide)).2.1 2147483657
     (by decide)⟩

/-! ## The hard-mode game loop on a full board -/

theorem play_CurrentPlayer (cols : List Int) :
    ∀ s : RoundState, (play s cols).CurrentPlayer =
      if cols.length % 2 = 0 then s.CurrentPlayer else Opponent s.CurrentPlayer := by
  induction cols with
  | nil => intro s; rfl
  | cons x xs ih =>
    intro s
    have hstep : play s (x :: xs) = play (dropAt s x) xs := rfl
    have hcp : (dropAt s x).CurrentPlayer = Opponent s.CurrentPlayer := rfl
    rw [hstep, ih, hcp, List.length_cons, Opponent_Opponent]
    by_cases h : xs.length % 2 = 0
    · rw [if_pos h, if_neg (by omega)]
    · rw [if_neg h, if_pos (by omega)]

theorem boardCells_card : boardCells.card = 42 := by
  decide

/-- A well-formed state whose 42 cells are all occupied has no column left to drop into. -/
theorem WellFormed.full_of_occupied {s : RoundState} (hwf : WellFormed s)
    (h : occupiedCells s.Scene = 42) : ∀ x ∈ upTo MaxX, ¬ NonFull s x := by
  intro x hx hnf
  obtain ⟨hy, h0, _⟩ := hwf.open_of_nonFull hx hnf
  have hmem : (readAt2 s.NextMove x 1, x) ∈ boardCells :=
    (mem_boardCells _ x).2 ⟨(mem_upTo_MaxY _).1 hy, (mem_upTo_MaxX x).1 hx⟩
  have hsub : boardCells.filter (fun cell => readAt2 s.Scene cell.1 cell.2 = PLAYER.PLAYER_A.toInt)
      ∪ boardCells.filter (fun cell => readAt2 s.Scene cell.1 cell.2 = PLAYER.PLAYER_B.toInt)
      ⊆ boardCells.erase (readAt2 s.NextMove x 1, x) := by
    intro c hc
    rw [Finset.mem_union, Finset.mem_filter, Finset.mem_filter] at hc
    rw [Finset.mem_erase]
    constructor
    · rintro rfl
      rcases hc with ⟨_, hp⟩ | ⟨_, hp⟩ <;> · rw [h0] at hp; exact absurd hp (by decide)
    · rcases hc with hp | hp <;> exact hp.1
  have hdisj : Disjoint
      (boardCells.filter (fun cell => readAt2 s.Scene cell.1 cell.2 = PLAYER.PLAYER_A.toInt))
      (boardCells.filter (fun cell => readAt2 s.Scene cell.1 cell.2 = PLAYER.PLAYER_B.toInt)) := by
    rw [Finset.disjoint_filter]
    intro c _ h1 h2
    rw [h1] at h2
    exact absurd h2 (by decide)
  have hle := Finset.card_le_card hsub
  rw [Finset.card_union_of_disjoint hdisj, Finset.card_erase_of_mem hmem, boardCells_card] at hle
  unfold occupiedCells pieceCount at h
  omega

theorem foldl_EvaluateBestMoveStep_allFull
    (evalNext : RoundState → List Int → Int × List Int) (l : List Int) (acc : SearchLoop)
    (h : ∀ i ∈ l, ¬ NonFull acc.state i) :
    l.foldl (EvaluateBestMoveStep evalNext) acc = acc := by
  induction l with
  | nil => rfl
  | cons i l ih =>
    rw [List.foldl_cons, EvaluateBestMoveStep_full evalNext acc i (h i (List.mem_cons_self _ _))]
    exact ih (fun j hj => h j (List.mem_cons_of_mem _ hj))

/-- On a state whose columns are all full the loop of `EvaluateBestMove` has no candidate
and ends as it began. -/
theorem EvaluateBestMoveLoop_allFull (evalNext : RoundState → List Int → Int × List Int)
    (s : RoundState) (vp : List Int) (h : ∀ i ∈ upTo MaxX, ¬ NonFull s i) :
    EvaluateBestMoveLoop evalNext s vp =
      { state := s, VictoryProbability := vp, BestMoveX := none,
        MaxRating := NeutralPosition - 1 } := by
  unfold EvaluateBestMoveLoop
  exact foldl_EvaluateBestMoveStep_allFull evalNext _ _ h

/-- On a state whose columns are all full `DetermineBestMove` returns its never-assigned
`BestX`. -/
theorem DetermineBestMove_allFull (s : RoundState) (vp : List Int)
    (h : ∀ i ∈ upTo MaxX, ¬ NonFull s i) : (DetermineBestMove s vp).1 = none := by
  have hl := EvaluateBestMoveLoop_allFull (fun st v => EvaluatePosition st v (0 + 1)) s vp h
  have hr : (EvaluateBestMove s vp 0).MoveRating ≠ NeutralPosition := by
    rw [EvaluateBestMove_MoveRating, hl]
    dsimp only
    split <;> decide
  rw [DetermineBestMove_fst_of_ne s vp hr, EvaluateBestMove_BestMoveX, hl]

/-- On a well-formed state whose columns are all full no input of the user is accepted. -/
theorem readUserMove_allFull (s : RoundState) (hwf : WellFormed s)
    (h : ∀ i ∈ upTo MaxX, ¬ NonFull s i) : ∀ inputs, readUserMove s inputs = none := by
  intro inputs
  induction inputs with
  | nil => rfl
  | cons x rest ih =>
    unfold readUserMove
    have hc : CheckNextStep s x (CalculateCoordinateY s x) = false := by
      cases hc : CheckNextStep s x (CalculateCoordinateY s x) with
      | false => rfl
      | true =>
        obtain ⟨hx, _, hxx, _⟩ := (CheckNextStep_true_iff s hwf x _).1 hc
        have hfull := h x ((mem_upTo_MaxX x).2 hx)
        unfold NonFull at hfull
        omega
    rw [hc]
    exact ih

/-- One iteration of the loop on a state that passes the guard, when the turn's move
cannot be had. -/
theorem GameMain_HardModeWith_stuck
    (bestMove : RoundState → List Int → Option Int × Int × List Int)
    (s : RoundState) (hguard : hardModeGuard s = true)
    (fuel : Nat) (vp inputs : List Int) :
    (s.CurrentPlayer = PLAYER.PLAYER_A → readUserMove s inputs = none →
      GameMain_HardModeWith bestMove (fuel + 1) s vp inputs
        = ([], HardModeEnd.awaitingInput s)) ∧
    (s.CurrentPlayer = PLAYER.PLAYER_B → (bestMove s vp).1 = none →
      GameMain_HardModeWith bestMove (fuel + 1) s vp inputs
        = ([s], HardModeEnd.unassignedColumn s)) := by
  constructor
  · intro hcp hread
    unfold GameMain_HardModeWith
    rw [if_pos hguard, hcp]
    dsimp only
    rw [hread]
  · intro hcp hbest
    unfold GameMain_HardModeWith
    rw [if_pos hguard, hcp]
    dsimp only
    rw [hbest]

/-- When the loop of `GameMain_HardMode` is entered on a well-formed state whose columns
are all full, it asks for another move: on the user's turn it waits for an input that
cannot be accepted, on the computer's turn it calls `DetermineBestMove` on that state and
gets the unassigned `BestX`. -/
theorem GameMain_HardMode_allFull (s : RoundState) (hwf : WellFormed s)
    (hguard : hardModeGuard s = true) (h : ∀ i ∈ upTo MaxX, ¬ NonFull s i)
    (fuel : Nat) (vp inputs : List Int) :
    (s.CurrentPlayer = PLAYER.PLAYER_A →
      GameMain_HardMode (fuel + 1) s vp inputs = ([], HardModeEnd.awaitingInput s)) ∧
    (s.CurrentPlayer = PLAYER.PLAYER_B →
      GameMain_HardMode (fuel + 1) s vp inputs = ([s], HardModeEnd.unassignedColumn s)) := by
  have hstuck := GameMain_HardModeWith_stuck DetermineBestMove s hguard fuel vp inputs
  unfold GameMain_HardMode
  exact ⟨fun hcp => hstuck.1 hcp (readUserMove_allFull s hwf h inputs),
    fun hcp => hstuck.2 hcp (DetermineBestMove_allFull s vp h)⟩

/-- The listed game is a legal play from `GameInit` with the computer to begin, it passes
through the listed positions, and the user's inputs are its drops at the odd positions. -/
theorem hardModeMoves_play :
    legalPlay (GameInit PLAYER.PLAYER_B).1 hardModeMoves = true ∧
    play (GameInit PLAYER.PLAYER_B).1 (hardModeMoves.take 38) = hardModeLateState ∧
    play (GameInit PLAYER.PLAYER_B).1 (hardModeMoves.take 40) = hardModeNextState ∧
    play (GameInit PLAYER.PLAYER_B).1 hardModeMoves = hardModeFullState ∧
    (List.range 21).map (fun k => hardModeMoves.getD (2 * k + 1) 0) = hardModeInputs ∧
    hardModeInputs.drop 19 = [4, 2] := by
  set_option maxRecDepth 100000 in decide

/-- From the position after 38 drops, with the user's last two inputs 4 and 2, the loop of
`GameMain_HardMode` calls `DetermineBestMove` on the positions after 38, 40 and 42 drops;
the last is the full board, where the call returns the unassigned `BestX`. -/
theorem GameMain_HardMode_late_run :
    GameMain_HardMode 5 hardModeLateState zeroTally [4, 2] =
      ([hardModeLateState, hardModeNextState, hardModeFullState],
       HardModeEnd.unassignedColumn hardModeFullState) ∧
    FindWinner hardModeFullState = -1 ∧
    (∀ x ∈ upTo MaxX, ¬ NonFull hardModeFullState x) := by
  set_option maxRecDepth 100000 in decide

/-! ## Claim C21 -/

/-- C21, as the code behaves. Let a game from `GameInit` reach, by drops at the current drop
targets, a board with all `(MaxX+1)*(MaxY+1)` cells occupied on which `FindWinner` reports
nobody. Then the guard of the loop of `GameMain_HardMode` is true, not false: `Moves` is
42 and the guard tests `Moves <= 42`. Every column is full and the player who began is to
move, so when the computer began the loop calls `DetermineBestMove` on the full board and
gets the unassigned `BestX`, and when the user began it waits for an input that cannot be
accepted. -/
theorem GameMain_HardMode_full_board (player : PLAYER) (cols : List Int)
    (hlegal : legalPlay (GameInit player).1 cols = true)
    (hfull : (occupiedCells (play (GameInit player).1 cols).Scene : Int)
      = (MaxX + 1) * (MaxY + 1))
    (hdraw : FindWinner (play (GameInit player).1 cols) = -1) :
    hardModeGuard (play (GameInit player).1 cols) = true ∧
    (play (GameInit player).1 cols).CurrentPlayer = player ∧
    (∀ x ∈ upTo MaxX, ¬ NonFull (play (GameInit player).1 cols) x) ∧
    ∀ (fuel : Nat) (vp inputs : List Int),
      (player = PLAYER.PLAYER_A →
        GameMain_HardMode (fuel + 1) (play (GameInit player).1 cols) vp inputs
          = ([], HardModeEnd.awaitingInput (play (GameInit player).1 cols))) ∧
      (player = PLAYER.PLAYER_B →
        GameMain_HardMode (fuel + 1) (play (GameInit player).1 cols) vp inputs
          = ([play (GameInit player).1 cols],
             HardModeEnd.unassignedColumn (play (GameInit player).1 cols))) := by
  have hreach : Reachable (play (GameInit player).1 cols) :=
    Reachable_play (Reachable.init player) cols hlegal
  have hwf := hreach.wellFormed
  have hocc := hreach.moves_eq_occupied
  have hsize : (MaxX + 1) * (MaxY + 1) = 42 := by decide
  have hmoves : (play (GameInit player).1 cols).Moves = 42 := by
    rw [hocc, hfull, hsize]
  have hlen : cols.length = 42 := by
    have h0 : (GameInit player).1.Moves = 0 := rfl
    have := play_Moves cols (GameInit player).1
    rw [hmoves, h0] at this
    omega
  have hguard : hardModeGuard (play (GameInit player).1 cols) = true := by
    unfold hardModeGuard
    rw [hdraw, hmoves]
    decide
  have hcp : (play (GameInit player).1 cols).CurrentPlayer = player := by
    rw [play_CurrentPlayer, hlen]
    rfl
  have hcols : ∀ x ∈ upTo MaxX, ¬ NonFull (play (GameInit player).1 cols) x := by
    apply hwf.full_of_occupied
    rw [hsize] at hfull
    exact_mod_cast hfull
  refine ⟨hguard, hcp, hcols, ?_⟩
  intro fuel vp inputs
  have hrun := GameMain_HardMode_allFull _ hwf hguard hcols fuel vp inputs
  rw [hcp] at hrun
  exact hrun

/-- C21 at the listed game: the computer began, the 42 drops are legal and fill the board,
nobody has won, and the loop calls `DetermineBestMove` on the full board. -/
theorem GameMain_HardMode_full_board_witness :
    legalPlay (GameInit PLAYER.PLAYER_B).1 hardModeMoves = true ∧
    (occupiedCells (play (GameInit PLAYER.PLAYER_B).1 hardModeMoves).Scene : Int)
      = (MaxX + 1) * (MaxY + 1) ∧
    FindWinner (play (GameInit PLAYER.PLAYER_B).1 hardModeMoves) = -1 ∧
    hardModeGuard (play (GameInit PLAYER.PLAYER_B).1 hardModeMoves) = true ∧
    (∀ x ∈ upTo MaxX, ¬ NonFull (play (GameInit PLAYER.PLAYER_B).1 hardModeMoves) x) ∧
    GameMain_HardMode 1 (play (GameInit PLAYER.PLAYER_B).1 hardModeMoves) zeroTally []
      = ([play (GameInit PLAYER.PLAYER_B).1 hardModeMoves],
         HardModeEnd.unassignedColumn (play (GameInit PLAYER.PLAYER_B).1 hardModeMoves)) :=
  have h := GameMain_HardMode_full_board PLAYER.PLAYER_B hardModeMoves
    (by set_option maxRecDepth 100000 in decide)
    (by set_option maxRecDepth 100000 in decide)
    (by set_option maxRecDepth 100000 in decide)
  ⟨by set_option maxRecDepth 100000 in decide, by set_option maxRecDepth 100000 in decide,
   by set_option maxRecDepth 100000 in decide, h.1, h.2.2.1, (h.2.2.2 0 zeroTally []).2 rfl⟩

/-! ## Claim C4 -/

/-- C4, at the failing input. The position `missedWinState` is reached from `GameInit` by
legal drops, nobody has a line, the computer is to move, the tally table is all zero, and
the drop into the non-full column 3 completes a computer four and is rated `WinPosition`.
The drop into column 4 completes nothing: after it the user's only drop, into column 3,
fills the board with no line for anybody. The search of that full board returns its
initial `NeutralPosition - 1`, which the user's ply hands up negated, so column 4 is rated
`WinPosition + 1` and `DetermineBestMove` returns column 4. -/
theorem DetermineBestMove_forgoes_win :
    play (GameInit PLAYER.PLAYER_B).1 missedWinMoves = missedWinState ∧
    legalPlay (GameInit PLAYER.PLAYER_B).1 missedWinMoves = true ∧
    ¬ HasLine missedWinState.Scene PLAYER.PLAYER_A.toInt ∧
    ¬ HasLine missedWinState.Scene PLAYER.PLAYER_B.toInt ∧
    missedWinState.CurrentPlayer = PLAYER.PLAYER_B ∧
    (∀ i ∈ upTo MaxX, readAt zeroTally i = 0) ∧
    (∀ i ∈ upTo MaxX, NonFull missedWinState i ↔ i = 3 ∨ i = 4) ∧
    HasLine (dropAt missedWinState 3).Scene PLAYER.PLAYER_B.toInt ∧
    FindWinner (dropAt missedWinState 3) = PLAYER.PLAYER_B.toInt ∧
    ¬ HasLine (dropAt missedWinState 4).Scene PLAYER.PLAYER_B.toInt ∧
    rawRating missedWinState 0 zeroTally 3 = WinPosition ∧
    rawRating missedWinState 0 zeroTally 4 = WinPosition + 1 ∧
    WinPosition + 1 = -(NeutralPosition - 1) ∧
    DetermineBestMove missedWinState zeroTally = (some 4, WinPosition + 1, zeroTally) ∧
    (∀ i ∈ upTo MaxX, NonFull (dropAt missedWinState 4) i ↔ i = 3) ∧
    (∀ i ∈ upTo MaxX, ¬ NonFull (play missedWinState [4, 3]) i) ∧
    FindWinner (play missedWinState [4, 3]) = -1 ∧
    (EvaluateBestMove (play missedWinState [4, 3]) zeroTally 2).MoveRating
      = NeutralPosition - 1 := by
  set_option maxRecDepth 100000 in decide

/-! ## Claim C5 -/

/-- C5, at the failing input. The position `openThreatState` is reached from `GameInit` by
legal drops, nobody has a line, the computer is to move, the tally table is all zero, the
user would complete four in row 1 at the drop target of column 3, and no computer drop
completes a computer four. The blocking drop into column 3 is rated `NeutralPosition - 1`:
the ratings after the user's replies 3, 5 and 6 are 1001, 1000 and 1001, the loop takes
their maximum and the user's ply negates it. The drop into column 6, after which the user
wins whatever follows, is rated `LosePosition`, the greater number, and `DetermineBestMove`
returns column 6; the user then completes four by dropping into column 3. After the
blocking drop no drop of the user completes four, and to each of them the computer has a
reply that completes a computer four or leads to the full board with no line. -/
theorem DetermineBestMove_leaves_threat :
    play (GameInit PLAYER.PLAYER_B).1 openThreatMoves = openThreatState ∧
    legalPlay (GameInit PLAYER.PLAYER_B).1 openThreatMoves = true ∧
    ¬ HasLine openThreatState.Scene PLAYER.PLAYER_A.toInt ∧
    ¬ HasLine openThreatState.Scene PLAYER.PLAYER_B.toInt ∧
    openThreatState.CurrentPlayer = PLAYER.PLAYER_B ∧
    (∀ i ∈ upTo MaxX, readAt zeroTally i = 0) ∧
    (∀ i ∈ upTo MaxX, NonFull openThreatState i ↔ i = 3 ∨ i = 5 ∨ i = 6) ∧
    readAt2 openThreatState.NextMove 3 1 = 1 ∧
    FourAt (dropAt (withPlayer openThreatState PLAYER.PLAYER_A) 3).Scene
      PLAYER.PLAYER_A.toInt 0 1 1 0 ∧
    (∀ j ∈ upTo MaxX, NonFull openThreatState j →
      ¬ HasLine (dropAt openThreatState j).Scene PLAYER.PLAYER_B.toInt) ∧
    rawRating openThreatState 0 zeroTally 3 = NeutralPosition - 1 ∧
    (EvaluatePosition (play openThreatState [3, 3]) zeroTally 2).1 = 1001 ∧
    (EvaluatePosition (play openThreatState [3, 5]) zeroTally 2).1 = 1000 ∧
    (EvaluatePosition (play openThreatState [3, 6]) zeroTally 2).1 = 1001 ∧
    rawRating openThreatState 0 zeroTally 5 = NeutralPosition - 1 ∧
    rawRating openThreatState 0 zeroTally 6 = LosePosition ∧
    DetermineBestMove openThreatState zeroTally = (some 6, LosePosition, zeroTally) ∧
    legalPlay openThreatState [6, 3] = true ∧
    FindWinner (play openThreatState [6, 3]) = PLAYER.PLAYER_A.toInt ∧
    (∀ j ∈ upTo MaxX, NonFull (dropAt openThreatState 3) j →
      FindWinner (play openThreatState [3, j]) = -1 ∧
      ∃ k ∈ upTo MaxX, NonFull (play openThreatState [3, j]) k ∧
        (FindWinner (play openThreatState [3, j, k]) = PLAYER.PLAYER_B.toInt ∨
          (FindWinner (play openThreatState [3, j, k]) = -1 ∧
            ∀ l ∈ upTo MaxX, NonFull (play openThreatState [3, j, k]) l →
              FindWinner (play openThreatState [3, j, k, l]) = -1 ∧
              ∀ i ∈ upTo MaxX, ¬ NonFull (play openThreatState [3, j, k, l]) i))) := by
  set_option maxRecDepth 100000 in decide

end Connect4
